import Mathlib

/-!
# SoapyRFNM receive streaming: embedding of `src/soapy_rfnm.cpp`

The device object and the part of `librfnm` it talks to are modelled as one
explicit state value. Sizes and counts (`size_t`) are natural numbers. Where
the source subtracts, the minuend is at least the subtrahend (by the clamp
`can_write_bytes ≤ left`, by the guard `read_elems + E > numElems`, and because
`overflowing_by_elems < E` inside the loop), so truncated subtraction agrees
with `size_t`; the products `numElems * bytes_per_ele` are those of a caller
whose output buffer really holds `numElems` elements, so they do not wrap. The
count `readStream` returns is `read_elems` converted to `int` (32 bits, two's
complement: `int_of_size_t`).

Exceptions are values of `Err` (one constructor per `throw` site, `Err.what`
gives the message). A call that throws still returns the state it had reached.
A failed `assert` of the DC templates ends the process; it is the outcome
`Err.assertion_failed`, and the state given with it is the one reached when
the assertion failed. Time is not represented: what `rx_dqbuf` answers is read
off a list of outcomes per channel, whatever the wait passed to it.

`float` is IEEE-754 binary32 with every operation rounded to nearest, ties to
even, and no contraction of a multiplication and an addition into one rounding.
Float values are held as rationals (`fround`): infinities and NaNs are not
represented, so a result beyond the largest finite float keeps 24 significant
bits and `8.0f / n` with `n = 0` is 0; with the integer sample formats no
infinity arises for `0 < n < 2 ^ 64`.
-/

namespace SoapyRFNM

/-! ## Constants -/

/-- One byte of buffer memory. -/
abbrev Byte := Nat

/-- Modelled from the spec: the fixed maximum number of channels, 4. The header
`soapy_rfnm.h` that defines it is not among the sources; the tables
`librfnm_rx_chan_flags` and `librfnm_rx_chan_apply` it sizes have four entries. -/
def MAX_RX_CHAN_COUNT : Nat := 4

def SOAPY_SDR_TX : Int := 0
def SOAPY_SDR_RX : Int := 1

def SOAPY_SDR_CF32 : String := "CF32"
def SOAPY_SDR_CS16 : String := "CS16"
def SOAPY_SDR_CS8 : String := "CS8"

def RFNM_CH_OFF : Nat := 0
def RFNM_CH_ON : Nat := 1

/-- Stream format codes of librfnm; `readStream` uses the code as the number
of bytes per element. -/
def LIBRFNM_STREAM_FORMAT_CS8 : Nat := 2
def LIBRFNM_STREAM_FORMAT_CS16 : Nat := 4
def LIBRFNM_STREAM_FORMAT_CF32 : Nat := 8

/-- Entry `channel` of `librfnm_rx_chan_flags`. -/
def librfnm_rx_chan_flags (channel : Nat) : Nat := 2 ^ channel

/-- Entry `channel` of `librfnm_rx_chan_apply`. -/
def librfnm_rx_chan_apply (channel : Nat) : Nat := 2 ^ (8 + channel)

/-! ## Data model -/

/-- Result codes of `lrfnm->set`. -/
inductive rfnm_api_failcode where
  | RFNM_API_OK
  | RFNM_API_TUNE_FAIL
  | RFNM_API_GAIN_FAIL
  | RFNM_API_TIMEOUT
  | RFNM_API_USB_FAIL
  | RFNM_API_OTHER (code : Int)
  deriving DecidableEq, Repr

/-- The ways a call ends without returning: the `std::runtime_error`s thrown
by the driver, one per `throw` site, and `assertion_failed` for a failed
`assert`, on which the process aborts. -/
inductive Err where
  | nonexistent_channel
  | unsupported_sample_rate
  | timeout_activating_stream
  | multiple_streams_unsupported
  | invalid_format (format : String)
  | changing_stream_format
  | tuning_failure
  | gain_setting_failure
  | timeout_configuring
  | usb_failure_configuring
  | error_configuring
  | assertion_failed
  deriving DecidableEq, Repr

/-- Message carried by the exception (for a failed `assert`, the expression
that was asserted). -/
def Err.what : Err → String
  | .nonexistent_channel => "nonexistent channel"
  | .unsupported_sample_rate => "unsupported sample rate"
  | .timeout_activating_stream => "timeout activating stream"
  | .multiple_streams_unsupported => "multiple streams unsupported"
  | .invalid_format format => "setupStream invalid format " ++ format
  | .changing_stream_format => "changing stream format is unsupported"
  | .tuning_failure => "Tuning failure"
  | .gain_setting_failure => "Gain setting failure"
  | .timeout_configuring => "Timeout configuring RFNM"
  | .usb_failure_configuring => "USB failure configuring RFNM"
  | .error_configuring => "Error configuring RFNM"
  | .assertion_failed => "(n & 0x7) == 0"

/-- The errors raised by argument checks, before the hardware is touched
(channel index, format, second stream). -/
def Err.isValidation : Err → Bool
  | .nonexistent_channel => true
  | .multiple_streams_unsupported => true
  | .invalid_format _ => true
  | .changing_stream_format => true
  | _ => false

/-- Effects visible outside the driver, newest first in the log: the calls
made to librfnm and to the allocator, and every `memcpy` into the caller's
output buffer (`copy_out channel nbytes`). `rx_dqbuf channel ok` records a
dequeue for `librfnm_rx_chan_flags[channel]` and whether a buffer came back. -/
inductive HwCall where
  | set (applies : Nat)
  | rx_stream (format : Nat)
  | rx_stream_stop
  | rx_flush (timeout_ms : Nat)
  | rx_qbuf
  | rx_dqbuf (channel : Nat) (ok : Bool)
  | malloc (size : Nat)
  | copy_out (channel : Nat) (nbytes : Nat)
  deriving DecidableEq, Repr

/-- The fields of `lrfnm->s->rx.ch[i]` the driver reads or writes. -/
structure RxCh where
  enable : Nat
  freq : Int
  path : Nat
  samp_freq_div_n : Int
  gain : Int
  rfic_lpf_bw : Int
  deriving DecidableEq, Repr

/-- Modelled from the spec: element `partial_rx_buf[i]`, the carryover of a
channel (declared in `soapy_rfnm.h`): a buffer, the number of bytes not yet
delivered and the read cursor into the buffer. -/
structure PartialBuf where
  buf : List Byte
  left : Nat
  offset : Nat
  deriving DecidableEq, Repr

/-- Modelled from the spec: element `dc_offsets[i]` (declared in
`soapy_rfnm.h`): eight lane accumulators per sample format, each held as the
value of the stored sample. -/
structure DcOffsets where
  i8 : List ℚ
  i16 : List ℚ
  f32 : List ℚ
  deriving DecidableEq, Repr

/-- A hardware buffer handed out by `rx_dqbuf` (`struct librfnm_rx_buf`). -/
structure RxBuf where
  buf : List Byte
  usb_cc : Nat
  deriving DecidableEq, Repr

/-- Device state: the members of `SoapyRFNM`, the librfnm status words the
driver reads, the log of calls made to the hardware, and for each channel the
outcomes of the coming `rx_dqbuf` calls (`none` is a timeout; once the list is
used up the hardware delivers nothing more and every further call times out). -/
structure State where
  rx_chan_count : Nat
  rx_ch : Nat → RxCh
  dcs_clk : Nat
  rx_stream_format : Nat
  stream_setup : Bool
  outbufsize : Nat
  dc_correction : Nat → Bool
  dc_offsets : Nat → DcOffsets
  partial_rx_buf : Nat → PartialBuf
  streaming : Bool
  log : List HwCall
  rx_queue : Nat → List (Option RxBuf)

/-- What the platform, librfnm and the missing header fix and the driver
source does not: the buffer size `rx_stream` reports for a format, the number
of pool buffers `SOAPY_RFNM_BUFCNT`, the antenna name tables, and how a `float`
lies in four bytes (the value of the float the bytes hold, and the bytes of a
float of a given value). -/
structure Env where
  rx_stream_bufsize : Nat → Nat
  SOAPY_RFNM_BUFCNT : Nat
  string_to_rf_path : String → Nat
  rf_path_to_string : Nat → String
  float_load : List Byte → ℚ
  float_store : ℚ → List Byte

/-! ## Memory -/

/-- Effect of `memcpy(dst + off, src, n)` on the region `dst`. -/
def memcpy (dst : List Byte) (off : Nat) (src : List Byte) (n : Nat) : List Byte :=
  dst.take off ++ src.take n ++ dst.drop (off + n)

/-- Update of one array element. -/
def upd {α : Type} (f : Nat → α) (i : Nat) (v : α) : Nat → α :=
  fun k => if k = i then v else f k

/-! ## DC offset engine -/

/-- Position of the leading bit of `n`, found in at most `fuel` halvings. -/
def log2Aux : Nat → Nat → Nat
  | 0, _ => 0
  | fuel + 1, n => if 2 ≤ n then log2Aux fuel (n / 2) + 1 else 0

/-- Exponent `e` of the binade of a nonzero rational: `2 ^ e ≤ |q| < 2 ^ (e + 1)`. -/
def binade (q : ℚ) : Int :=
  let d : Int := (log2Aux q.num.natAbs q.num.natAbs : Int) - (log2Aux q.den q.den : Int)
  if (2 : ℚ) ^ d ≤ |q| then d else d - 1

/-- Nearest integer, ties to even. -/
def roundEven (x : ℚ) : Int :=
  let f := ⌊x⌋
  if x - f < 1 / 2 then f
  else if 1 / 2 < x - f then f + 1
  else if f % 2 = 0 then f else f + 1

/-- Exponent of the unit in the last place of the binary32 numbers around `q`:
24 significant bits, least exponent -126 (below it the subnormal spacing). -/
def ulpExp (q : ℚ) : Int := max (binade q) (-126) - 23

/-- Rounding of a real value to the nearest binary32 number, ties to even. -/
def fround (q : ℚ) : ℚ :=
  if q = 0 then 0 else (roundEven (q / (2 : ℚ) ^ ulpExp q) : ℚ) * (2 : ℚ) ^ ulpExp q

/-- The `float` operations `+`, `-`, `*`, `/`: the exact result, rounded. -/
def fadd (a b : ℚ) : ℚ := fround (a + b)
def fsub (a b : ℚ) : ℚ := fround (a - b)
def fmul (a b : ℚ) : ℚ := fround (a * b)
def fdiv (a b : ℚ) : ℚ := fround (a / b)

/-- A sample type `T` of the templates: `sizeof(T)`, the value of a `T` read
from its bytes, and the bytes of the `T` a value converts to on assignment. -/
structure SampleTy where
  size : Nat
  load : List Byte → ℚ
  store : ℚ → List Byte

/-- Conversion of a real value to an integer type: truncation toward zero. -/
def truncQ (q : ℚ) : Int := if 0 ≤ q then Rat.floor q else Rat.ceil q

def int8_t : SampleTy where
  size := 1
  load := fun bs =>
    let b := bs.headD 0 % 256
    if b < 128 then (b : ℚ) else (b : ℚ) - 256
  store := fun q => [(truncQ q % 256).toNat]

def int16_t : SampleTy where
  size := 2
  load := fun bs =>
    let w := bs.headD 0 % 256 + 256 * (bs.tail.headD 0 % 256)
    if w < 32768 then (w : ℚ) else (w : ℚ) - 65536
  store := fun q =>
    let w := (truncQ q % 65536).toNat
    [w % 256, w / 256]

def float_t (env : Env) : SampleTy where
  size := 4
  load := env.float_load
  store := fun q => env.float_store (fround q)

/-- Value of `buf[k]` for `buf` a `T *` into the byte region. -/
def elemAt (T : SampleTy) (buf : List Byte) (k : Nat) : ℚ :=
  T.load ((buf.drop (k * T.size)).take T.size)

/-- Value held by a `T` after assigning `v` to it. -/
def assignTo (T : SampleTy) (v : ℚ) : ℚ := T.load (T.store v)

/-- Number of `i += 8` rounds of `for (i = 0; i < n; i += 8)`. -/
def strides (n : Nat) : Nat := (n + 7) / 8

/-- The template `measQuadDcOffset`: new contents of `offsets`, or `none` when
`assert((n & 0x7) == 0)` fails. The accumulators, `f` and the blend are
`float`s; a sample and an offset convert to `float` exactly for the integer
types. -/
def measQuadDcOffset (T : SampleTy) (buf : List Byte) (n : Nat) (offsets : List ℚ)
    (filter_coeff : ℚ) : Option (List ℚ) :=
  if n &&& 0x7 = 0 then
    let accum : Nat → ℚ := fun j =>
      (List.range (strides n)).foldl (fun a i => fadd a (elemAt T buf (8 * i + j))) 0
    let f : ℚ := fdiv 8 (fround (n : ℚ))
    some ((List.range 8).map fun j =>
      assignTo T (fadd (fmul (fmul (accum j) f) filter_coeff)
        (fmul (offsets.getD j 0) (fsub 1 filter_coeff))))
  else none

/-- The template `applyQuadDcOffset`: new contents of the region `buf`, or
`none` when `assert((n & 0x7) == 0)` fails. -/
def applyQuadDcOffset (T : SampleTy) (buf : List Byte) (n : Nat) (offsets : List ℚ) :
    Option (List Byte) :=
  if n &&& 0x7 = 0 then
    some (((List.range (8 * strides n)).flatMap fun k =>
        T.store (elemAt T buf k - offsets.getD (k % 8) 0))
      ++ buf.drop (8 * strides n * T.size))
  else none

/-- The `switch (rx_stream_format)` around `measQuadDcOffset`. -/
def measSwitch (env : Env) (format outbufsize : Nat) (buf : List Byte) (d : DcOffsets)
    (filter_coeff : ℚ) : Option DcOffsets :=
  if format = LIBRFNM_STREAM_FORMAT_CS8 then
    (measQuadDcOffset int8_t buf outbufsize d.i8 filter_coeff).map
      fun o => { d with i8 := o }
  else if format = LIBRFNM_STREAM_FORMAT_CS16 then
    (measQuadDcOffset int16_t buf (outbufsize / 2) d.i16 filter_coeff).map
      fun o => { d with i16 := o }
  else if format = LIBRFNM_STREAM_FORMAT_CF32 then
    (measQuadDcOffset (float_t env) buf (outbufsize / 4) d.f32 filter_coeff).map
      fun o => { d with f32 := o }
  else some d

/-- The `switch (rx_stream_format)` around `applyQuadDcOffset`. -/
def applySwitch (env : Env) (format outbufsize : Nat) (buf : List Byte) (d : DcOffsets) :
    Option (List Byte) :=
  if format = LIBRFNM_STREAM_FORMAT_CS8 then
    applyQuadDcOffset int8_t buf outbufsize d.i8
  else if format = LIBRFNM_STREAM_FORMAT_CS16 then
    applyQuadDcOffset int16_t buf (outbufsize / 2) d.i16
  else if format = LIBRFNM_STREAM_FORMAT_CF32 then
    applyQuadDcOffset (float_t env) buf (outbufsize / 4) d.f32
  else some buf

/-! ## Stream operations -/

/-- An operation's outcome: the state it leaves and its value, or the exception
or failed assertion it ended with. -/
abbrev Res (α : Type) := State × Except Err α

instance {α : Type} [DecidableEq α] : DecidableEq (Except Err α) := fun a b =>
  match a, b with
  | .ok x, .ok y =>
    if h : x = y then isTrue (by rw [h]) else isFalse (fun e => h (Except.ok.inj e))
  | .error x, .error y =>
    if h : x = y then isTrue (by rw [h]) else isFalse (fun e => h (Except.error.inj e))
  | .ok _, .error _ => isFalse (fun e => Except.noConfusion e)
  | .error _, .ok _ => isFalse (fun e => Except.noConfusion e)

/-- Method `setRFNM`; `ret` is what `lrfnm->set(applies)` answers. -/
def setRFNM (s : State) (applies : Nat) (ret : rfnm_api_failcode) : Res Unit :=
  let s1 := { s with log := HwCall.set applies :: s.log }
  match ret with
  | .RFNM_API_OK => (s1, .ok ())
  | .RFNM_API_TUNE_FAIL => (s1, .error .tuning_failure)
  | .RFNM_API_GAIN_FAIL => (s1, .error .gain_setting_failure)
  | .RFNM_API_TIMEOUT => (s1, .error .timeout_configuring)
  | .RFNM_API_USB_FAIL => (s1, .error .usb_failure_configuring)
  | .RFNM_API_OTHER _ => (s1, .error .error_configuring)

/-- Method `getNumChannels`. -/
def getNumChannels (s : State) (direction : Int) : Nat :=
  if direction = SOAPY_SDR_TX then 0
  else if direction = SOAPY_SDR_RX then s.rx_chan_count
  else 0

/-- Body of the channel loop of `activateStream` for an enabled channel. -/
def activateChannel (env : Env) (s : State) (channel : Nat) : Res Unit :=
  match s.rx_queue channel with
  | [] => ({ s with log := HwCall.rx_dqbuf channel false :: s.log },
            .error .timeout_activating_stream)
  | none :: q => ({ s with rx_queue := upd s.rx_queue channel q,
                           log := HwCall.rx_dqbuf channel false :: s.log },
                   .error .timeout_activating_stream)
  | some lrxbuf :: q =>
    let p := s.partial_rx_buf channel
    let buf0 := memcpy p.buf 0 lrxbuf.buf s.outbufsize
    let s1 := { s with
        rx_queue := upd s.rx_queue channel q
        log := HwCall.rx_qbuf :: HwCall.rx_dqbuf channel true :: s.log
        partial_rx_buf := upd s.partial_rx_buf channel
          { buf := buf0, left := s.outbufsize, offset := 0 } }
    match measSwitch env s.rx_stream_format s.outbufsize buf0 (s.dc_offsets channel) 1 with
    | none => (s1, .error .assertion_failed)
    | some d =>
      let s2 := { s1 with dc_offsets := upd s.dc_offsets channel d }
      if s.dc_correction channel then
        match applySwitch env s.rx_stream_format s.outbufsize buf0 d with
        | none => (s2, .error .assertion_failed)
        | some buf1 =>
          let p1 : PartialBuf := { buf := buf1, left := s.outbufsize, offset := 0 }
          ({ s2 with partial_rx_buf := upd s.partial_rx_buf channel p1 }, .ok ())
      else (s2, .ok ())

/-- The channel loop of `activateStream` over the listed channel indices. -/
def activateLoop (env : Env) : List Nat → State → Res Unit
  | [], s => (s, .ok ())
  | channel :: rest, s =>
    if (s.rx_ch channel).enable ≠ RFNM_CH_ON then activateLoop env rest s
    else
      match activateChannel env s channel with
      | (s1, .ok _) => activateLoop env rest s1
      | (s1, .error e) => (s1, .error e)

/-- Method `activateStream`. -/
def activateStream (env : Env) (s : State) : Res Int :=
  match activateLoop env (List.range MAX_RX_CHAN_COUNT) s with
  | (s1, .ok _) => (s1, .ok 0)
  | (s1, .error e) => (s1, .error e)

/-- Method `deactivateStream`. -/
def deactivateStream (s : State) : Res Int := (s, .ok 0)

/-- What the body of the channel loop of `readStream` reads and writes:
the local `read_elems`, the region `buffs[buf_idx]`, the channel's carryover,
DC offsets and dequeue outcomes, and the log; `aborted` tells that an `assert`
failed and the process stopped there. -/
structure ChanSt where
  read_elems : Nat
  out : List Byte
  pbuf : PartialBuf
  dc : DcOffsets
  queue : List (Option RxBuf)
  log : List HwCall
  aborted : Bool

/-- The `if (partial_rx_buf[channel].left)` block of `readStream`. -/
def readCarry (channel bytes_per_ele numElems : Nat) (c : ChanSt) : ChanSt :=
  if c.pbuf.left ≠ 0 then
    let can_write_bytes :=
      if numElems * bytes_per_ele > c.pbuf.left then c.pbuf.left
      else numElems * bytes_per_ele
    { c with
      out := memcpy c.out 0 (c.pbuf.buf.drop c.pbuf.offset) can_write_bytes
      read_elems := c.read_elems + can_write_bytes / bytes_per_ele
      pbuf := { c.pbuf with left := c.pbuf.left - can_write_bytes,
                            offset := c.pbuf.offset + can_write_bytes }
      log := HwCall.copy_out channel can_write_bytes :: c.log }
  else c

/-- The `if (dc_correction[channel])` block of `readStream` on a dequeued
buffer: the channel's DC offsets and the bytes of the buffer afterwards, or
`none` when an `assert` of the templates fails. The literal `0.1f` is the
float nearest to 1/10. -/
def dcBlock (env : Env) (format outbufsize : Nat) (dcc : Bool) (lrxbuf : RxBuf)
    (dc : DcOffsets) : Option (DcOffsets × List Byte) :=
  if dcc then
    match (if lrxbuf.usb_cc &&& 0xF = 0 then
        measSwitch env format outbufsize lrxbuf.buf dc (fround (1 / 10))
      else some dc) with
    | none => none
    | some dc1 =>
      match applySwitch env format outbufsize lrxbuf.buf dc1 with
      | none => none
      | some hwbuf => some (dc1, hwbuf)
  else some (dc, lrxbuf.buf)

/-- One round of the `while` loop of `readStream` after `rx_dqbuf` handed out
a buffer and the DC block left the offsets `dc` and the buffer bytes `hwbuf`;
`queue` is what remains to be dequeued afterwards. -/
def readBuf (channel format outbufsize numElems : Nat) (dc : DcOffsets)
    (hwbuf : List Byte) (queue : List (Option RxBuf)) (c : ChanSt) : ChanSt :=
  let bytes_per_ele := format
  let overflowing_by_elems :=
    if c.read_elems + outbufsize / bytes_per_ele > numElems then
      c.read_elems + outbufsize / bytes_per_ele - numElems
    else 0
  let can_copy_bytes :=
    if c.read_elems + outbufsize / bytes_per_ele > numElems then
      outbufsize - overflowing_by_elems * bytes_per_ele
    else outbufsize
  { read_elems := c.read_elems + (outbufsize / bytes_per_ele - overflowing_by_elems)
    out := memcpy c.out (bytes_per_ele * c.read_elems) hwbuf can_copy_bytes
    pbuf :=
      if overflowing_by_elems ≠ 0 then
        { buf := memcpy c.pbuf.buf 0 (hwbuf.drop can_copy_bytes) (outbufsize - can_copy_bytes)
          left := outbufsize - can_copy_bytes
          offset := 0 }
      else c.pbuf
    dc := dc
    queue := queue
    log := HwCall.rx_qbuf :: HwCall.copy_out channel can_copy_bytes
            :: HwCall.rx_dqbuf channel true :: c.log
    aborted := c.aborted }

/-- The `while (read_elems < numElems)` loop of `readStream`, by recursion on
the outcomes of the channel's coming `rx_dqbuf` calls. When an `assert` of the
DC block fails on a dequeued buffer the loop ends there, `aborted`. -/
def readLoop (env : Env) (channel format outbufsize : Nat) (dcc : Bool) (numElems : Nat) :
    List (Option RxBuf) → ChanSt → ChanSt
  | [], c =>
    if c.read_elems < numElems then
      { c with queue := [], log := HwCall.rx_dqbuf channel false :: c.log }
    else { c with queue := [] }
  | r :: queue, c =>
    if c.read_elems < numElems then
      match r with
      | none => { c with queue := queue, log := HwCall.rx_dqbuf channel false :: c.log }
      | some lrxbuf =>
        match dcBlock env format outbufsize dcc lrxbuf c.dc with
        | none =>
          { c with queue := queue, log := HwCall.rx_dqbuf channel true :: c.log,
                   aborted := true }
        | some d =>
          readLoop env channel format outbufsize dcc numElems queue
            (readBuf channel format outbufsize numElems d.1 d.2 queue c)
    else { c with queue := r :: queue }

/-- Body of the channel loop of `readStream` for an enabled channel, starting
from `read_elems = 0`. -/
def readChannel (env : Env) (channel format outbufsize : Nat) (dcc : Bool) (numElems : Nat)
    (out : List Byte) (pbuf : PartialBuf) (dc : DcOffsets) (queue : List (Option RxBuf))
    (log : List HwCall) : ChanSt :=
  let c := readCarry channel format numElems
    { read_elems := 0, out := out, pbuf := pbuf, dc := dc, queue := queue, log := log,
      aborted := false }
  readLoop env channel format outbufsize dcc numElems queue c

/-- Loop variables of the channel loop of `readStream`, and whether an
`assert` has failed. -/
structure ReadAcc where
  st : State
  buffs : Nat → List Byte
  read_elems : Nat
  buf_idx : Nat
  aborted : Bool

/-- One round of `for (channel = 0; channel < MAX_RX_CHAN_COUNT; channel++)`
in `readStream`; nothing runs any more once an `assert` has failed. -/
def readStreamChannel (env : Env) (numElems : Nat) (a : ReadAcc) (channel : Nat) : ReadAcc :=
  if a.aborted then a
  else if (a.st.rx_ch channel).enable ≠ RFNM_CH_ON then a
  else
    let c := readChannel env channel a.st.rx_stream_format a.st.outbufsize
      (a.st.dc_correction channel) numElems (a.buffs a.buf_idx)
      (a.st.partial_rx_buf channel) (a.st.dc_offsets channel) (a.st.rx_queue channel) a.st.log
    { st := { a.st with
                partial_rx_buf := upd a.st.partial_rx_buf channel c.pbuf
                dc_offsets := upd a.st.dc_offsets channel c.dc
                rx_queue := upd a.st.rx_queue channel c.queue
                log := c.log }
      buffs := upd a.buffs a.buf_idx c.out
      read_elems := c.read_elems
      buf_idx := a.buf_idx + 1
      aborted := c.aborted }

/-- Conversion of a `size_t` to `int` (32 bits, two's complement). -/
def int_of_size_t (n : Nat) : Int :=
  if n % 2 ^ 32 < 2 ^ 31 then ((n % 2 ^ 32 : Nat) : Int) else ((n % 2 ^ 32 : Nat) : Int) - 2 ^ 32

/-- Outcome of `readStream`: the state, the caller's output regions and the
returned count, or the failed assertion the call ended with. -/
structure ReadResult where
  st : State
  buffs : Nat → List Byte
  ret : Except Err Int

/-- Method `readStream`; `buffs i` is the region `buffs[i]` points to. -/
def readStream (env : Env) (s : State) (buffs : Nat → List Byte) (numElems : Nat) :
    ReadResult :=
  let a := (List.range MAX_RX_CHAN_COUNT).foldl (readStreamChannel env numElems)
    { st := s, buffs := buffs, read_elems := 0, buf_idx := 0, aborted := false }
  { st := a.st, buffs := a.buffs
    ret := if a.aborted then .error .assertion_failed else .ok (int_of_size_t a.read_elems) }

/-! ## Stream setup and teardown -/

/-- What `setupStream` returns: `nullptr`, or the device itself as the stream. -/
inductive StreamPtr where
  | nullptr
  | device
  deriving DecidableEq, Repr

/-- The `format.compare` chain of `setupStream`. -/
def streamFormatOf (format : String) : Option Nat :=
  if format = SOAPY_SDR_CF32 then some LIBRFNM_STREAM_FORMAT_CF32
  else if format = SOAPY_SDR_CS16 then some LIBRFNM_STREAM_FORMAT_CS16
  else if format = SOAPY_SDR_CS8 then some LIBRFNM_STREAM_FORMAT_CS8
  else none

/-- Call `lrfnm->rx_stream(stream_format, &outbufsize)`: librfnm starts the
transfer, records the format in `transport_status.rx_stream_format` and
reports the buffer size. -/
def rx_stream (env : Env) (s : State) (stream_format : Nat) : State :=
  { s with
    rx_stream_format := stream_format
    outbufsize := env.rx_stream_bufsize stream_format
    streaming := true
    log := HwCall.rx_stream stream_format :: s.log }

/-- The `if (alloc_buffers)` block of `setupStream`; fresh memory reads as zero. -/
def allocBuffers (env : Env) (s : State) : State :=
  { s with
    log := (List.range s.rx_chan_count).foldl
      (fun l _ => HwCall.malloc s.outbufsize :: l)
      ((List.range env.SOAPY_RFNM_BUFCNT).foldl
        (fun l _ => HwCall.rx_qbuf :: HwCall.malloc s.outbufsize :: l) s.log)
    partial_rx_buf := fun channel =>
      if channel < s.rx_chan_count then
        { s.partial_rx_buf channel with buf := List.replicate s.outbufsize 0 }
      else s.partial_rx_buf channel }

/-- The loop of `setupStream` that switches the requested channels on. -/
def enableChannels (rx_ch : Nat → RxCh) (channels : List Nat) : Nat → RxCh :=
  channels.foldl (fun ch channel => upd ch channel { ch channel with enable := RFNM_CH_ON }) rx_ch

/-- The `apply_mask` built by `setupStream`. -/
def applyMaskOf (channels : List Nat) : Nat :=
  channels.foldl (fun m channel => m ||| librfnm_rx_chan_apply channel) 0

/-- Method `setupStream`; `ret` is what `lrfnm->set` answers. -/
def setupStream (env : Env) (s : State) (direction : Int) (format : String)
    (channels : List Nat) (_args : List (String × String)) (ret : rfnm_api_failcode) :
    Res StreamPtr :=
  if direction ≠ SOAPY_SDR_RX then (s, .ok .nullptr)
  else if s.stream_setup then (s, .error .multiple_streams_unsupported)
  else if channels.any (fun channel => decide (channel ≥ s.rx_chan_count)) then
    (s, .error .nonexistent_channel)
  else
    match streamFormatOf format with
    | none => (s, .error (.invalid_format format))
    | some stream_format =>
      if s.rx_stream_format ≠ 0 ∧ stream_format ≠ s.rx_stream_format then
        (s, .error .changing_stream_format)
      else
        let alloc_buffers := decide (s.rx_stream_format = 0)
        let s1 := rx_stream env s stream_format
        let s2 := if alloc_buffers then allocBuffers env s1 else s1
        let s3 := { s2 with log := HwCall.rx_flush 20 :: s2.log }
        let s4 := { s3 with rx_ch := enableChannels s3.rx_ch channels }
        match setRFNM s4 (applyMaskOf channels) ret with
        | (s5, .error e) => (s5, .error e)
        | (s5, .ok _) => ({ s5 with stream_setup := true }, .ok .device)

/-- The loop of `closeStream` over `i < n`: channel table and `apply_mask`. -/
def disableChannels (n : Nat) (rx_ch : Nat → RxCh) : (Nat → RxCh) × Nat :=
  (List.range n).foldl
    (fun p i =>
      if (p.1 i).enable ≠ RFNM_CH_OFF then
        (upd p.1 i { p.1 i with enable := RFNM_CH_OFF }, p.2 ||| librfnm_rx_chan_apply i)
      else p)
    (rx_ch, 0)

/-- Method `closeStream`; `ret` is what `lrfnm->set` answers. -/
def closeStream (s : State) (ret : rfnm_api_failcode) : Res Unit :=
  let s1 := { s with streaming := false, log := HwCall.rx_stream_stop :: s.log }
  let s2 := { s1 with rx_ch := (disableChannels s1.rx_chan_count s1.rx_ch).1 }
  match setRFNM s2 (disableChannels s1.rx_chan_count s1.rx_ch).2 ret with
  | (s3, .error e) => (s3, .error e)
  | (s3, .ok _) =>
    ({ s3 with log := HwCall.rx_flush 0 :: s3.log, stream_setup := false }, .ok ())

/-! ## Per-channel settings -/

/-- Method `getSampleRate`. -/
def getSampleRate (s : State) (direction : Int) (channel : Nat) : Except Err ℚ :=
  if direction = SOAPY_SDR_RX then
    if channel ≥ s.rx_chan_count then .error .nonexistent_channel
    else .ok (((s.dcs_clk : Int) / (s.rx_ch channel).samp_freq_div_n : Int) : ℚ)
  else .ok 0

/-- Method `setSampleRate`. -/
def setSampleRate (s : State) (direction : Int) (channel : Nat) (rate : ℚ)
    (ret : rfnm_api_failcode) : Res Unit :=
  if direction = SOAPY_SDR_RX then
    if channel ≥ s.rx_chan_count then (s, .error .nonexistent_channel)
    else if rate = (s.dcs_clk : ℚ) then
      setRFNM { s with rx_ch := upd s.rx_ch channel { s.rx_ch channel with samp_freq_div_n := 1 } }
        (librfnm_rx_chan_apply channel) ret
    else if rate = ((s.dcs_clk / 2 : Nat) : ℚ) then
      setRFNM { s with rx_ch := upd s.rx_ch channel { s.rx_ch channel with samp_freq_div_n := 2 } }
        (librfnm_rx_chan_apply channel) ret
    else (s, .error .unsupported_sample_rate)
  else (s, .ok ())

/-- Method `getFrequency`. -/
def getFrequency (s : State) (direction : Int) (channel : Nat) (_name : String) :
    Except Err ℚ :=
  if direction = SOAPY_SDR_RX then
    if channel ≥ s.rx_chan_count then .error .nonexistent_channel
    else .ok ((s.rx_ch channel).freq : ℚ)
  else .ok 0

/-- Method `setFrequency`. -/
def setFrequency (s : State) (direction : Int) (channel : Nat) (_name : String)
    (frequency : ℚ) (_args : List (String × String)) (ret : rfnm_api_failcode) : Res Unit :=
  if direction = SOAPY_SDR_RX then
    if channel ≥ s.rx_chan_count then (s, .error .nonexistent_channel)
    else
      setRFNM { s with rx_ch := upd s.rx_ch channel { s.rx_ch channel with freq := truncQ frequency } }
        (librfnm_rx_chan_apply channel) ret
  else (s, .ok ())

/-- Method `getGain`. -/
def getGain (s : State) (direction : Int) (channel : Nat) (_name : String) : Except Err ℚ :=
  if direction = SOAPY_SDR_RX then
    if channel ≥ s.rx_chan_count then .error .nonexistent_channel
    else .ok ((s.rx_ch channel).gain : ℚ)
  else .ok 0

/-- Conversion of an integer value to `int8_t`: the low eight bits, signed. -/
def int8_of (z : Int) : Int := (z + 128) % 256 - 128

/-- Method `setGain`; the field `gain` of librfnm is an `int8_t`. -/
def setGain (s : State) (direction : Int) (channel : Nat) (_name : String) (value : ℚ)
    (ret : rfnm_api_failcode) : Res Unit :=
  if direction = SOAPY_SDR_RX then
    if channel ≥ s.rx_chan_count then (s, .error .nonexistent_channel)
    else
      setRFNM
        { s with rx_ch := upd s.rx_ch channel
                   { s.rx_ch channel with gain := int8_of (truncQ value) } }
        (librfnm_rx_chan_apply channel) ret
  else (s, .ok ())

/-- Method `getBandwidth`. -/
def getBandwidth (s : State) (direction : Int) (channel : Nat) : Except Err ℚ :=
  if direction = SOAPY_SDR_RX then
    if channel ≥ s.rx_chan_count then .error .nonexistent_channel
    else .ok (((s.rx_ch channel).rfic_lpf_bw : ℚ) * 1000000)
  else .ok 0

/-- Method `setBandwidth`. -/
def setBandwidth (s : State) (direction : Int) (channel : Nat) (bw : ℚ)
    (ret : rfnm_api_failcode) : Res Unit :=
  if direction = SOAPY_SDR_RX then
    if channel ≥ s.rx_chan_count then (s, .error .nonexistent_channel)
    else if bw = 0 then (s, .ok ())
    else
      setRFNM
        { s with rx_ch := upd s.rx_ch channel
                   { s.rx_ch channel with rfic_lpf_bw := truncQ (bw / 1000000) } }
        (librfnm_rx_chan_apply channel) ret
  else (s, .ok ())

/-- Method `getAntenna`. -/
def getAntenna (env : Env) (s : State) (direction : Int) (channel : Nat) : Except Err String :=
  if direction = SOAPY_SDR_RX then
    if channel ≥ s.rx_chan_count then .error .nonexistent_channel
    else .ok (env.rf_path_to_string (s.rx_ch channel).path)
  else .ok ""

/-- Method `setAntenna`. -/
def setAntenna (env : Env) (s : State) (direction : Int) (channel : Nat) (name : String)
    (ret : rfnm_api_failcode) : Res Unit :=
  if direction = SOAPY_SDR_RX then
    if channel ≥ s.rx_chan_count then (s, .error .nonexistent_channel)
    else
      setRFNM
        { s with rx_ch := upd s.rx_ch channel
                   { s.rx_ch channel with path := env.string_to_rf_path name } }
        (librfnm_rx_chan_apply channel) ret
  else (s, .ok ())

/-- Method `getDCOffsetMode`. -/
def getDCOffsetMode (s : State) (direction : Int) (channel : Nat) : Except Err Bool :=
  if direction = SOAPY_SDR_RX then
    if channel ≥ s.rx_chan_count then .error .nonexistent_channel
    else .ok (s.dc_correction channel)
  else .ok false

/-- Method `setDCOffsetMode`. -/
def setDCOffsetMode (s : State) (direction : Int) (channel : Nat) (automatic : Bool) :
    Res Unit :=
  if direction = SOAPY_SDR_RX then
    if channel ≥ s.rx_chan_count then (s, .error .nonexistent_channel)
    else ({ s with dc_correction := upd s.dc_correction channel automatic }, .ok ())
  else (s, .ok ())

/-- Channel `ch` is enabled for streaming. -/
def enabled (s : State) (ch : Nat) : Bool := (s.rx_ch ch).enable == RFNM_CH_ON

/-- Output slot of channel `ch`: its rank among the enabled channels. -/
def slotOf (s : State) (ch : Nat) : Nat :=
  ((List.range ch).filter (fun k => enabled s k)).length

/-- Bytes copied into the caller's buffer for `channel`, as counted by the log. -/
def copiedBytes : List HwCall → Nat → Nat
  | [], _ => 0
  | HwCall.copy_out ch n :: log, channel =>
    (if ch = channel then n else 0) + copiedBytes log channel
  | _ :: log, channel => copiedBytes log channel

/-- Hardware buffers handed out by `rx_dqbuf` for `channel`, as counted by the log. -/
def dequeued : List HwCall → Nat → Nat
  | [], _ => 0
  | HwCall.rx_dqbuf ch ok :: log, channel =>
    (if ch = channel ∧ ok = true then 1 else 0) + dequeued log channel
  | _ :: log, channel => dequeued log channel

/-- The channel loop of `readStream` run over the channels below `n`. -/
def readAcc (env : Env) (s : State) (buffs : Nat → List Byte) (numElems n : Nat) : ReadAcc :=
  (List.range n).foldl (readStreamChannel env numElems)
    { st := s, buffs := buffs, read_elems := 0, buf_idx := 0, aborted := false }

/-- The body of `readStream` for `channel`, on the data the call starts with
and a given log. -/
def chanRun (env : Env) (s : State) (buffs : Nat → List Byte) (numElems channel : Nat)
    (log : List HwCall) : ChanSt :=
  readChannel env channel s.rx_stream_format s.outbufsize (s.dc_correction channel) numElems
    (buffs (slotOf s channel)) (s.partial_rx_buf channel) (s.dc_offsets channel)
    (s.rx_queue channel) log

/-- The channel's data and log counts in `a` are those of `s`. -/
def Unch (s : State) (a : ReadAcc) (ch : Nat) : Prop :=
  a.st.partial_rx_buf ch = s.partial_rx_buf ch ∧ a.st.dc_offsets ch = s.dc_offsets ch ∧
  a.st.rx_queue ch = s.rx_queue ch ∧ copiedBytes a.st.log ch = copiedBytes s.log ch ∧
  dequeued a.st.log ch = dequeued s.log ch

/-- The channel's data, output slot and log counts in `a` are those the
channel body produced from the data of `s`; if the body ended on a failed
assertion, so did the loop. -/
def Done (env : Env) (s : State) (buffs : Nat → List Byte) (numElems : Nat) (a : ReadAcc)
    (ch : Nat) : Prop :=
  ∃ log, copiedBytes log ch = copiedBytes s.log ch ∧ dequeued log ch = dequeued s.log ch ∧
    a.st.partial_rx_buf ch = (chanRun env s buffs numElems ch log).pbuf ∧
    a.st.dc_offsets ch = (chanRun env s buffs numElems ch log).dc ∧
    a.st.rx_queue ch = (chanRun env s buffs numElems ch log).queue ∧
    a.buffs (slotOf s ch) = (chanRun env s buffs numElems ch log).out ∧
    copiedBytes a.st.log ch = copiedBytes (chanRun env s buffs numElems ch log).log ch ∧
    dequeued a.st.log ch = dequeued (chanRun env s buffs numElems ch log).log ch ∧
    ((chanRun env s buffs numElems ch log).aborted = true → a.aborted = true)

/-- The loop ended on a failed assertion before it came to channel `ch`: the
channel's data, log counts and output slot are those the call started with. -/
def Skipped (s : State) (buffs : Nat → List Byte) (a : ReadAcc) (ch : Nat) : Prop :=
  a.aborted = true ∧ Unch s a ch ∧ a.buffs (slotOf s ch) = buffs (slotOf s ch)

/-- What holds of the loop variables of `readStream` after the channels below `n`. -/
structure FoldInv (env : Env) (s : State) (buffs : Nat → List Byte) (numElems n : Nat)
    (a : ReadAcc) : Prop where
  rx_ch : a.st.rx_ch = s.rx_ch
  fmt : a.st.rx_stream_format = s.rx_stream_format
  obs : a.st.outbufsize = s.outbufsize
  dcc : a.st.dc_correction = s.dc_correction
  cnt : a.st.rx_chan_count = s.rx_chan_count
  setup : a.st.stream_setup = s.stream_setup
  strm : a.st.streaming = s.streaming
  clk : a.st.dcs_clk = s.dcs_clk
  idx : a.aborted = false → a.buf_idx = slotOf s n
  unch : ∀ ch, (n ≤ ch ∨ enabled s ch = false) → Unch s a ch
  slots : ∀ k, slotOf s n ≤ k → a.buffs k = buffs k
  done : ∀ ch, ch < n → enabled s ch = true →
    Done env s buffs numElems a ch ∨ Skipped s buffs a ch
  abt : a.aborted = true → ∃ ch, ch < n ∧ enabled s ch = true ∧
    ∃ log, (chanRun env s buffs numElems ch log).aborted = true
  ret : a.aborted = false →
    ∀ ch, ch < n → enabled s ch = true → (∀ k, ch < k → k < n → enabled s k = false) →
    ∃ log, a.read_elems = (chanRun env s buffs numElems ch log).read_elems
  ret0 : (∀ ch, ch < n → enabled s ch = false) → a.read_elems = 0 ∧ a.aborted = false

/-- Number of hardware buffers a read of `numElems` elements needs when the
carryover holds `c` elements and a buffer holds `E`: none if the carryover
suffices, else `(numElems - c) / E` rounded up. -/
def buffersNeeded (c numElems E : Nat) : Nat :=
  if numElems ≤ c then 0 else (numElems - c + E - 1) / E

/-- What a successful `activateStream` did to an enabled channel. -/
def Activated (env : Env) (s s1 : State) (ch : Nat) : Prop :=
  ∃ b q, s.rx_queue ch = some b :: q ∧ s1.rx_queue ch = q ∧
    measSwitch env s.rx_stream_format s.outbufsize
        (memcpy (s.partial_rx_buf ch).buf 0 b.buf s.outbufsize) (s.dc_offsets ch) 1
      = some (s1.dc_offsets ch) ∧
    (if s.dc_correction ch then
        applySwitch env s.rx_stream_format s.outbufsize
          (memcpy (s.partial_rx_buf ch).buf 0 b.buf s.outbufsize) (s1.dc_offsets ch)
      else some (memcpy (s.partial_rx_buf ch).buf 0 b.buf s.outbufsize))
      = some (s1.partial_rx_buf ch).buf ∧
    (s1.partial_rx_buf ch).left = s.outbufsize ∧
    (s1.partial_rx_buf ch).offset = 0 ∧
    copiedBytes s1.log ch = copiedBytes s.log ch ∧
    dequeued s1.log ch = dequeued s.log ch + 1

/-- The channel's data and log counts are the same in both states. -/
def SameChan (s s1 : State) (ch : Nat) : Prop :=
  s1.partial_rx_buf ch = s.partial_rx_buf ch ∧ s1.dc_offsets ch = s.dc_offsets ch ∧
  s1.rx_queue ch = s.rx_queue ch ∧ copiedBytes s1.log ch = copiedBytes s.log ch ∧
  dequeued s1.log ch = dequeued s.log ch

/-- The settings a stream runs with are the same in both states. -/
def SameSetup (s s1 : State) : Prop :=
  s1.rx_ch = s.rx_ch ∧ s1.rx_stream_format = s.rx_stream_format ∧
  s1.outbufsize = s.outbufsize ∧ s1.dc_correction = s.dc_correction ∧
  s1.rx_chan_count = s.rx_chan_count ∧ s1.stream_setup = s.stream_setup ∧
  s1.streaming = s.streaming ∧ s1.dcs_clk = s.dcs_clk

/-- A sequence of `readStream` calls, each with its `numElems` and the caller's
output regions; the state after the last one. -/
def readMany (env : Env) : State → List (Nat × (Nat → List Byte)) → State
  | s, [] => s
  | s, (numElems, buffs) :: calls => readMany env (readStream env s buffs numElems).st calls

/-- The bytes a carryover holds: `buf[offset .. offset + left)`. -/
def carryBytes (p : PartialBuf) : List Byte := (p.buf.drop p.offset).take p.left

/-- The bytes of the hardware buffers among some `rx_dqbuf` outcomes, in the
order they were handed out. -/
def bytesOf (used : List (Option RxBuf)) : List Byte :=
  (used.filterMap id).flatMap fun b => b.buf

/-- A carryover of whole elements that lies inside its buffer. -/
def CarryWF (bpe : Nat) (p : PartialBuf) : Prop :=
  (∃ k, p.left = k * bpe) ∧ p.offset + p.left ≤ p.buf.length

/-- The bytes one `readStream` call delivers for `ch`: the start of the
channel's output region, as long as the byte count the call's `memcpy`s into
that region add up to. -/
def deliveredBytes (env : Env) (s : State) (buffs : Nat → List Byte) (numElems ch : Nat) :
    List Byte :=
  ((readStream env s buffs numElems).buffs (slotOf s ch)).take
    (copiedBytes (readStream env s buffs numElems).st.log ch - copiedBytes s.log ch)

/-- The bytes a sequence of `readStream` calls delivers for `ch`, call after call. -/
def deliveredMany (env : Env) (ch : Nat) : State → List (Nat × (Nat → List Byte)) → List Byte
  | _, [] => []
  | s, (numElems, buffs) :: calls =>
    deliveredBytes env s buffs numElems ch
      ++ deliveredMany env ch (readStream env s buffs numElems).st calls

/-- Number of `malloc` calls in the log. -/
def mallocs : List HwCall → Nat
  | [] => 0
  | HwCall.malloc _ :: log => mallocs log + 1
  | _ :: log => mallocs log

/-- The carryover lies within a buffer of `outbufsize` bytes: at most
`outbufsize` bytes are left, and they end at or before the end of the buffer. -/
def CarryBounded (outbufsize : Nat) (p : PartialBuf) : Prop :=
  p.left ≤ outbufsize ∧ p.offset + p.left ≤ outbufsize

/-- The DC offsets of a channel after the DC block of `readStream` has
processed the given dequeued buffers one after the other; when an assertion
of the block fails the process stops and the offsets stay as they are. -/
def dcAfter (env : Env) (format outbufsize : Nat) (dcc : Bool) :
    List RxBuf → DcOffsets → DcOffsets
  | [], dc => dc
  | lrxbuf :: rest, dc =>
    match dcBlock env format outbufsize dcc lrxbuf dc with
    | none => dc
    | some d => dcAfter env format outbufsize dcc rest d.1

/-- The assertion `(n & 0x7) == 0` of the DC templates holds for the number of
samples `n` a buffer of `outbufsize` bytes has in the given format. -/
def DcSizeOk (format outbufsize : Nat) : Prop :=
  (format = LIBRFNM_STREAM_FORMAT_CS8 → outbufsize &&& 0x7 = 0) ∧
  (format = LIBRFNM_STREAM_FORMAT_CS16 → (outbufsize / 2) &&& 0x7 = 0) ∧
  (format = LIBRFNM_STREAM_FORMAT_CF32 → (outbufsize / 4) &&& 0x7 = 0)

instance (format outbufsize : Nat) : Decidable (DcSizeOk format outbufsize) := by
  unfold DcSizeOk; infer_instance

/-! ## Concrete devices used to instantiate the theorems -/

/-- A platform with 1024-element hardware buffers and a pool of 16 buffers. -/
def demoEnv : Env where
  rx_stream_bufsize := fun format => 1024 * format
  SOAPY_RFNM_BUFCNT := 16
  string_to_rf_path := fun _ => 0
  rf_path_to_string := fun _ => "RX"
  float_load := fun _ => 0
  float_store := fun _ => [0, 0, 0, 0]

/-- Channel settings the constructor applies, with the given `enable`. -/
def demoCh (enable : Nat) : RxCh :=
  { enable := enable, freq := 2450000000, path := 0, samp_freq_div_n := 1, gain := 0,
    rfic_lpf_bw := 80 }

/-- A device right after construction with `n` channels. -/
def demoInit (n : Nat) : State where
  rx_chan_count := n
  rx_ch := fun _ => demoCh RFNM_CH_OFF
  dcs_clk := 122880000
  rx_stream_format := 0
  stream_setup := false
  outbufsize := 0
  dc_correction := fun _ => false
  dc_offsets := fun _ =>
    { i8 := List.replicate 8 0, i16 := List.replicate 8 0, f32 := List.replicate 8 0 }
  partial_rx_buf := fun _ => { buf := [], left := 0, offset := 0 }
  streaming := false
  log := []
  rx_queue := fun _ => []

/-- A full CS16 hardware buffer of 4096 bytes. -/
def demoBuf4096 : RxBuf := { buf := List.replicate 4096 0, usb_cc := 1 }

/-- A freshly constructed two-channel device on which two full CS16 buffers
will arrive per channel. -/
def demoDevice : State :=
  { demoInit 2 with
    rx_queue := fun k => if k < 2 then [some demoBuf4096, some demoBuf4096] else [] }

/-- The scenario of the specification: the device after `setupStream` for CS16
on channels 0 and 1, `outbufsize = 4096`, empty carryovers, two full hardware
buffers arriving on each channel. -/
def demoScenario : State :=
  (setupStream demoEnv demoDevice SOAPY_SDR_RX SOAPY_SDR_CS16 [0, 1] [] .RFNM_API_OK).1

/-- A small CS8 hardware buffer: 8 bytes (4 elements) counting up from `k`. -/
def demoBuf8 (k usb_cc : Nat) : RxBuf := { buf := (List.range 8).map (· + k), usb_cc := usb_cc }

/-- A platform like the one above but with 4-element hardware buffers. -/
def tinyEnv : Env :=
  { demoEnv with rx_stream_bufsize := fun format => 4 * format }

/-- A freshly constructed two-channel device on which small CS8 buffers will
arrive; channel 0 sees a timeout between its buffers. -/
def tinyDevice : State :=
  { demoInit 2 with
    rx_queue := fun k =>
      if k = 0 then [some (demoBuf8 10 1), some (demoBuf8 20 2), none, some (demoBuf8 30 3)]
      else if k = 1 then [some (demoBuf8 50 1), some (demoBuf8 60 2), some (demoBuf8 70 3)]
      else [] }

/-- The small device after `setupStream` for CS8 on channels 0 and 1: 8-byte
hardware buffers, empty carryovers, DC correction off. -/
def demoSmall : State :=
  (setupStream tinyEnv tinyDevice SOAPY_SDR_RX SOAPY_SDR_CS8 [0, 1] [] .RFNM_API_OK).1

/-- Two reads, of 3 and of 5 elements, into 16-byte output regions. -/
def demoCalls : List (Nat × (Nat → List Byte)) :=
  [(3, fun _ => List.replicate 16 0), (5, fun _ => List.replicate 16 0)]

/-- The scenario stream at a moment when channel 0 has nothing to deliver (its
`rx_dqbuf` times out) while a full buffer is ready on channel 1. -/
def demoTimeout : State :=
  { demoScenario with
    rx_queue := fun k => if k = 1 then [some demoBuf4096] else [none] }

/-- A device on which a CS16 stream was set up on channels 0 and 1 and closed
again. -/
def demoReopened : State :=
  (closeStream
    (setupStream demoEnv (demoInit 2) SOAPY_SDR_RX SOAPY_SDR_CS16 [0, 1] []
      .RFNM_API_OK).1 .RFNM_API_OK).1

/-- A platform whose hardware buffers hold 12 bytes: three CS16 elements, six
samples per buffer. -/
def oddEnv : Env :=
  { demoEnv with rx_stream_bufsize := fun _ => 12 }

/-- A 12-byte hardware buffer. -/
def demoBuf12 : RxBuf := { buf := List.replicate 12 0, usb_cc := 1 }

/-- A freshly constructed one-channel device on which 12-byte buffers arrive. -/
def oddDevice : State :=
  { demoInit 1 with rx_queue := fun k => if k = 0 then [some demoBuf12, some demoBuf12] else [] }

/-- The device after `setupStream` for CS16 on channel 0 and
`setDCOffsetMode(SOAPY_SDR_RX, 0, true)`: `outbufsize = 12`, an empty
carryover, DC correction on. -/
def demoOdd : State :=
  (setDCOffsetMode
    (setupStream oddEnv oddDevice SOAPY_SDR_RX SOAPY_SDR_CS16 [0] [] .RFNM_API_OK).1
    SOAPY_SDR_RX 0 true).1

/-! ### When the assertions of the DC templates hold -/

theorem measQuadDcOffset_isSome (T : SampleTy) (buf : List Byte) (n : Nat) (offsets : List ℚ)
    (k : ℚ) : (measQuadDcOffset T buf n offsets k).isSome = decide (n &&& 0x7 = 0) := by
  unfold measQuadDcOffset
  by_cases h : n &&& 0x7 = 0 <;> simp [h]

theorem applyQuadDcOffset_isSome (T : SampleTy) (buf : List Byte) (n : Nat) (offsets : List ℚ) :
    (applyQuadDcOffset T buf n offsets).isSome = decide (n &&& 0x7 = 0) := by
  unfold applyQuadDcOffset
  by_cases h : n &&& 0x7 = 0 <;> simp [h]

theorem measSwitch_isSome (env : Env) (format obs : Nat) (buf : List Byte) (d : DcOffsets)
    (k : ℚ) : (measSwitch env format obs buf d k).isSome = decide (DcSizeOk format obs) := by
  unfold measSwitch DcSizeOk
  by_cases h1 : format = LIBRFNM_STREAM_FORMAT_CS8
  · subst h1
    simp [measQuadDcOffset_isSome, LIBRFNM_STREAM_FORMAT_CS8, LIBRFNM_STREAM_FORMAT_CS16,
      LIBRFNM_STREAM_FORMAT_CF32]
  · by_cases h2 : format = LIBRFNM_STREAM_FORMAT_CS16
    · subst h2
      simp [measQuadDcOffset_isSome, LIBRFNM_STREAM_FORMAT_CS8, LIBRFNM_STREAM_FORMAT_CS16,
        LIBRFNM_STREAM_FORMAT_CF32]
    · by_cases h3 : format = LIBRFNM_STREAM_FORMAT_CF32
      · subst h3
        simp [measQuadDcOffset_isSome, LIBRFNM_STREAM_FORMAT_CS8, LIBRFNM_STREAM_FORMAT_CS16,
          LIBRFNM_STREAM_FORMAT_CF32]
      · simp [h1, h2, h3]

theorem applySwitch_isSome (env : Env) (format obs : Nat) (buf : List Byte) (d : DcOffsets) :
    (applySwitch env format obs buf d).isSome = decide (DcSizeOk format obs) := by
  unfold applySwitch DcSizeOk
  by_cases h1 : format = LIBRFNM_STREAM_FORMAT_CS8
  · subst h1
    simp [applyQuadDcOffset_isSome, LIBRFNM_STREAM_FORMAT_CS8, LIBRFNM_STREAM_FORMAT_CS16,
      LIBRFNM_STREAM_FORMAT_CF32]
  · by_cases h2 : format = LIBRFNM_STREAM_FORMAT_CS16
    · subst h2
      simp [applyQuadDcOffset_isSome, LIBRFNM_STREAM_FORMAT_CS8, LIBRFNM_STREAM_FORMAT_CS16,
        LIBRFNM_STREAM_FORMAT_CF32]
    · by_cases h3 : format = LIBRFNM_STREAM_FORMAT_CF32
      · subst h3
        simp [applyQuadDcOffset_isSome, LIBRFNM_STREAM_FORMAT_CS8, LIBRFNM_STREAM_FORMAT_CS16,
          LIBRFNM_STREAM_FORMAT_CF32]
      · simp [h1, h2, h3]

theorem measSwitch_some (env : Env) (format obs : Nat) (buf : List Byte) (d : DcOffsets)
    (k : ℚ) (h : DcSizeOk format obs) : ∃ d1, measSwitch env format obs buf d k = some d1 := by
  have := measSwitch_isSome env format obs buf d k
  rw [decide_eq_true h] at this
  exact Option.isSome_iff_exists.1 this

theorem measSwitch_none (env : Env) (format obs : Nat) (buf : List Byte) (d : DcOffsets)
    (k : ℚ) (h : ¬ DcSizeOk format obs) : measSwitch env format obs buf d k = none := by
  have := measSwitch_isSome env format obs buf d k
  rw [decide_eq_false h] at this
  cases hm : measSwitch env format obs buf d k with
  | none => rfl
  | some x => rw [hm] at this; simp at this

theorem applySwitch_some (env : Env) (format obs : Nat) (buf : List Byte) (d : DcOffsets)
    (h : DcSizeOk format obs) : ∃ b1, applySwitch env format obs buf d = some b1 := by
  have := applySwitch_isSome env format obs buf d
  rw [decide_eq_true h] at this
  exact Option.isSome_iff_exists.1 this

theorem applySwitch_none (env : Env) (format obs : Nat) (buf : List Byte) (d : DcOffsets)
    (h : ¬ DcSizeOk format obs) : applySwitch env format obs buf d = none := by
  have := applySwitch_isSome env format obs buf d
  rw [decide_eq_false h] at this
  cases hm : applySwitch env format obs buf d with
  | none => rfl
  | some x => rw [hm] at this; simp at this

/-- With DC correction off the block leaves offsets and buffer alone. -/
theorem dcBlock_off (env : Env) (format obs : Nat) (b : RxBuf) (dc : DcOffsets) :
    dcBlock env format obs false b dc = some (dc, b.buf) := by
  simp [dcBlock]

/-- The DC block runs to its end when DC correction is off or the assertion
on the buffer size holds. -/
theorem dcBlock_some (env : Env) (format obs : Nat) (dcc : Bool) (b : RxBuf) (dc : DcOffsets)
    (h : dcc = false ∨ DcSizeOk format obs) :
    ∃ d, dcBlock env format obs dcc b dc = some d := by
  cases dcc with
  | false => exact ⟨_, dcBlock_off env format obs b dc⟩
  | true =>
    have hok : DcSizeOk format obs := by
      rcases h with h | h
      · exact absurd h (by simp)
      · exact h
    unfold dcBlock
    simp only [if_true]
    by_cases hcc : b.usb_cc &&& 0xF = 0
    · obtain ⟨d1, hd1⟩ := measSwitch_some env format obs b.buf dc (fround (1 / 10)) hok
      obtain ⟨b1, hb1⟩ := applySwitch_some env format obs b.buf d1 hok
      simp only [hcc, if_true, hd1, hb1]
      exact ⟨_, rfl⟩
    · obtain ⟨b1, hb1⟩ := applySwitch_some env format obs b.buf dc hok
      simp only [hcc, if_false, hb1]
      exact ⟨_, rfl⟩

/-- The DC block stops on a failed assertion when DC correction is on and the
assertion on the buffer size fails, whatever the buffer holds. -/
theorem dcBlock_none (env : Env) (format obs : Nat) (b : RxBuf) (dc : DcOffsets)
    (h : ¬ DcSizeOk format obs) : dcBlock env format obs true b dc = none := by
  unfold dcBlock
  simp only [if_true]
  by_cases hcc : b.usb_cc &&& 0xF = 0
  · simp only [hcc, if_true, measSwitch_none env format obs b.buf dc _ h]
  · simp only [hcc, if_false, applySwitch_none env format obs b.buf dc h]

/-! ### The loop over the dequeued buffers -/

theorem readBuf_read_elems (ch bpe obs N : Nat) (dc : DcOffsets) (hw : List Byte)
    (q : List (Option RxBuf)) (c : ChanSt) :
    (readBuf ch bpe obs N dc hw q c).read_elems =
      c.read_elems + (obs / bpe - (if c.read_elems + obs / bpe > N then c.read_elems + obs / bpe - N else 0)) := rfl

theorem readBuf_aborted (ch bpe obs N : Nat) (dc : DcOffsets) (hw : List Byte)
    (q : List (Option RxBuf)) (c : ChanSt) :
    (readBuf ch bpe obs N dc hw q c).aborted = c.aborted := rfl

theorem readBuf_left (ch bpe obs N : Nat) (dc : DcOffsets) (hw : List Byte)
    (q : List (Option RxBuf)) (c : ChanSt) :
    (readBuf ch bpe obs N dc hw q c).pbuf.left =
      if c.read_elems + obs / bpe > N then
        (if c.read_elems + obs / bpe - N ≠ 0 then
          obs - (obs - (c.read_elems + obs / bpe - N) * bpe) else c.pbuf.left)
      else c.pbuf.left := by
  unfold readBuf
  by_cases h : c.read_elems + obs / bpe > N
  · simp only [h, if_true]
    split <;> rfl
  · simp [h]

theorem readLoop_some (env : Env) (ch bpe obs : Nat) (dcc : Bool) (N : Nat) (b : RxBuf)
    (q : List (Option RxBuf)) (c : ChanSt) (h : c.read_elems < N) (d : DcOffsets × List Byte)
    (hd : dcBlock env bpe obs dcc b c.dc = some d) :
    readLoop env ch bpe obs dcc N (some b :: q) c =
      readLoop env ch bpe obs dcc N q (readBuf ch bpe obs N d.1 d.2 q c) := by
  simp [readLoop, h, hd]

theorem readLoop_abort (env : Env) (ch bpe obs : Nat) (dcc : Bool) (N : Nat) (b : RxBuf)
    (q : List (Option RxBuf)) (c : ChanSt) (h : c.read_elems < N)
    (hd : dcBlock env bpe obs dcc b c.dc = none) :
    readLoop env ch bpe obs dcc N (some b :: q) c =
      { c with queue := q, log := HwCall.rx_dqbuf ch true :: c.log, aborted := true } := by
  simp [readLoop, h, hd]

theorem readLoop_none (env : Env) (ch bpe obs : Nat) (dcc : Bool) (N : Nat)
    (q : List (Option RxBuf)) (c : ChanSt) (h : c.read_elems < N) :
    readLoop env ch bpe obs dcc N (none :: q) c =
      { c with queue := q, log := HwCall.rx_dqbuf ch false :: c.log } := by
  simp [readLoop, h]

theorem readLoop_nil (env : Env) (ch bpe obs : Nat) (dcc : Bool) (N : Nat)
    (c : ChanSt) (h : c.read_elems < N) :
    readLoop env ch bpe obs dcc N [] c =
      { c with queue := [], log := HwCall.rx_dqbuf ch false :: c.log } := by
  simp [readLoop, h]

theorem readLoop_done (env : Env) (ch bpe obs : Nat) (dcc : Bool) (N : Nat)
    (q : List (Option RxBuf)) (c : ChanSt) (h : ¬ c.read_elems < N) :
    readLoop env ch bpe obs dcc N q c = { c with queue := q } := by
  cases q <;> simp [readLoop, h]

theorem readLoop_all_ok (env : Env) (ch bpe E : Nat) (dcc : Bool) (N : Nat)
    (hb : 0 < bpe) (hE : 0 < E) (hok : dcc = false ∨ DcSizeOk bpe (E * bpe)) :
    ∀ (bs : List RxBuf) (rest : List (Option RxBuf)) (c : ChanSt),
      c.read_elems ≤ N → (c.read_elems < N → c.pbuf.left = 0) →
      N ≤ c.read_elems + bs.length * E →
      (bs.length ≠ 0 → c.read_elems + (bs.length - 1) * E < N) →
      (readLoop env ch bpe (E * bpe) dcc N (bs.map some ++ rest) c).read_elems = N ∧
      (readLoop env ch bpe (E * bpe) dcc N (bs.map some ++ rest) c).queue = rest ∧
      (readLoop env ch bpe (E * bpe) dcc N (bs.map some ++ rest) c).pbuf.left =
        c.pbuf.left + (c.read_elems + bs.length * E - N) * bpe ∧
      dequeued (readLoop env ch bpe (E * bpe) dcc N (bs.map some ++ rest) c).log ch =
        dequeued c.log ch + bs.length ∧
      (readLoop env ch bpe (E * bpe) dcc N (bs.map some ++ rest) c).aborted = c.aborted := by
  intro bs
  induction bs with
  | nil =>
    intro rest c h1 _ h3 _
    simp at h3
    have hr : c.read_elems = N := le_antisymm h1 h3
    cases rest with
    | nil => simp [readLoop, hr]
    | cons r q => simp [readLoop, hr]
  | cons b bs ih =>
    intro rest c h1 h2 h3 h4
    simp only [List.length_cons] at h3 h4
    have hlt : c.read_elems < N := by
      have := h4 (by omega)
      simp at this
      exact lt_of_le_of_lt (Nat.le_add_right _ _) this
    have hl0 := h2 hlt
    have hdiv : E * bpe / bpe = E := Nat.mul_div_cancel _ hb
    obtain ⟨d, hd⟩ := dcBlock_some env bpe (E * bpe) dcc b c.dc hok
    rw [List.map_cons, List.cons_append, readLoop_some _ _ _ _ _ _ _ _ _ hlt d hd]
    set c1 := readBuf ch bpe (E * bpe) N d.1 d.2 (bs.map some ++ rest) c with hc1
    have e0 : c1.aborted = c.aborted := by rw [hc1]; rfl
    have e3 : dequeued c1.log ch = dequeued c.log ch + 1 := by
      rw [hc1]; simp [readBuf, dequeued]; omega
    have e1 : c1.read_elems = c.read_elems + (E - (if c.read_elems + E > N then c.read_elems + E - N else 0)) := by
      rw [hc1, readBuf_read_elems, hdiv]
    have e2 : c1.pbuf.left = if c.read_elems + E > N then
        (if c.read_elems + E - N ≠ 0 then
          E * bpe - (E * bpe - (c.read_elems + E - N) * bpe) else c.pbuf.left)
      else c.pbuf.left := by
      rw [hc1, readBuf_left, hdiv]
    by_cases hov : c.read_elems + E > N
    · -- the last buffer: it overflows the quota
      have hbs : bs.length = 0 := by
        by_contra hne
        have h4' := h4 (by omega)
        have : bs.length + 1 - 1 = bs.length := by omega
        rw [this] at h4'
        have : E ≤ bs.length * E := Nat.le_mul_of_pos_left E (Nat.pos_of_ne_zero hne)
        omega
      have hnil : bs = [] := List.length_eq_zero.mp hbs
      subst hnil
      simp only [hov, if_true] at e1 e2
      have hne : c.read_elems + E - N ≠ 0 := by omega
      simp only [hne, ne_eq, not_false_eq_true, if_true] at e2
      have hle : (c.read_elems + E - N) * bpe ≤ E * bpe :=
        Nat.mul_le_mul_right _ (by omega)
      have e2' : c1.pbuf.left = (c.read_elems + E - N) * bpe := by omega
      have e1' : c1.read_elems = N := by omega
      have := ih rest c1 (by omega) (by omega) (by simp; omega) (by simp)
      obtain ⟨a1, a2, a3, a4, a5⟩ := this
      refine ⟨a1, a2, ?_, ?_, a5.trans e0⟩
      · rw [a3, e2', e1', hl0]
        simp
      · rw [a4, e3]; simp
    · simp only [hov, if_false] at e1 e2
      have e1' : c1.read_elems = c.read_elems + E := by omega
      have h3' : N ≤ c1.read_elems + bs.length * E := by
        rw [e1']; have : (bs.length + 1) * E = bs.length * E + E := by ring
        omega
      have h4' : bs.length ≠ 0 → c1.read_elems + (bs.length - 1) * E < N := by
        intro hne
        have h := h4 (by omega)
        have t1 : bs.length + 1 - 1 = bs.length := by omega
        rw [t1] at h
        obtain ⟨k, hk⟩ : ∃ k, bs.length = k + 1 := ⟨bs.length - 1, by omega⟩
        rw [hk] at h ⊢
        have : (k + 1) * E = k * E + E := by ring
        simp only [Nat.add_sub_cancel]
        omega
      have := ih rest c1 (by omega) (by intro _; rw [e2]; exact hl0) h3' h4'
      obtain ⟨a1, a2, a3, a4, a5⟩ := this
      refine ⟨a1, a2, ?_, ?_, a5.trans e0⟩
      · rw [a3, e2, e1', hl0]
        have : (bs.length + 1) * E = bs.length * E + E := by ring
        rw [List.length_cons, this]
        congr 2
        omega
      · rw [a4, e3, List.length_cons]; omega

@[simp] theorem upd_same {α : Type} (f : Nat → α) (i : Nat) (v : α) : upd f i v i = v := by
  simp [upd]

theorem upd_other {α : Type} (f : Nat → α) (i k : Nat) (v : α) (h : k ≠ i) :
    upd f i v k = f k := by
  simp [upd, h]

theorem slotOf_succ (s : State) (n : Nat) :
    slotOf s (n + 1) = slotOf s n + (if enabled s n then 1 else 0) := by
  unfold slotOf
  rw [List.range_succ, List.filter_append]
  by_cases h : enabled s n <;> simp [h]

theorem slotOf_mono (s : State) (ch n : Nat) (h : ch ≤ n) : slotOf s ch ≤ slotOf s n := by
  induction n with
  | zero => simp at h; subst h; exact le_rfl
  | succ n ih =>
    rcases Nat.lt_or_ge ch (n + 1) with h1 | h1
    · have := ih (by omega)
      rw [slotOf_succ]; omega
    · have : ch = n + 1 := by omega
      subst this; exact le_rfl

theorem slotOf_lt (s : State) (ch n : Nat) (h : ch < n) (he : enabled s ch = true) :
    slotOf s ch < slotOf s n := by
  have h1 := slotOf_mono s (ch + 1) n h
  rw [slotOf_succ, he] at h1
  simp at h1
  omega

/-! ### Log counts through one channel body -/

theorem readCarry_counts (ch bpe N : Nat) (c : ChanSt) (ch' : Nat) (h : ch' ≠ ch) :
    copiedBytes (readCarry ch bpe N c).log ch' = copiedBytes c.log ch' ∧
    dequeued (readCarry ch bpe N c).log ch' = dequeued c.log ch' := by
  unfold readCarry
  split
  · simp [copiedBytes, dequeued, Ne.symm h]
  · simp

theorem readLoop_counts (env : Env) (ch bpe obs : Nat) (dcc : Bool) (N : Nat) (ch' : Nat)
    (h : ch' ≠ ch) :
    ∀ (q : List (Option RxBuf)) (c : ChanSt),
      copiedBytes (readLoop env ch bpe obs dcc N q c).log ch' = copiedBytes c.log ch' ∧
      dequeued (readLoop env ch bpe obs dcc N q c).log ch' = dequeued c.log ch' := by
  intro q
  induction q with
  | nil =>
    intro c
    by_cases hlt : c.read_elems < N
    · rw [readLoop_nil _ _ _ _ _ _ _ hlt]; simp [copiedBytes, dequeued, Ne.symm h]
    · rw [readLoop_done _ _ _ _ _ _ _ _ hlt]; simp
  | cons r q ih =>
    intro c
    by_cases hlt : c.read_elems < N
    · cases r with
      | none => rw [readLoop_none _ _ _ _ _ _ _ _ hlt]; simp [copiedBytes, dequeued, Ne.symm h]
      | some b =>
        cases hd : dcBlock env bpe obs dcc b c.dc with
        | none =>
          rw [readLoop_abort _ _ _ _ _ _ _ _ _ hlt hd]
          simp [copiedBytes, dequeued, Ne.symm h]
        | some d =>
          rw [readLoop_some _ _ _ _ _ _ _ _ _ hlt d hd]
          obtain ⟨i1, i2⟩ := ih (readBuf ch bpe obs N d.1 d.2 q c)
          rw [i1, i2]
          simp [readBuf, copiedBytes, dequeued, Ne.symm h]
    · rw [readLoop_done _ _ _ _ _ _ _ _ hlt]; simp

theorem readChannel_counts (env : Env) (ch bpe obs : Nat) (dcc : Bool) (N : Nat)
    (out : List Byte) (p : PartialBuf) (d : DcOffsets) (q : List (Option RxBuf))
    (log : List HwCall) (ch' : Nat) (h : ch' ≠ ch) :
    copiedBytes (readChannel env ch bpe obs dcc N out p d q log).log ch' = copiedBytes log ch' ∧
    dequeued (readChannel env ch bpe obs dcc N out p d q log).log ch' = dequeued log ch' := by
  unfold readChannel
  obtain ⟨a1, a2⟩ := readLoop_counts env ch bpe obs dcc N ch' h q
    (readCarry ch bpe N
      { read_elems := 0, out := out, pbuf := p, dc := d, queue := q, log := log, aborted := false })
  obtain ⟨b1, b2⟩ := readCarry_counts ch bpe N
      { read_elems := 0, out := out, pbuf := p, dc := d, queue := q, log := log, aborted := false } ch' h
  exact ⟨a1.trans b1, a2.trans b2⟩

theorem readAcc_succ (env : Env) (s : State) (buffs : Nat → List Byte) (N n : Nat) :
    readAcc env s buffs N (n + 1) = readStreamChannel env N (readAcc env s buffs N n) n := by
  simp [readAcc, List.range_succ, List.foldl_append]

theorem readStream_eq (env : Env) (s : State) (buffs : Nat → List Byte) (N : Nat) :
    readStream env s buffs N =
      { st := (readAcc env s buffs N 4).st, buffs := (readAcc env s buffs N 4).buffs,
        ret := if (readAcc env s buffs N 4).aborted then .error .assertion_failed
               else .ok (int_of_size_t (readAcc env s buffs N 4).read_elems) } := rfl

theorem step_disabled (env : Env) (N : Nat) (a : ReadAcc) (n : Nat)
    (h : (a.st.rx_ch n).enable ≠ RFNM_CH_ON) : readStreamChannel env N a n = a := by
  simp [readStreamChannel, h]

theorem step_aborted (env : Env) (N : Nat) (a : ReadAcc) (n : Nat)
    (h : a.aborted = true) : readStreamChannel env N a n = a := by
  simp [readStreamChannel, h]

theorem foldInv_zero (env : Env) (s : State) (buffs : Nat → List Byte) (N : Nat) :
    FoldInv env s buffs N 0 (readAcc env s buffs N 0) := by
  refine ⟨rfl, rfl, rfl, rfl, rfl, rfl, rfl, rfl, ?_, ?_, ?_, ?_, ?_, ?_, ?_⟩
  · intro _; simp [readAcc, slotOf]
  · intro ch _; exact ⟨rfl, rfl, rfl, rfl, rfl⟩
  · intro k _; rfl
  · intro ch h; omega
  · intro h; simp [readAcc] at h
  · intro _ ch h; omega
  · intro _; exact ⟨rfl, rfl⟩

theorem foldInv_step (env : Env) (s : State) (buffs : Nat → List Byte) (N n : Nat)
    (a : ReadAcc) (I : FoldInv env s buffs N n a) :
    FoldInv env s buffs N (n + 1) (readStreamChannel env N a n) := by
  by_cases hab : a.aborted = true
  · -- an assertion has failed: nothing runs any more
    rw [step_aborted env N a n hab]
    have hmono : slotOf s n ≤ slotOf s (n + 1) := slotOf_mono s n (n + 1) (by omega)
    refine ⟨I.rx_ch, I.fmt, I.obs, I.dcc, I.cnt, I.setup, I.strm, I.clk, ?_, ?_, ?_, ?_, ?_, ?_, ?_⟩
    · intro h; rw [hab] at h; exact absurd h (by simp)
    · intro ch hch
      apply I.unch
      rcases hch with h | h
      · exact Or.inl (by omega)
      · exact Or.inr h
    · intro k hk; exact I.slots k (by omega)
    · intro ch hch hce
      rcases Nat.lt_or_ge ch n with hlt | hge
      · exact I.done ch hlt hce
      · have : ch = n := by omega
        subst this
        exact Or.inr ⟨hab, I.unch ch (Or.inl le_rfl), I.slots _ le_rfl⟩
    · intro _
      obtain ⟨ch, h1, h2, h3⟩ := I.abt hab
      exact ⟨ch, by omega, h2, h3⟩
    · intro h; rw [hab] at h; exact absurd h (by simp)
    · intro h0
      have := I.ret0 (fun ch h => h0 ch (by omega))
      rw [hab] at this; exact absurd this.2 (by simp)
  have hab' : a.aborted = false := by simpa using hab
  by_cases he : enabled s n = true
  · -- the channel is enabled: its body runs on the data of `s`
    have hen : (a.st.rx_ch n).enable = RFNM_CH_ON := by
      rw [I.rx_ch]; simpa [enabled] using he
    obtain ⟨u1, u2, u3, u4, u5⟩ := I.unch n (Or.inl le_rfl)
    have hrun : readChannel env n a.st.rx_stream_format a.st.outbufsize
        (a.st.dc_correction n) N (a.buffs a.buf_idx) (a.st.partial_rx_buf n)
        (a.st.dc_offsets n) (a.st.rx_queue n) a.st.log = chanRun env s buffs N n a.st.log := by
      unfold chanRun
      rw [I.fmt, I.obs, I.dcc, I.idx hab', I.slots _ le_rfl, u1, u2, u3]
    have hs1 : slotOf s (n + 1) = slotOf s n + 1 := by rw [slotOf_succ, he]; simp
    have hstep : readStreamChannel env N a n =
        { st := { a.st with
                    partial_rx_buf := upd a.st.partial_rx_buf n (chanRun env s buffs N n a.st.log).pbuf
                    dc_offsets := upd a.st.dc_offsets n (chanRun env s buffs N n a.st.log).dc
                    rx_queue := upd a.st.rx_queue n (chanRun env s buffs N n a.st.log).queue
                    log := (chanRun env s buffs N n a.st.log).log }
          buffs := upd a.buffs (slotOf s n) (chanRun env s buffs N n a.st.log).out
          read_elems := (chanRun env s buffs N n a.st.log).read_elems
          buf_idx := slotOf s n + 1
          aborted := (chanRun env s buffs N n a.st.log).aborted } := by
      simp only [readStreamChannel, hab', Bool.false_eq_true, hen, ne_eq, not_true_eq_false,
        if_false]
      rw [hrun, I.idx hab']
    rw [hstep]
    have hcnt : ∀ ch, ch ≠ n →
        copiedBytes (chanRun env s buffs N n a.st.log).log ch = copiedBytes a.st.log ch ∧
        dequeued (chanRun env s buffs N n a.st.log).log ch = dequeued a.st.log ch := by
      intro ch hne
      exact readChannel_counts env n _ _ _ N _ _ _ _ _ ch hne
    refine ⟨I.rx_ch, I.fmt, I.obs, I.dcc, I.cnt, I.setup, I.strm, I.clk, fun _ => hs1.symm,
      ?_, ?_, ?_, ?_, ?_, ?_⟩
    · intro ch hch
      have hne : ch ≠ n := by
        rcases hch with h | h
        · omega
        · intro e; subst e; rw [he] at h; exact absurd h (by simp)
      obtain ⟨v1, v2, v3, v4, v5⟩ := I.unch ch (by
        rcases hch with h | h
        · exact Or.inl (by omega)
        · exact Or.inr h)
      obtain ⟨c1, c2⟩ := hcnt ch hne
      refine ⟨?_, ?_, ?_, ?_, ?_⟩
      · simpa [upd_other _ _ _ _ hne] using v1
      · simpa [upd_other _ _ _ _ hne] using v2
      · simpa [upd_other _ _ _ _ hne] using v3
      · exact c1.trans v4
      · exact c2.trans v5
    · intro k hk
      have hne : k ≠ slotOf s n := by omega
      simp only [upd_other _ _ _ _ hne]
      exact I.slots k (by omega)
    · intro ch hch hce
      left
      rcases Nat.lt_or_ge ch n with hlt | hge
      · have hd : Done env s buffs N a ch := by
          rcases I.done ch hlt hce with h | h
          · exact h
          · have h1 := h.1; rw [hab'] at h1; exact absurd h1 (by simp)
        obtain ⟨log, d1, d2, d3, d4, d5, d6, d7, d8, d9⟩ := hd
        have hne : ch ≠ n := by omega
        have hsl : slotOf s ch ≠ slotOf s n := by
          have := slotOf_lt s ch n hlt hce; omega
        obtain ⟨c1, c2⟩ := hcnt ch hne
        refine ⟨log, d1, d2, ?_, ?_, ?_, ?_, ?_, ?_, ?_⟩
        · simpa [upd_other _ _ _ _ hne] using d3
        · simpa [upd_other _ _ _ _ hne] using d4
        · simpa [upd_other _ _ _ _ hne] using d5
        · simpa [upd_other _ _ _ _ hsl] using d6
        · exact c1.trans d7
        · exact c2.trans d8
        · intro h
          have := d9 h
          rw [hab'] at this; exact absurd this (by simp)
      · have : ch = n := by omega
        subst this
        exact ⟨a.st.log, u4, u5, by simp, by simp, by simp, by simp, rfl, rfl, fun h => h⟩
    · intro h
      exact ⟨n, by omega, he, a.st.log, h⟩
    · intro _ ch hch hce hlast
      rcases Nat.lt_or_ge ch n with hlt | hge
      · have := hlast n hlt (by omega)
        rw [he] at this; exact absurd this (by simp)
      · have : ch = n := by omega
        subst this
        exact ⟨a.st.log, rfl⟩
    · intro h0
      have := h0 n (by omega)
      rw [he] at this; exact absurd this (by simp)
  · -- the channel is skipped
    have he' : enabled s n = false := by simpa using he
    have hen : (a.st.rx_ch n).enable ≠ RFNM_CH_ON := by
      rw [I.rx_ch]; simpa [enabled] using he'
    rw [step_disabled env N a n hen]
    have hs1 : slotOf s (n + 1) = slotOf s n := by rw [slotOf_succ, he']; simp
    refine ⟨I.rx_ch, I.fmt, I.obs, I.dcc, I.cnt, I.setup, I.strm, I.clk, ?_, ?_, ?_, ?_, ?_, ?_, ?_⟩
    · intro h; rw [hs1]; exact I.idx h
    · intro ch hch
      apply I.unch
      rcases hch with h | h
      · exact Or.inl (by omega)
      · exact Or.inr h
    · intro k hk; rw [hs1] at hk; exact I.slots k hk
    · intro ch hch hce
      have hne : ch ≠ n := by intro e; subst e; rw [he'] at hce; exact absurd hce (by simp)
      exact I.done ch (by omega) hce
    · intro h; rw [hab'] at h; exact absurd h (by simp)
    · intro h ch hch hce hlast
      have hne : ch ≠ n := by intro e; subst e; rw [he'] at hce; exact absurd hce (by simp)
      exact I.ret h ch (by omega) hce (fun k h1 h2 => hlast k h1 (by omega))
    · intro h0
      exact I.ret0 (fun ch h => h0 ch (by omega))

/-- In a run on which no assertion failed every enabled channel's body ran. -/
theorem FoldInv.done_ok {env : Env} {s : State} {buffs : Nat → List Byte} {N n : Nat}
    {a : ReadAcc} (I : FoldInv env s buffs N n a) (hab : a.aborted = false) (ch : Nat)
    (hch : ch < n) (he : enabled s ch = true) : Done env s buffs N a ch := by
  rcases I.done ch hch he with h | h
  · exact h
  · have h1 := h.1; rw [hab] at h1; exact absurd h1 (by simp)

theorem foldInv_all (env : Env) (s : State) (buffs : Nat → List Byte) (N : Nat) :
    ∀ n, FoldInv env s buffs N n (readAcc env s buffs N n) := by
  intro n
  induction n with
  | zero => exact foldInv_zero env s buffs N
  | succ n ih => rw [readAcc_succ]; exact foldInv_step env s buffs N n _ ih

theorem buffersNeeded_spec (c N E : Nat) (hE : 0 < E) :
    N ≤ min N c + buffersNeeded c N E * E ∧
    (buffersNeeded c N E ≠ 0 → min N c + (buffersNeeded c N E - 1) * E < N) := by
  unfold buffersNeeded
  by_cases h : N ≤ c
  · simp [h]
  · simp only [h, if_false]
    have hmin : min N c = c := by omega
    rw [hmin]
    have h1 : (N - c + E - 1) / E * E ≤ N - c + E - 1 := Nat.div_mul_le_self _ _
    have h2 : N - c + E - 1 < (N - c + E - 1) / E * E + E :=
      Nat.lt_div_mul_add (a := N - c + E - 1) hE
    generalize (N - c + E - 1) / E = m at h1 h2 ⊢
    constructor
    · omega
    · intro hne
      obtain ⟨k, hk⟩ : ∃ k, m = k + 1 := ⟨m - 1, by omega⟩
      rw [hk] at h1 ⊢
      have : (k + 1) * E = k * E + E := by ring
      simp only [Nat.add_sub_cancel]
      omega

theorem readCarry_sizes (ch bpe N : Nat) (c : ChanSt) (k : Nat) (hb : 0 < bpe)
    (hl : c.pbuf.left = k * bpe) :
    (readCarry ch bpe N c).read_elems = c.read_elems + min N k ∧
    (readCarry ch bpe N c).pbuf.left = (k - min N k) * bpe ∧
    (readCarry ch bpe N c).queue = c.queue ∧
    dequeued (readCarry ch bpe N c).log ch = dequeued c.log ch := by
  unfold readCarry
  by_cases hl0 : c.pbuf.left ≠ 0
  · rw [if_pos hl0]
    have hcw : (if N * bpe > c.pbuf.left then c.pbuf.left else N * bpe) = min N k * bpe := by
      rw [hl]
      by_cases hgt : N * bpe > k * bpe
      · have hlt : k < N := lt_of_mul_lt_mul_right hgt (Nat.zero_le _)
        rw [if_pos hgt, min_eq_right (le_of_lt hlt)]
      · have hle : N ≤ k := by
          by_contra hcon
          exact hgt (Nat.mul_lt_mul_of_pos_right (by omega) hb)
        rw [if_neg hgt, min_eq_left hle]
    simp only [hcw]
    refine ⟨?_, ?_, trivial, ?_⟩
    · rw [Nat.mul_div_cancel _ hb]
    · rw [hl, Nat.sub_mul]
    · simp [dequeued]
  · have hl' : c.pbuf.left = 0 := by simpa using hl0
    rw [if_neg hl0]
    have hk : k = 0 := by
      have : k * bpe = 0 := by rw [← hl]; exact hl'
      rcases Nat.mul_eq_zero.mp this with h | h
      · exact h
      · omega
    subst hk
    simp [hl']

theorem chanRun_all_ok (env : Env) (s : State) (buffs : Nat → List Byte) (N ch : Nat)
    (log : List HwCall) (c E : Nat) (bs : List RxBuf) (rest : List (Option RxBuf))
    (hE : 0 < E) (hb : 0 < s.rx_stream_format)
    (hobs : s.outbufsize = E * s.rx_stream_format)
    (hok : s.dc_correction ch = false ∨ DcSizeOk s.rx_stream_format s.outbufsize)
    (hleft : (s.partial_rx_buf ch).left = c * s.rx_stream_format)
    (hq : s.rx_queue ch = bs.map some ++ rest)
    (hm : bs.length = buffersNeeded c N E) :
    (chanRun env s buffs N ch log).read_elems = N ∧
    (chanRun env s buffs N ch log).queue = rest ∧
    (chanRun env s buffs N ch log).pbuf.left =
      (c + buffersNeeded c N E * E - N) * s.rx_stream_format ∧
    dequeued (chanRun env s buffs N ch log).log ch = dequeued log ch + buffersNeeded c N E ∧
    (chanRun env s buffs N ch log).aborted = false := by
  obtain ⟨m1, m2⟩ := buffersNeeded_spec c N E hE
  rw [← hm] at m1 m2
  rw [hobs] at hok
  unfold chanRun readChannel
  rw [hobs, hq]
  generalize hc0 : ({ read_elems := 0, out := buffs (slotOf s ch), pbuf := s.partial_rx_buf ch, dc := s.dc_offsets ch, queue := bs.map some ++ rest, log := log, aborted := false } : ChanSt) = c0
  have hab0 : (readCarry ch s.rx_stream_format N c0).aborted = false := by
    rw [← hc0]; unfold readCarry; split <;> rfl
  have hl0 : c0.pbuf.left = c * s.rx_stream_format := by rw [← hc0]; exact hleft
  have hr0 : c0.read_elems = 0 := by rw [← hc0]
  have hlog0 : c0.log = log := by rw [← hc0]
  obtain ⟨r1, r2, _, r3⟩ := readCarry_sizes ch s.rx_stream_format N c0 c hb hl0
  rw [hr0, Nat.zero_add] at r1
  have key := readLoop_all_ok env ch s.rx_stream_format E (s.dc_correction ch) N hb hE hok bs rest
    (readCarry ch s.rx_stream_format N c0) (by rw [r1]; exact min_le_left _ _)
    (by
      intro hlt
      rw [r1] at hlt
      rw [r2]
      have : min N c = c := by
        rcases le_total N c with h | h
        · rw [min_eq_left h] at hlt; omega
        · exact min_eq_right h
      rw [this]; simp)
    (by rw [r1]; exact m1) (by rw [r1]; exact m2)
  obtain ⟨k1, k2, k3, k4, k5⟩ := key
  refine ⟨k1, k2, ?_, ?_, k5.trans hab0⟩
  · show (readLoop env ch s.rx_stream_format (E * s.rx_stream_format) (s.dc_correction ch) N
      (bs.map some ++ rest) (readCarry ch s.rx_stream_format N c0)).pbuf.left = _
    rw [k3, r1, r2, ← hm, ← Nat.add_mul]
    congr 1
    rcases le_total N c with h | h
    · rw [min_eq_left h]
      have hz : bs.length = 0 := by rw [hm]; simp [buffersNeeded, h]
      rw [hz]; omega
    · rw [min_eq_right h]; omega
  · show dequeued (readLoop env ch s.rx_stream_format (E * s.rx_stream_format)
      (s.dc_correction ch) N (bs.map some ++ rest) (readCarry ch s.rx_stream_format N c0)).log ch = _
    rw [k4, r3, hm, hlog0]

theorem last_enabled (s : State) :
    ∀ n, (∃ ch, ch < n ∧ enabled s ch = true) →
      ∃ ch, ch < n ∧ enabled s ch = true ∧ ∀ k, ch < k → k < n → enabled s k = false := by
  intro n
  induction n with
  | zero => rintro ⟨ch, h, _⟩; omega
  | succ n ih =>
    rintro ⟨ch, h, he⟩
    by_cases hn : enabled s n = true
    · exact ⟨n, by omega, hn, fun k h1 h2 => by omega⟩
    · have hn' : enabled s n = false := by simpa using hn
      have hne : ch ≠ n := by intro e; subst e; exact hn he
      obtain ⟨c, c1, c2, c3⟩ := ih ⟨ch, by omega, he⟩
      refine ⟨c, by omega, c2, fun k h1 h2 => ?_⟩
      rcases Nat.lt_or_ge k n with h | h
      · exact c3 k h1 h
      · have : k = n := by omega
        subst this; exact hn'

/-- Lifting of a property of every enabled channel's `read_elems` to the
value `readStream` returns, when no channel's body ends on a failed assertion. -/
theorem readStream_ret_of_all (env : Env) (s : State) (buffs : Nat → List Byte) (N v : Nat)
    (hsome : ∃ ch, ch < MAX_RX_CHAN_COUNT ∧ enabled s ch = true)
    (hall : ∀ ch, ch < MAX_RX_CHAN_COUNT → enabled s ch = true →
      ∀ log, (chanRun env s buffs N ch log).read_elems = v ∧
        (chanRun env s buffs N ch log).aborted = false) :
    (readStream env s buffs N).ret = .ok (int_of_size_t v) := by
  have I := foldInv_all env s buffs N 4
  have hab : (readAcc env s buffs N 4).aborted = false := by
    by_contra hcon
    have hcon' : (readAcc env s buffs N 4).aborted = true := by simpa using hcon
    obtain ⟨ch, h1, h2, log, h3⟩ := I.abt hcon'
    rw [(hall ch h1 h2 log).2] at h3
    exact absurd h3 (by simp)
  obtain ⟨ch, h1, h2, h3⟩ := last_enabled s 4 hsome
  obtain ⟨log, hl⟩ := I.ret hab ch h1 h2 h3
  rw [readStream_eq]
  show (if (readAcc env s buffs N 4).aborted then Except.error Err.assertion_failed
    else Except.ok (int_of_size_t (readAcc env s buffs N 4).read_elems)) = _
  rw [hab, hl, (hall ch h1 h2 log).1]
  rfl

/-- No assertion fails in a `readStream` call when none fails in the body of
any enabled channel. -/
theorem readStream_not_aborted (env : Env) (s : State) (buffs : Nat → List Byte) (N : Nat)
    (hall : ∀ ch, ch < MAX_RX_CHAN_COUNT → enabled s ch = true →
      ∀ log, (chanRun env s buffs N ch log).aborted = false) :
    (readAcc env s buffs N 4).aborted = false := by
  have I := foldInv_all env s buffs N 4
  by_contra hcon
  have hcon' : (readAcc env s buffs N 4).aborted = true := by simpa using hcon
  obtain ⟨ch, h1, h2, log, h3⟩ := I.abt hcon'
  rw [hall ch h1 h2 log] at h3
  exact absurd h3 (by simp)

/-! ### Conservation of bytes through one channel body -/

theorem readBuf_log (ch bpe obs N : Nat) (dc : DcOffsets) (hw : List Byte)
    (q : List (Option RxBuf)) (c : ChanSt) :
    (readBuf ch bpe obs N dc hw q c).log =
      HwCall.rx_qbuf :: HwCall.copy_out ch
        (if c.read_elems + obs / bpe > N then obs - (c.read_elems + obs / bpe - N) * bpe
         else obs) :: HwCall.rx_dqbuf ch true :: c.log := by
  unfold readBuf
  by_cases hov : c.read_elems + obs / bpe > N <;> simp [hov]

theorem readBuf_conserve (ch bpe obs N : Nat) (dc : DcOffsets) (hw : List Byte)
    (q : List (Option RxBuf)) (c : ChanSt) (h0 : c.pbuf.left = 0) :
    copiedBytes (readBuf ch bpe obs N dc hw q c).log ch
        + (readBuf ch bpe obs N dc hw q c).pbuf.left = copiedBytes c.log ch + obs ∧
    dequeued (readBuf ch bpe obs N dc hw q c).log ch = dequeued c.log ch + 1 ∧
    ((readBuf ch bpe obs N dc hw q c).read_elems < N →
      (readBuf ch bpe obs N dc hw q c).pbuf.left = 0) ∧
    copiedBytes c.log ch ≤ copiedBytes (readBuf ch bpe obs N dc hw q c).log ch := by
  have hleft := readBuf_left ch bpe obs N dc hw q c
  have hre := readBuf_read_elems ch bpe obs N dc hw q c
  have hcp : copiedBytes (readBuf ch bpe obs N dc hw q c).log ch =
      copiedBytes c.log ch + (if c.read_elems + obs / bpe > N then
        obs - (c.read_elems + obs / bpe - N) * bpe else obs) := by
    rw [readBuf_log]
    simp only [copiedBytes, if_true]
    omega
  have hdq : dequeued (readBuf ch bpe obs N dc hw q c).log ch = dequeued c.log ch + 1 := by
    rw [readBuf_log]
    simp only [dequeued, and_self, if_true]
    omega
  refine ⟨?_, hdq, ?_, by rw [hcp]; exact Nat.le_add_right _ _⟩
  · rw [hcp, hleft]
    by_cases hov : c.read_elems + obs / bpe > N
    · have hne : c.read_elems + obs / bpe - N ≠ 0 := by omega
      simp only [hov, if_true, hne, ne_eq, not_false_eq_true]
      omega
    · simp only [hov, if_false]; omega
  · intro hlt
    rw [hre] at hlt
    rw [hleft]
    by_cases hov : c.read_elems + obs / bpe > N
    · simp only [hov, if_true] at hlt; omega
    · simp only [hov, if_false]; exact h0

theorem readLoop_conserve (env : Env) (ch bpe obs : Nat) (dcc : Bool) (N : Nat)
    (hok : dcc = false ∨ DcSizeOk bpe obs) :
    ∀ (q : List (Option RxBuf)) (c : ChanSt), (c.read_elems < N → c.pbuf.left = 0) →
      copiedBytes (readLoop env ch bpe obs dcc N q c).log ch
          + (readLoop env ch bpe obs dcc N q c).pbuf.left + obs * dequeued c.log ch =
        copiedBytes c.log ch + c.pbuf.left
          + obs * dequeued (readLoop env ch bpe obs dcc N q c).log ch ∧
      copiedBytes c.log ch ≤ copiedBytes (readLoop env ch bpe obs dcc N q c).log ch ∧
      dequeued c.log ch ≤ dequeued (readLoop env ch bpe obs dcc N q c).log ch := by
  intro q
  induction q with
  | nil =>
    intro c _
    by_cases hlt : c.read_elems < N
    · rw [readLoop_nil _ _ _ _ _ _ _ hlt]; simp [copiedBytes, dequeued]
    · rw [readLoop_done _ _ _ _ _ _ _ _ hlt]; simp
  | cons r q ih =>
    intro c h0
    by_cases hlt : c.read_elems < N
    · cases r with
      | none => rw [readLoop_none _ _ _ _ _ _ _ _ hlt]; simp [copiedBytes, dequeued]
      | some b =>
        obtain ⟨d, hd⟩ := dcBlock_some env bpe obs dcc b c.dc hok
        rw [readLoop_some _ _ _ _ _ _ _ _ _ hlt d hd]
        obtain ⟨b1, b2, b3, b4⟩ := readBuf_conserve ch bpe obs N d.1 d.2 q c (h0 hlt)
        obtain ⟨i1, i2, i3⟩ := ih (readBuf ch bpe obs N d.1 d.2 q c) b3
        have hl0 := h0 hlt
        rw [b2, Nat.mul_add, Nat.mul_one] at i1
        refine ⟨?_, ?_, ?_⟩
        · omega
        · omega
        · omega
    · rw [readLoop_done _ _ _ _ _ _ _ _ hlt]; simp

theorem readCarry_conserve (ch bpe N : Nat) (c : ChanSt) (hb : 0 < bpe)
    (hr : c.read_elems = 0) :
    copiedBytes (readCarry ch bpe N c).log ch + (readCarry ch bpe N c).pbuf.left =
      copiedBytes c.log ch + c.pbuf.left ∧
    dequeued (readCarry ch bpe N c).log ch = dequeued c.log ch ∧
    ((readCarry ch bpe N c).read_elems < N → (readCarry ch bpe N c).pbuf.left = 0) ∧
    copiedBytes c.log ch ≤ copiedBytes (readCarry ch bpe N c).log ch := by
  unfold readCarry
  by_cases hl0 : c.pbuf.left ≠ 0
  · rw [if_pos hl0]
    by_cases hgt : N * bpe > c.pbuf.left
    · simp only [hgt, if_true, copiedBytes, dequeued]
      simp
      omega
    · simp only [hgt, if_false, copiedBytes, dequeued, hr]
      refine ⟨by simp; omega, trivial, ?_, by simp⟩
      intro hlt
      rw [Nat.zero_add, Nat.mul_div_cancel _ hb] at hlt
      omega
  · rw [if_neg hl0]
    have : c.pbuf.left = 0 := by simpa using hl0
    simp [this]

theorem chanRun_conserve (env : Env) (s : State) (buffs : Nat → List Byte) (N ch : Nat)
    (log : List HwCall) (hb : 0 < s.rx_stream_format)
    (hok : s.dc_correction ch = false ∨ DcSizeOk s.rx_stream_format s.outbufsize) :
    copiedBytes (chanRun env s buffs N ch log).log ch
        + (chanRun env s buffs N ch log).pbuf.left + s.outbufsize * dequeued log ch =
      copiedBytes log ch + (s.partial_rx_buf ch).left
        + s.outbufsize * dequeued (chanRun env s buffs N ch log).log ch ∧
    copiedBytes log ch ≤ copiedBytes (chanRun env s buffs N ch log).log ch ∧
    dequeued log ch ≤ dequeued (chanRun env s buffs N ch log).log ch := by
  unfold chanRun readChannel
  generalize hc0 : ({ read_elems := 0, out := buffs (slotOf s ch), pbuf := s.partial_rx_buf ch, dc := s.dc_offsets ch, queue := s.rx_queue ch, log := log, aborted := false } : ChanSt) = c0
  have hl0 : c0.pbuf.left = (s.partial_rx_buf ch).left := by rw [← hc0]
  have hr0 : c0.read_elems = 0 := by rw [← hc0]
  have hlog0 : c0.log = log := by rw [← hc0]
  obtain ⟨a1, a2, a3, a4⟩ := readCarry_conserve ch s.rx_stream_format N c0 hb hr0
  obtain ⟨b1, b2, b3⟩ := readLoop_conserve env ch s.rx_stream_format s.outbufsize
    (s.dc_correction ch) N hok (s.rx_queue ch) (readCarry ch s.rx_stream_format N c0) a3
  rw [a2, hlog0] at b1 b3
  rw [hlog0, hl0] at a1
  dsimp only
  refine ⟨?_, ?_, b3⟩
  · show copiedBytes (readLoop env ch s.rx_stream_format s.outbufsize (s.dc_correction ch) N
        (s.rx_queue ch) (readCarry ch s.rx_stream_format N c0)).log ch
      + (readLoop env ch s.rx_stream_format s.outbufsize (s.dc_correction ch) N
        (s.rx_queue ch) (readCarry ch s.rx_stream_format N c0)).pbuf.left
      + s.outbufsize * dequeued log ch = _
    omega
  · show copiedBytes log ch ≤ copiedBytes (readLoop env ch s.rx_stream_format s.outbufsize
        (s.dc_correction ch) N (s.rx_queue ch) (readCarry ch s.rx_stream_format N c0)).log ch
    rw [hlog0] at a4
    exact le_trans a4 b2

/-! ### `activateStream` -/

theorem measSwitch_size (env : Env) (format obs : Nat) (buf : List Byte) (d d1 : DcOffsets)
    (k : ℚ) (h : measSwitch env format obs buf d k = some d1) : DcSizeOk format obs := by
  have := measSwitch_isSome env format obs buf d k
  rw [h] at this
  simpa using this.symm

theorem activateChannel_ok (env : Env) (s s1 : State) (ch : Nat) (u : Unit)
    (h : activateChannel env s ch = (s1, .ok u)) :
    SameSetup s s1 ∧ Activated env s s1 ch ∧ ∀ k, k ≠ ch → SameChan s s1 k := by
  unfold activateChannel at h
  split at h
  · simp at h
  · simp at h
  · rename_i b q hq
    dsimp only at h
    split at h
    · simp at h
    · rename_i d hd
      by_cases hdc : s.dc_correction ch = true
      · rw [if_pos hdc] at h
        split at h
        · simp at h
        · rename_i buf1 hb1
          simp only [Prod.mk.injEq, and_true] at h
          subst h
          refine ⟨⟨rfl, rfl, rfl, rfl, rfl, rfl, rfl, rfl⟩,
            ⟨b, q, hq, by simp, by simpa using hd, ?_, by simp, by simp, ?_, ?_⟩, ?_⟩
          · simp only [hdc, if_true, upd_same]
            exact hb1
          · simp [copiedBytes]
          · simp [dequeued]; omega
          · intro k hk
            refine ⟨by simp [upd_other _ _ _ _ hk], by simp [upd_other _ _ _ _ hk],
              by simp [upd_other _ _ _ _ hk], by simp [copiedBytes], ?_⟩
            simp [dequeued, Ne.symm hk]
      · rw [if_neg hdc] at h
        simp only [Prod.mk.injEq, and_true] at h
        subst h
        refine ⟨⟨rfl, rfl, rfl, rfl, rfl, rfl, rfl, rfl⟩,
          ⟨b, q, hq, by simp, by simpa using hd, ?_, by simp, by simp, ?_, ?_⟩, ?_⟩
        · simp [hdc]
        · simp [copiedBytes]
        · simp [dequeued]; omega
        · intro k hk
          refine ⟨by simp [upd_other _ _ _ _ hk], by simp [upd_other _ _ _ _ hk],
            by simp [upd_other _ _ _ _ hk], by simp [copiedBytes], ?_⟩
          simp [dequeued, Ne.symm hk]

theorem SameSetup.enabled_eq {s s1 : State} (h : SameSetup s s1) (ch : Nat) :
    enabled s1 ch = enabled s ch := by
  unfold enabled; rw [h.1]

theorem activateLoop_ok (env : Env) :
    ∀ (chs : List Nat) (s s1 : State) (u : Unit), chs.Nodup →
      activateLoop env chs s = (s1, .ok u) →
      SameSetup s s1 ∧
      (∀ ch, ch ∈ chs → enabled s ch = true → Activated env s s1 ch) ∧
      (∀ ch, (ch ∉ chs ∨ enabled s ch = false) → SameChan s s1 ch) := by
  intro chs
  induction chs with
  | nil =>
    intro s s1 u _ h
    simp only [activateLoop, Prod.mk.injEq, and_true] at h
    subst h
    exact ⟨⟨rfl, rfl, rfl, rfl, rfl, rfl, rfl, rfl⟩, by simp, fun _ _ => ⟨rfl, rfl, rfl, rfl, rfl⟩⟩
  | cons c chs ih =>
    intro s s1 u hnd h
    have hnd' := (List.nodup_cons.mp hnd)
    unfold activateLoop at h
    by_cases hen : (s.rx_ch c).enable ≠ RFNM_CH_ON
    · rw [if_pos hen] at h
      obtain ⟨i1, i2, i3⟩ := ih s s1 u hnd'.2 h
      have hdis : enabled s c = false := by simpa [enabled] using hen
      refine ⟨i1, ?_, ?_⟩
      · intro ch hch he
        rcases List.mem_cons.mp hch with h1 | h1
        · subst h1; rw [hdis] at he; exact absurd he (by simp)
        · exact i2 ch h1 he
      · intro ch hch
        apply i3
        rcases hch with h1 | h1
        · exact Or.inl (fun hm => h1 (List.mem_cons_of_mem _ hm))
        · exact Or.inr h1
    · rw [if_neg hen] at h
      have hen' : enabled s c = true := by simpa [enabled] using hen
      generalize hac : activateChannel env s c = r at h
      obtain ⟨s2, v⟩ := r
      cases v with
      | error e => simp at h
      | ok u2 =>
        simp only at h
        obtain ⟨a1, a2, a3⟩ := activateChannel_ok env s s2 c u2 hac
        obtain ⟨i1, i2, i3⟩ := ih s2 s1 u hnd'.2 h
        have hsetup : SameSetup s s1 := by
          obtain ⟨x1, x2, x3, x4, x5, x6, x7, x8⟩ := a1
          obtain ⟨y1, y2, y3, y4, y5, y6, y7, y8⟩ := i1
          exact ⟨y1.trans x1, y2.trans x2, y3.trans x3, y4.trans x4, y5.trans x5, y6.trans x6,
            y7.trans x7, y8.trans x8⟩
        refine ⟨hsetup, ?_, ?_⟩
        · intro ch hch he
          rcases List.mem_cons.mp hch with h1 | h1
          · subst h1
            -- activated first, untouched by the rest of the loop
            obtain ⟨z1, z2, z3, z4, z5⟩ := i3 ch (Or.inl hnd'.1)
            obtain ⟨b, q, w1, w2, w3, w4, w5, w6, w7, w8⟩ := a2
            exact ⟨b, q, w1, z3.trans w2, by rw [z2]; exact w3, by rw [z1, z2]; exact w4,
              by rw [z1]; exact w5, by rw [z1]; exact w6, z4.trans w7, z5.trans w8⟩
          · have hne : ch ≠ c := by intro e; subst e; exact hnd'.1 h1
            obtain ⟨z1, z2, z3, z4, z5⟩ := a3 ch hne
            have he2 : enabled s2 ch = true := by rw [a1.enabled_eq]; exact he
            obtain ⟨b, q, w1, w2, w3, w4, w5, w6, w7, w8⟩ := i2 ch h1 he2
            obtain ⟨x1, x2, x3, x4, x5, x6, x7, x8⟩ := a1
            rw [x2, x3, z1, z2] at w3
            rw [x2, x3, x4, z1] at w4
            rw [x3] at w5
            exact ⟨b, q, by rw [← z3]; exact w1, w2, w3, w4, w5, w6, w7.trans z4,
              by rw [w8, z5]⟩
        · intro ch hch
          have hne : ch ≠ c := by
            rcases hch with h1 | h1
            · intro e; subst e; exact h1 (List.mem_cons_self _ _)
            · intro e; subst e; rw [hen'] at h1; exact absurd h1 (by simp)
          obtain ⟨z1, z2, z3, z4, z5⟩ := a3 ch hne
          obtain ⟨y1, y2, y3, y4, y5⟩ := i3 ch (by
            rcases hch with h1 | h1
            · exact Or.inl (fun hm => h1 (List.mem_cons_of_mem _ hm))
            · exact Or.inr (by rw [a1.enabled_eq]; exact h1))
          exact ⟨y1.trans z1, y2.trans z2, y3.trans z3, y4.trans z4, y5.trans z5⟩

theorem activateStream_ok (env : Env) (s s1 : State) (v : Int)
    (h : activateStream env s = (s1, .ok v)) :
    SameSetup s s1 ∧
    (∀ ch, ch < MAX_RX_CHAN_COUNT → enabled s ch = true → Activated env s s1 ch) ∧
    (∀ ch, (MAX_RX_CHAN_COUNT ≤ ch ∨ enabled s ch = false) → SameChan s s1 ch) := by
  unfold activateStream at h
  generalize hal : activateLoop env (List.range MAX_RX_CHAN_COUNT) s = r at h
  obtain ⟨s2, w⟩ := r
  cases w with
  | error e => simp at h
  | ok u =>
    simp only [Prod.mk.injEq] at h
    obtain ⟨h1, _⟩ := h
    subst h1
    obtain ⟨a1, a2, a3⟩ := activateLoop_ok env _ s s2 u (List.nodup_range _) hal
    refine ⟨a1, fun ch hch he => a2 ch (List.mem_range.mpr hch) he, fun ch hch => a3 ch ?_⟩
    rcases hch with h1 | h1
    · exact Or.inl (fun hm => by have := List.mem_range.mp hm; omega)
    · exact Or.inr h1

/-- A successful `activateStream` on a stream with an enabled channel has
passed the assertion of the DC templates. -/
theorem activateStream_size (env : Env) (s s1 : State) (v : Int)
    (h : activateStream env s = (s1, .ok v)) (ch : Nat) (hch : ch < MAX_RX_CHAN_COUNT)
    (he : enabled s ch = true) : DcSizeOk s.rx_stream_format s.outbufsize := by
  obtain ⟨_, a2, _⟩ := activateStream_ok env s s1 v h
  obtain ⟨b, q, _, _, w3, _⟩ := a2 ch hch he
  exact measSwitch_size env _ _ _ _ _ _ w3

/-! ### Contents delivered by one channel body -/

theorem readLoop_some_off (env : Env) (ch bpe obs N : Nat) (b : RxBuf)
    (q : List (Option RxBuf)) (c : ChanSt) (h : c.read_elems < N) :
    readLoop env ch bpe obs false N (some b :: q) c =
      readLoop env ch bpe obs false N q (readBuf ch bpe obs N c.dc b.buf q c) := by
  rw [readLoop_some _ _ _ _ _ _ _ _ _ h _ (dcBlock_off env bpe obs b c.dc)]

theorem memcpy_length (dst src : List Byte) (off n : Nat) (h1 : off + n ≤ dst.length)
    (h2 : n ≤ src.length) : (memcpy dst off src n).length = dst.length := by
  simp [memcpy, List.length_append, List.length_take, List.length_drop]
  omega

theorem memcpy_take (dst src : List Byte) (off n : Nat) (h1 : off + n ≤ dst.length)
    (h2 : n ≤ src.length) : (memcpy dst off src n).take (off + n) = dst.take off ++ src.take n := by
  unfold memcpy
  have hl : (dst.take off ++ src.take n).length = off + n := by
    simp [List.length_append, List.length_take]; omega
  rw [List.take_append_of_le_length (by rw [hl])]
  rw [← hl, List.take_length]

theorem memcpy_drop (dst src : List Byte) (off n : Nat) (h1 : off + n ≤ dst.length)
    (h2 : n ≤ src.length) : (memcpy dst off src n).drop (off + n) = dst.drop (off + n) := by
  unfold memcpy
  have hl : (dst.take off ++ src.take n).length = off + n := by
    simp [List.length_append, List.length_take]; omega
  rw [← hl, List.drop_left]

theorem bytesOf_nil : bytesOf [] = [] := rfl

theorem bytesOf_cons_some (b : RxBuf) (used : List (Option RxBuf)) :
    bytesOf (some b :: used) = b.buf ++ bytesOf used := by
  simp [bytesOf]

theorem bytesOf_cons_none (used : List (Option RxBuf)) :
    bytesOf (none :: used) = bytesOf used := by
  simp [bytesOf]

theorem carryBytes_stash (dst src : List Byte) (n : Nat) (h : src.length = n) :
    carryBytes { buf := memcpy dst 0 src n, left := n, offset := 0 } = src := by
  simp only [carryBytes, memcpy, List.drop_zero, List.take_zero, List.nil_append]
  rw [← h, List.take_length, List.take_left]

theorem readBuf_content (ch bpe E N : Nat) (b : RxBuf)
    (q : List (Option RxBuf)) (c : ChanSt) (hb : 0 < bpe)
    (hlt : c.read_elems < N) (h0 : c.pbuf.left = 0)
    (hcap : N * bpe ≤ c.out.length) (hlen : b.buf.length = E * bpe) :
    (readBuf ch bpe (E * bpe) N c.dc b.buf q c).out.take
        (bpe * (readBuf ch bpe (E * bpe) N c.dc b.buf q c).read_elems)
      ++ carryBytes (readBuf ch bpe (E * bpe) N c.dc b.buf q c).pbuf =
      c.out.take (bpe * c.read_elems) ++ b.buf ∧
    (readBuf ch bpe (E * bpe) N c.dc b.buf q c).out.drop
        (bpe * (readBuf ch bpe (E * bpe) N c.dc b.buf q c).read_elems) =
      c.out.drop (bpe * (readBuf ch bpe (E * bpe) N c.dc b.buf q c).read_elems) ∧
    (readBuf ch bpe (E * bpe) N c.dc b.buf q c).out.length = c.out.length ∧
    (readBuf ch bpe (E * bpe) N c.dc b.buf q c).read_elems ≤ N ∧
    c.read_elems ≤ (readBuf ch bpe (E * bpe) N c.dc b.buf q c).read_elems := by
  have hdiv : E * bpe / bpe = E := Nat.mul_div_cancel _ hb
  by_cases hov : c.read_elems + E > N
  · -- the buffer is split between the output and the carryover
    have hcc : E * bpe - (c.read_elems + E - N) * bpe = (N - c.read_elems) * bpe := by
      rw [← Nat.sub_mul]; congr 1; omega
    have hle : (N - c.read_elems) * bpe ≤ E * bpe := Nat.mul_le_mul_right _ (by omega)
    have hre : (readBuf ch bpe (E * bpe) N c.dc b.buf q c).read_elems = N := by
      rw [readBuf_read_elems, hdiv, if_pos hov]; omega
    have hout : (readBuf ch bpe (E * bpe) N c.dc b.buf q c).out =
        memcpy c.out (bpe * c.read_elems) b.buf ((N - c.read_elems) * bpe) := by
      simp only [readBuf, hdiv, hov, if_true, hcc]
    have hpb : (readBuf ch bpe (E * bpe) N c.dc b.buf q c).pbuf =
        { buf := memcpy c.pbuf.buf 0 (b.buf.drop ((N - c.read_elems) * bpe))
            (E * bpe - (N - c.read_elems) * bpe)
          left := E * bpe - (N - c.read_elems) * bpe
          offset := 0 } := by
      have hne : c.read_elems + E - N ≠ 0 := by omega
      simp only [readBuf, hdiv, hov, if_true, hcc, hne, ne_eq, not_false_eq_true]
    have hsum : bpe * c.read_elems + (N - c.read_elems) * bpe = bpe * N := by
      rw [Nat.mul_comm (N - c.read_elems) bpe, ← Nat.mul_add]; congr 1; omega
    have hb1 : bpe * c.read_elems + (N - c.read_elems) * bpe ≤ c.out.length := by
      rw [hsum, Nat.mul_comm]; exact hcap
    have hb2 : (N - c.read_elems) * bpe ≤ b.buf.length := by rw [hlen]; exact hle
    rw [hre, hout, hpb]
    refine ⟨?_, ?_, memcpy_length _ _ _ _ hb1 hb2, le_rfl, le_of_lt hlt⟩
    · rw [← hsum, memcpy_take _ _ _ _ hb1 hb2, List.append_assoc]
      congr 1
      have hdl : (b.buf.drop ((N - c.read_elems) * bpe)).length =
          E * bpe - (N - c.read_elems) * bpe := by
        rw [List.length_drop, hlen]
      have hcarry := carryBytes_stash c.pbuf.buf (b.buf.drop ((N - c.read_elems) * bpe)) _ hdl
      rw [hcarry, List.take_append_drop]
    · rw [← hsum]; exact memcpy_drop _ _ _ _ hb1 hb2
  · -- the whole buffer goes to the output
    have hre : (readBuf ch bpe (E * bpe) N c.dc b.buf q c).read_elems = c.read_elems + E := by
      rw [readBuf_read_elems, hdiv, if_neg hov]; omega
    have hout : (readBuf ch bpe (E * bpe) N c.dc b.buf q c).out =
        memcpy c.out (bpe * c.read_elems) b.buf (E * bpe) := by
      simp only [readBuf, hdiv, hov, if_false]
      try simp
    have hpb : (readBuf ch bpe (E * bpe) N c.dc b.buf q c).pbuf = c.pbuf := by
      simp only [readBuf, hdiv, hov, if_false]
      try simp
    have hsum : bpe * c.read_elems + E * bpe = bpe * (c.read_elems + E) := by ring
    have hb1 : bpe * c.read_elems + E * bpe ≤ c.out.length := by
      rw [hsum]
      calc bpe * (c.read_elems + E) ≤ bpe * N := Nat.mul_le_mul_left _ (by omega)
        _ = N * bpe := Nat.mul_comm _ _
        _ ≤ c.out.length := hcap
    have hb2 : E * bpe ≤ b.buf.length := by rw [hlen]
    rw [hre, hout, hpb]
    refine ⟨?_, ?_, memcpy_length _ _ _ _ hb1 hb2, by omega, by omega⟩
    · rw [← hsum, memcpy_take _ _ _ _ hb1 hb2]
      have : carryBytes c.pbuf = [] := by simp [carryBytes, h0]
      rw [this, List.append_nil, ← hlen, List.take_length]
    · rw [← hsum]; exact memcpy_drop _ _ _ _ hb1 hb2

theorem readBuf_copied (ch bpe E N : Nat) (dc : DcOffsets) (hw : List Byte)
    (q : List (Option RxBuf)) (c : ChanSt) (hb : 0 < bpe) (hlt : c.read_elems < N) :
    copiedBytes (readBuf ch bpe (E * bpe) N dc hw q c).log ch + bpe * c.read_elems =
      copiedBytes c.log ch + bpe * (readBuf ch bpe (E * bpe) N dc hw q c).read_elems := by
  have hdiv : E * bpe / bpe = E := Nat.mul_div_cancel _ hb
  rw [readBuf_log, readBuf_read_elems, hdiv]
  simp only [copiedBytes, if_true]
  by_cases hov : c.read_elems + E > N
  · simp only [hov, if_true]
    have hcc : E * bpe - (c.read_elems + E - N) * bpe = (N - c.read_elems) * bpe := by
      rw [← Nat.sub_mul]; congr 1; omega
    have e1 : c.read_elems + (E - (c.read_elems + E - N)) = c.read_elems + (N - c.read_elems) := by
      omega
    rw [hcc, e1, Nat.mul_add, Nat.mul_comm bpe (N - c.read_elems)]
    omega
  · simp only [hov, if_false]
    rw [Nat.sub_zero, Nat.mul_add, Nat.mul_comm bpe E]
    omega

theorem readBuf_dc_off (ch bpe obs N : Nat) (b : RxBuf)
    (q : List (Option RxBuf)) (c : ChanSt) :
    (readBuf ch bpe obs N c.dc b.buf q c).dc = c.dc := by
  simp [readBuf]

theorem readLoop_content (env : Env) (ch bpe E N : Nat) (hb : 0 < bpe) :
    ∀ (q : List (Option RxBuf)) (c : ChanSt),
      (c.read_elems < N → c.pbuf.left = 0) → c.read_elems ≤ N → N * bpe ≤ c.out.length →
      (∀ b, some b ∈ q → b.buf.length = E * bpe) →
      ∃ used,
        q = used ++ (readLoop env ch bpe (E * bpe) false N q c).queue ∧
        (readLoop env ch bpe (E * bpe) false N q c).out.take
            (bpe * (readLoop env ch bpe (E * bpe) false N q c).read_elems)
          ++ carryBytes (readLoop env ch bpe (E * bpe) false N q c).pbuf =
          c.out.take (bpe * c.read_elems) ++ carryBytes c.pbuf ++ bytesOf used ∧
        (readLoop env ch bpe (E * bpe) false N q c).out.drop
            (bpe * (readLoop env ch bpe (E * bpe) false N q c).read_elems) =
          c.out.drop (bpe * (readLoop env ch bpe (E * bpe) false N q c).read_elems) ∧
        (readLoop env ch bpe (E * bpe) false N q c).out.length = c.out.length ∧
        (readLoop env ch bpe (E * bpe) false N q c).read_elems ≤ N ∧
        c.read_elems ≤ (readLoop env ch bpe (E * bpe) false N q c).read_elems ∧
        (readLoop env ch bpe (E * bpe) false N q c).dc = c.dc ∧
        copiedBytes (readLoop env ch bpe (E * bpe) false N q c).log ch + bpe * c.read_elems =
          copiedBytes c.log ch + bpe * (readLoop env ch bpe (E * bpe) false N q c).read_elems := by
  intro q
  induction q with
  | nil =>
    intro c _ hle _ _
    refine ⟨[], ?_⟩
    by_cases hlt : c.read_elems < N
    · rw [readLoop_nil _ _ _ _ _ _ _ hlt]
      simp [bytesOf_nil, copiedBytes, hle]
    · rw [readLoop_done _ _ _ _ _ _ _ _ hlt]
      simp [bytesOf_nil, hle]
  | cons r q ih =>
    intro c h0 hle hcap hlen
    by_cases hlt : c.read_elems < N
    · cases r with
      | none =>
        refine ⟨[none], ?_⟩
        rw [readLoop_none _ _ _ _ _ _ _ _ hlt]
        simp [bytesOf_cons_none, bytesOf_nil, copiedBytes, hle]
      | some b =>
        rw [readLoop_some_off _ _ _ _ _ _ _ _ hlt]
        have hbl : b.buf.length = E * bpe := hlen b (List.mem_cons_self _ _)
        obtain ⟨b1, b2, b3, b4, b5⟩ :=
          readBuf_content ch bpe E N b q c hb hlt (h0 hlt) hcap hbl
        obtain ⟨_, _, b6, _⟩ := readBuf_conserve ch bpe (E * bpe) N c.dc b.buf q c (h0 hlt)
        have b7 := readBuf_copied ch bpe E N c.dc b.buf q c hb hlt
        have b8 := readBuf_dc_off ch bpe (E * bpe) N b q c
        generalize readBuf ch bpe (E * bpe) N c.dc b.buf q c = c1 at b1 b2 b3 b4 b5 b6 b7 b8 ⊢
        obtain ⟨used, i1, i2, i3, i4, i5, i6, i7, i8⟩ := ih c1 b6 b4 (by rw [b3]; exact hcap)
          (fun b' hb' => hlen b' (List.mem_cons_of_mem _ hb'))
        generalize readLoop env ch bpe (E * bpe) false N q c1 = c2 at i1 i2 i3 i4 i5 i6 i7 i8 ⊢
        refine ⟨some b :: used, ?_, ?_, ?_, i4.trans b3, i5, le_trans b5 i6, i7.trans b8, ?_⟩
        · rw [List.cons_append, ← i1]
        · have hc0 : carryBytes c.pbuf = [] := by simp [carryBytes, h0 hlt]
          rw [i2, b1, bytesOf_cons_some, hc0, List.append_nil, List.append_assoc]
        · rw [i3]
          have hsplit : bpe * c2.read_elems =
              bpe * c1.read_elems + (bpe * c2.read_elems - bpe * c1.read_elems) := by
            have := Nat.mul_le_mul_left bpe i6
            omega
          rw [hsplit, ← List.drop_drop, ← List.drop_drop, b2]
        · omega
    · refine ⟨[], ?_⟩
      rw [readLoop_done _ _ _ _ _ _ _ _ hlt]
      simp [bytesOf_nil, hle]

theorem readBuf_wf (ch bpe E N : Nat) (b : RxBuf)
    (q : List (Option RxBuf)) (c : ChanSt) (hb : 0 < bpe) (hlt : c.read_elems < N)
    (hlen : b.buf.length = E * bpe) (hwf : CarryWF bpe c.pbuf) :
    CarryWF bpe (readBuf ch bpe (E * bpe) N c.dc b.buf q c).pbuf := by
  have hdiv : E * bpe / bpe = E := Nat.mul_div_cancel _ hb
  by_cases hov : c.read_elems + E > N
  · have hne : c.read_elems + E - N ≠ 0 := by omega
    have hle : (c.read_elems + E - N) * bpe ≤ E * bpe := Nat.mul_le_mul_right _ (by omega)
    have hn : E * bpe - (E * bpe - (c.read_elems + E - N) * bpe) =
        (c.read_elems + E - N) * bpe := by omega
    have hpb : (readBuf ch bpe (E * bpe) N c.dc b.buf q c).pbuf =
        { buf := memcpy c.pbuf.buf 0 (b.buf.drop (E * bpe - (c.read_elems + E - N) * bpe))
            ((c.read_elems + E - N) * bpe)
          left := (c.read_elems + E - N) * bpe
          offset := 0 } := by
      simp only [readBuf, hdiv, hov, if_true, hne, ne_eq, not_false_eq_true, hn]
    rw [hpb]
    refine ⟨⟨_, rfl⟩, ?_⟩
    simp only [memcpy, List.take_zero, List.nil_append, List.length_append, List.length_take,
      List.length_drop, hlen, Nat.zero_add]
    omega
  · have hpb : (readBuf ch bpe (E * bpe) N c.dc b.buf q c).pbuf = c.pbuf := by
      simp only [readBuf, hdiv, hov, if_false]
      try simp
    rw [hpb]; exact hwf

theorem readLoop_wf (env : Env) (ch bpe E N : Nat) (hb : 0 < bpe) :
    ∀ (q : List (Option RxBuf)) (c : ChanSt),
      (∀ b, some b ∈ q → b.buf.length = E * bpe) → CarryWF bpe c.pbuf →
      CarryWF bpe (readLoop env ch bpe (E * bpe) false N q c).pbuf := by
  intro q
  induction q with
  | nil =>
    intro c _ hwf
    by_cases hlt : c.read_elems < N
    · rw [readLoop_nil _ _ _ _ _ _ _ hlt]; exact hwf
    · rw [readLoop_done _ _ _ _ _ _ _ _ hlt]; exact hwf
  | cons r q ih =>
    intro c hlen hwf
    by_cases hlt : c.read_elems < N
    · cases r with
      | none => rw [readLoop_none _ _ _ _ _ _ _ _ hlt]; exact hwf
      | some b =>
        rw [readLoop_some_off _ _ _ _ _ _ _ _ hlt]
        exact ih _ (fun b' hb' => hlen b' (List.mem_cons_of_mem _ hb'))
          (readBuf_wf ch bpe E N b q c hb hlt (hlen b (List.mem_cons_self _ _)) hwf)
    · rw [readLoop_done _ _ _ _ _ _ _ _ hlt]; exact hwf

theorem readCarry_content (ch bpe N : Nat) (c : ChanSt) (hb : 0 < bpe)
    (hr : c.read_elems = 0) (hwf : CarryWF bpe c.pbuf) (hcap : N * bpe ≤ c.out.length) :
    (readCarry ch bpe N c).out.take (bpe * (readCarry ch bpe N c).read_elems)
      ++ carryBytes (readCarry ch bpe N c).pbuf = carryBytes c.pbuf ∧
    (readCarry ch bpe N c).out.drop (bpe * (readCarry ch bpe N c).read_elems) =
      c.out.drop (bpe * (readCarry ch bpe N c).read_elems) ∧
    (readCarry ch bpe N c).out.length = c.out.length ∧
    (readCarry ch bpe N c).read_elems ≤ N ∧
    CarryWF bpe (readCarry ch bpe N c).pbuf ∧
    (readCarry ch bpe N c).dc = c.dc ∧
    copiedBytes (readCarry ch bpe N c).log ch =
      copiedBytes c.log ch + bpe * (readCarry ch bpe N c).read_elems := by
  obtain ⟨⟨k, hk⟩, hin⟩ := hwf
  obtain ⟨s1, s2, _, _⟩ := readCarry_sizes ch bpe N c k hb hk
  rw [hr, Nat.zero_add] at s1
  by_cases hl0 : c.pbuf.left ≠ 0
  · have hcw : (if N * bpe > c.pbuf.left then c.pbuf.left else N * bpe) = min N k * bpe := by
      rw [hk]
      by_cases hgt : N * bpe > k * bpe
      · have hlt : k < N := lt_of_mul_lt_mul_right hgt (Nat.zero_le _)
        rw [if_pos hgt, min_eq_right (le_of_lt hlt)]
      · have hle : N ≤ k := by
          by_contra hcon
          exact hgt (Nat.mul_lt_mul_of_pos_right (by omega) hb)
        rw [if_neg hgt, min_eq_left hle]
    have hout : (readCarry ch bpe N c).out =
        memcpy c.out 0 (c.pbuf.buf.drop c.pbuf.offset) (min N k * bpe) := by
      unfold readCarry; rw [if_pos hl0]; simp only [hcw]
    have hpb : (readCarry ch bpe N c).pbuf =
        { buf := c.pbuf.buf, left := c.pbuf.left - min N k * bpe,
          offset := c.pbuf.offset + min N k * bpe } := by
      unfold readCarry; rw [if_pos hl0]; simp only [hcw]
    have hdc : (readCarry ch bpe N c).dc = c.dc := by
      unfold readCarry; rw [if_pos hl0]
    have hlog : (readCarry ch bpe N c).log = HwCall.copy_out ch (min N k * bpe) :: c.log := by
      unfold readCarry; rw [if_pos hl0]; simp only [hcw]
    have hm1 : min N k * bpe ≤ N * bpe := Nat.mul_le_mul_right _ (min_le_left _ _)
    have hm2 : min N k * bpe ≤ k * bpe := Nat.mul_le_mul_right _ (min_le_right _ _)
    have hb1 : 0 + min N k * bpe ≤ c.out.length := by omega
    have hb2 : min N k * bpe ≤ (c.pbuf.buf.drop c.pbuf.offset).length := by
      rw [List.length_drop]; omega
    have hD : bpe * min N k = 0 + min N k * bpe := by rw [Nat.zero_add, Nat.mul_comm]
    rw [s1, hout, hpb, hdc, hlog, hD]
    refine ⟨?_, memcpy_drop _ _ _ _ hb1 hb2, memcpy_length _ _ _ _ hb1 hb2, min_le_left _ _,
      ⟨⟨k - min N k, by rw [hk, Nat.sub_mul]⟩, by simp only; omega⟩, rfl, ?_⟩
    · rw [memcpy_take _ _ _ _ hb1 hb2]
      simp only [List.take_zero, List.nil_append, carryBytes, ← List.drop_drop]
      have hsplit : c.pbuf.left = min N k * bpe + (c.pbuf.left - min N k * bpe) := by omega
      conv_rhs => rw [hsplit, List.take_add]
    · simp only [copiedBytes, if_true]; omega
  · have hl' : c.pbuf.left = 0 := by simpa using hl0
    have hk0 : k = 0 := by
      have : k * bpe = 0 := by rw [← hk]; exact hl'
      rcases Nat.mul_eq_zero.mp this with h | h
      · exact h
      · omega
    subst hk0
    have hc : readCarry ch bpe N c = c := by unfold readCarry; rw [if_neg hl0]
    rw [hc, hr]
    simp [carryBytes, hl']
    exact ⟨⟨0, by simpa using hl'⟩, hin⟩

theorem readCarry_queue (ch bpe N : Nat) (c : ChanSt) :
    (readCarry ch bpe N c).queue = c.queue := by
  unfold readCarry; split <;> rfl

theorem chanRun_content (env : Env) (s : State) (buffs : Nat → List Byte) (N ch E : Nat)
    (log : List HwCall) (hb : 0 < s.rx_stream_format)
    (hobs : s.outbufsize = E * s.rx_stream_format) (hdc : s.dc_correction ch = false)
    (hwf : CarryWF s.rx_stream_format (s.partial_rx_buf ch))
    (hlen : ∀ b, some b ∈ s.rx_queue ch → b.buf.length = s.outbufsize)
    (hcap : N * s.rx_stream_format ≤ (buffs (slotOf s ch)).length) :
    ∃ used,
      s.rx_queue ch = used ++ (chanRun env s buffs N ch log).queue ∧
      (chanRun env s buffs N ch log).out.take
          (s.rx_stream_format * (chanRun env s buffs N ch log).read_elems)
        ++ carryBytes (chanRun env s buffs N ch log).pbuf =
        carryBytes (s.partial_rx_buf ch) ++ bytesOf used ∧
      (chanRun env s buffs N ch log).out.drop
          (s.rx_stream_format * (chanRun env s buffs N ch log).read_elems) =
        (buffs (slotOf s ch)).drop
          (s.rx_stream_format * (chanRun env s buffs N ch log).read_elems) ∧
      (chanRun env s buffs N ch log).out.length = (buffs (slotOf s ch)).length ∧
      (chanRun env s buffs N ch log).read_elems ≤ N ∧
      CarryWF s.rx_stream_format (chanRun env s buffs N ch log).pbuf ∧
      (chanRun env s buffs N ch log).dc = s.dc_offsets ch ∧
      copiedBytes (chanRun env s buffs N ch log).log ch =
        copiedBytes log ch + s.rx_stream_format * (chanRun env s buffs N ch log).read_elems := by
  unfold chanRun readChannel
  rw [hobs, hdc]
  rw [hobs] at hlen
  generalize hc0 : ({ read_elems := 0, out := buffs (slotOf s ch), pbuf := s.partial_rx_buf ch, dc := s.dc_offsets ch, queue := s.rx_queue ch, log := log, aborted := false } : ChanSt) = c0
  have e1 : c0.read_elems = 0 := by rw [← hc0]
  have e2 : c0.pbuf = s.partial_rx_buf ch := by rw [← hc0]
  have e3 : c0.out = buffs (slotOf s ch) := by rw [← hc0]
  have e4 : c0.dc = s.dc_offsets ch := by rw [← hc0]
  have e5 : c0.log = log := by rw [← hc0]
  obtain ⟨a1, a2, a3, a4, a5, a6, a7⟩ := readCarry_content ch s.rx_stream_format N c0 hb e1
    (by rw [e2]; exact hwf) (by rw [e3]; exact hcap)
  obtain ⟨_, _, a8, _⟩ := readCarry_conserve ch s.rx_stream_format N c0 hb e1
  generalize readCarry ch s.rx_stream_format N c0 = c1 at a1 a2 a3 a4 a5 a6 a7 a8
  obtain ⟨used, i1, i2, i3, i4, i5, i6, i7, i8⟩ := readLoop_content env ch s.rx_stream_format E N
    hb (s.rx_queue ch) c1 a8 a4 (by rw [a3, e3]; exact hcap) hlen
  have w := readLoop_wf env ch s.rx_stream_format E N hb (s.rx_queue ch) c1 hlen a5
  dsimp only
  generalize readLoop env ch s.rx_stream_format (E * s.rx_stream_format) false N
    (s.rx_queue ch) c1 = c2 at i1 i2 i3 i4 i5 i6 i7 i8 w ⊢
  refine ⟨used, i1, ?_, ?_, by rw [i4, a3, e3], i5, w, by rw [i7, a6, e4], ?_⟩
  · rw [i2, a1, e2]
  · rw [i3, ← e3]
    have hsplit : s.rx_stream_format * c2.read_elems =
        s.rx_stream_format * c1.read_elems
          + (s.rx_stream_format * c2.read_elems - s.rx_stream_format * c1.read_elems) := by
      have := Nat.mul_le_mul_left s.rx_stream_format i6
      omega
    rw [hsplit, ← List.drop_drop, ← List.drop_drop, a2]
  · rw [a7, e5] at i8
    omega

theorem readStream_content (env : Env) (s : State) (buffs : Nat → List Byte) (N ch E : Nat)
    (hch : ch < MAX_RX_CHAN_COUNT) (he : enabled s ch = true)
    (hb : 0 < s.rx_stream_format)
    (hobs : s.outbufsize = E * s.rx_stream_format) (hdc : s.dc_correction ch = false)
    (hwf : CarryWF s.rx_stream_format (s.partial_rx_buf ch))
    (hlen : ∀ b, some b ∈ s.rx_queue ch → b.buf.length = s.outbufsize)
    (hcap : N * s.rx_stream_format ≤ (buffs (slotOf s ch)).length) :
    ∃ used,
      s.rx_queue ch = used ++ (readStream env s buffs N).st.rx_queue ch ∧
      deliveredBytes env s buffs N ch
          ++ carryBytes ((readStream env s buffs N).st.partial_rx_buf ch) =
        carryBytes (s.partial_rx_buf ch) ++ bytesOf used ∧
      (deliveredBytes env s buffs N ch).length =
        copiedBytes (readStream env s buffs N).st.log ch - copiedBytes s.log ch ∧
      (deliveredBytes env s buffs N ch).length ≤ N * s.rx_stream_format ∧
      ((readStream env s buffs N).buffs (slotOf s ch)).drop
          (deliveredBytes env s buffs N ch).length =
        (buffs (slotOf s ch)).drop (deliveredBytes env s buffs N ch).length ∧
      CarryWF s.rx_stream_format ((readStream env s buffs N).st.partial_rx_buf ch) ∧
      (readStream env s buffs N).st.dc_offsets ch = s.dc_offsets ch := by
  have I := foldInv_all env s buffs N 4
  rcases I.done ch hch he with hd | hsk
  swap
  · -- an assertion failed before the loop came to this channel
    obtain ⟨_, ⟨u1, u2, u3, u4, u5⟩, hbuf⟩ := hsk
    have hD : copiedBytes (readStream env s buffs N).st.log ch - copiedBytes s.log ch = 0 := by
      rw [readStream_eq]
      show copiedBytes (readAcc env s buffs N 4).st.log ch - copiedBytes s.log ch = 0
      rw [u4]; omega
    have hdel : deliveredBytes env s buffs N ch = [] := by
      unfold deliveredBytes
      rw [hD]; simp
    have hp : (readStream env s buffs N).st.partial_rx_buf ch = s.partial_rx_buf ch := u1
    have hq : (readStream env s buffs N).st.rx_queue ch = s.rx_queue ch := u3
    have ho : (readStream env s buffs N).buffs (slotOf s ch) = buffs (slotOf s ch) := hbuf
    have hdc' : (readStream env s buffs N).st.dc_offsets ch = s.dc_offsets ch := u2
    refine ⟨[], by rw [hq]; rfl, ?_, by rw [hdel, hD]; rfl, by rw [hdel]; simp, ?_,
      by rw [hp]; exact hwf, hdc'⟩
    · rw [hdel, hp]; simp [bytesOf_nil]
    · rw [hdel, ho]
  obtain ⟨log, d1, d2, d3, d4, d5, d6, d7, d8, _⟩ := hd
  obtain ⟨used, c1, c2, c3, c4, c5, c6, c7, c8⟩ :=
    chanRun_content env s buffs N ch E log hb hobs hdc hwf hlen hcap
  have hD : copiedBytes (readStream env s buffs N).st.log ch - copiedBytes s.log ch =
      s.rx_stream_format * (chanRun env s buffs N ch log).read_elems := by
    rw [readStream_eq]
    show copiedBytes (readAcc env s buffs N 4).st.log ch - copiedBytes s.log ch = _
    rw [d7, c8, d1]; omega
  have hDle : s.rx_stream_format * (chanRun env s buffs N ch log).read_elems ≤
      N * s.rx_stream_format := by
    rw [Nat.mul_comm]; exact Nat.mul_le_mul_right _ c5
  have hdel : deliveredBytes env s buffs N ch =
      (chanRun env s buffs N ch log).out.take
        (s.rx_stream_format * (chanRun env s buffs N ch log).read_elems) := by
    unfold deliveredBytes
    rw [hD, readStream_eq]
    show ((readAcc env s buffs N 4).buffs (slotOf s ch)).take _ = _
    rw [d6]
  have hlenD : (deliveredBytes env s buffs N ch).length =
      s.rx_stream_format * (chanRun env s buffs N ch log).read_elems := by
    rw [hdel, List.length_take, c4]; omega
  have hp : (readStream env s buffs N).st.partial_rx_buf ch =
      (chanRun env s buffs N ch log).pbuf := d3
  have hq : (readStream env s buffs N).st.rx_queue ch =
      (chanRun env s buffs N ch log).queue := d5
  have ho : (readStream env s buffs N).buffs (slotOf s ch) =
      (chanRun env s buffs N ch log).out := d6
  have hdc' : (readStream env s buffs N).st.dc_offsets ch =
      (chanRun env s buffs N ch log).dc := d4
  refine ⟨used, by rw [hq]; exact c1, ?_, by rw [hlenD, hD], by rw [hlenD]; exact hDle, ?_,
    by rw [hp]; exact c6, by rw [hdc', c7]⟩
  · rw [hdel, hp]; exact c2
  · rw [hlenD, ho]; exact c3

theorem and_seven (n : Nat) : n &&& 0x7 = n % 8 := Nat.and_pow_two_sub_one_eq_mod n 3

/-- A buffer of `E` elements has `2 * E` samples in each of the three formats:
the assertion of the DC templates holds when `E` is a multiple of 4. -/
theorem dcSizeOk_of_elems (format E : Nat) (h : E % 4 = 0) : DcSizeOk format (E * format) := by
  unfold DcSizeOk LIBRFNM_STREAM_FORMAT_CS8 LIBRFNM_STREAM_FORMAT_CS16
    LIBRFNM_STREAM_FORMAT_CF32
  refine ⟨?_, ?_, ?_⟩
  · intro hf; subst hf; rw [and_seven]; omega
  · intro hf; subst hf; rw [and_seven]; omega
  · intro hf; subst hf; rw [and_seven]; omega

theorem int_of_size_t_small (n : Nat) (h : n < 2 ^ 31) : int_of_size_t n = (n : Int) := by
  unfold int_of_size_t
  have h1 : n % 2 ^ 32 = n := Nat.mod_eq_of_lt (by omega)
  rw [h1, if_pos h]

/-- C1 (quota exactness), as amended. For an element width of 2, 4 or 8 bytes
and hardware buffers of `E > 0` whole elements, where `E` is a multiple of 4
(the buffer holds a multiple of 8 samples) or DC correction is off on every
enabled channel, if every enabled channel starts with `carry ch` whole elements
of carryover and the `buffersNeeded` next `rx_dqbuf` calls of the channel
succeed, then for `numElems < 2 ^ 31` (the range of the `int` returned)
`readStream` returns (no assertion fails), its value is exactly `numElems`
(given an enabled channel), and for every enabled channel it dequeues exactly `m = buffersNeeded (carry ch) numElems E` buffers (none if
the carryover suffices, else `(numElems - carry ch) / E` rounded up) and leaves
exactly `(carry ch + m * E - numElems) * bytes_per_ele` bytes of carryover;
with an empty carryover and `numElems = E - k`, `0 < k < E`, that is
`k * bytes_per_ele`. -/
theorem readStream_quota_exact (env : Env) (s : State) (buffs : Nat → List Byte)
    (numElems E : Nat) (carry : Nat → Nat) (bufs : Nat → List RxBuf)
    (rest : Nat → List (Option RxBuf))
    (hfmt : s.rx_stream_format = 2 ∨ s.rx_stream_format = 4 ∨ s.rx_stream_format = 8)
    (hE : 0 < E) (hobs : s.outbufsize = E * s.rx_stream_format)
    (hN : numElems < 2 ^ 31)
    (hdc : E % 4 = 0 ∨
      ∀ ch, ch < MAX_RX_CHAN_COUNT → enabled s ch = true → s.dc_correction ch = false)
    (hsome : ∃ ch, ch < MAX_RX_CHAN_COUNT ∧ enabled s ch = true)
    (hch : ∀ ch, ch < MAX_RX_CHAN_COUNT → enabled s ch = true →
      (s.partial_rx_buf ch).left = carry ch * s.rx_stream_format ∧
      s.rx_queue ch = (bufs ch).map some ++ rest ch ∧
      (bufs ch).length = buffersNeeded (carry ch) numElems E) :
    (readStream env s buffs numElems).ret = .ok (numElems : Int) ∧
    ∀ ch, ch < MAX_RX_CHAN_COUNT → enabled s ch = true →
      (readStream env s buffs numElems).st.rx_queue ch = rest ch ∧
      dequeued (readStream env s buffs numElems).st.log ch =
        dequeued s.log ch + buffersNeeded (carry ch) numElems E ∧
      ((readStream env s buffs numElems).st.partial_rx_buf ch).left =
        (carry ch + buffersNeeded (carry ch) numElems E * E - numElems) * s.rx_stream_format ∧
      (carry ch = 0 → ∀ k, 0 < k → k < E → numElems = E - k →
        ((readStream env s buffs numElems).st.partial_rx_buf ch).left =
          k * s.rx_stream_format) := by
  have hb : 0 < s.rx_stream_format := by rcases hfmt with h | h | h <;> omega
  have hok : ∀ ch, ch < MAX_RX_CHAN_COUNT → enabled s ch = true →
      s.dc_correction ch = false ∨ DcSizeOk s.rx_stream_format s.outbufsize := by
    intro ch h1 h2
    rcases hdc with h | h
    · right; rw [hobs]; exact dcSizeOk_of_elems _ _ h
    · left; exact h ch h1 h2
  have hrun : ∀ ch, ch < MAX_RX_CHAN_COUNT → enabled s ch = true → ∀ log,
      (chanRun env s buffs numElems ch log).read_elems = numElems ∧
      (chanRun env s buffs numElems ch log).queue = rest ch ∧
      (chanRun env s buffs numElems ch log).pbuf.left =
        (carry ch + buffersNeeded (carry ch) numElems E * E - numElems) * s.rx_stream_format ∧
      dequeued (chanRun env s buffs numElems ch log).log ch =
        dequeued log ch + buffersNeeded (carry ch) numElems E ∧
      (chanRun env s buffs numElems ch log).aborted = false := by
    intro ch h1 h2 log
    obtain ⟨a1, a2, a3⟩ := hch ch h1 h2
    exact chanRun_all_ok env s buffs numElems ch log (carry ch) E (bufs ch) (rest ch)
      hE hb hobs (hok ch h1 h2) a1 a2 a3
  have hret := readStream_ret_of_all env s buffs numElems numElems hsome
    (fun ch h1 h2 log => ⟨(hrun ch h1 h2 log).1, (hrun ch h1 h2 log).2.2.2.2⟩)
  refine ⟨by rw [hret, int_of_size_t_small _ hN], ?_⟩
  intro ch h1 h2
  have I := foldInv_all env s buffs numElems 4
  have hab := readStream_not_aborted env s buffs numElems
    (fun ch h1 h2 log => (hrun ch h1 h2 log).2.2.2.2)
  obtain ⟨log, d1, d2, d3, d4, d5, d6, d7, d8, _⟩ := I.done_ok hab ch h1 h2
  obtain ⟨r1, r2, r3, r4, _⟩ := hrun ch h1 h2 log
  have hleft : ((readStream env s buffs numElems).st.partial_rx_buf ch).left =
      (carry ch + buffersNeeded (carry ch) numElems E * E - numElems) * s.rx_stream_format := by
    rw [readStream_eq]
    show ((readAcc env s buffs numElems 4).st.partial_rx_buf ch).left = _
    rw [d3, r3]
  refine ⟨?_, ?_, hleft, ?_⟩
  · rw [readStream_eq]
    show (readAcc env s buffs numElems 4).st.rx_queue ch = _
    rw [d5, r2]
  · rw [readStream_eq]
    show dequeued (readAcc env s buffs numElems 4).st.log ch = _
    rw [d8, r4, d2]
  · intro hc k hk0 hkE hN
    rw [hleft, hc]
    have hm : buffersNeeded 0 numElems E = 1 := by
      unfold buffersNeeded
      have : ¬ numElems ≤ 0 := by omega
      rw [if_neg this]
      have : numElems - 0 + E - 1 = E + (numElems - 1) := by omega
      rw [this, Nat.add_div_left _ hE, Nat.div_eq_of_lt (by omega)]
    rw [hm]
    congr 1
    omega

/-- The scenario of the specification (CS16, 4096-byte buffers, 1500 elements,
two channels): `readStream` returns 1500, uses up both buffers of each channel
and leaves 2192 bytes in each carryover. -/
theorem readStream_quota_exact_witness :
    (readStream demoEnv demoScenario (fun _ => []) 1500).ret = .ok 1500 ∧
    (readStream demoEnv demoScenario (fun _ => []) 1500).st.rx_queue 0 = [] ∧
    (readStream demoEnv demoScenario (fun _ => []) 1500).st.rx_queue 1 = [] ∧
    ((readStream demoEnv demoScenario (fun _ => []) 1500).st.partial_rx_buf 0).left = 2192 ∧
    ((readStream demoEnv demoScenario (fun _ => []) 1500).st.partial_rx_buf 1).left = 2192 := by
  have h := readStream_quota_exact demoEnv demoScenario (fun _ => []) 1500 1024 (fun _ => 0)
    (fun _ => [demoBuf4096, demoBuf4096]) (fun _ => []) (Or.inr (Or.inl rfl)) (by decide) rfl
    (by decide) (Or.inl (by decide)) ⟨0, by decide, by decide⟩
    (by
      intro ch h1 h2
      have h4 : ch < 4 := h1
      interval_cases ch
      · exact ⟨rfl, rfl, by decide⟩
      · exact ⟨rfl, rfl, by decide⟩
      · exact absurd h2 (by decide)
      · exact absurd h2 (by decide))
  obtain ⟨h0, h1⟩ := h
  obtain ⟨a1, _, a3, _⟩ := h1 0 (by decide) (by decide)
  obtain ⟨b1, _, b3, _⟩ := h1 1 (by decide) (by decide)
  exact ⟨h0, a1, b1, a3.trans (by decide), b3.trans (by decide)⟩

/-- The claim as first stated fails where an assertion of the DC templates
fails: CS16 (4 bytes per element), `outbufsize = 12` (three elements, six
samples), channel 0 enabled with an empty carryover and DC correction on, one
buffer of 12 bytes ready, `numElems = 3`. The `rx_dqbuf` call succeeds, yet
`readStream` does not return 3: it ends on the failed assertion, having copied
nothing. Besides, a count of `2 ^ 31` elements would come back as `-2 ^ 31`. -/
theorem readStream_quota_exact_counterexample :
    demoOdd.rx_stream_format = 4 ∧ demoOdd.outbufsize = 3 * 4 ∧ enabled demoOdd 0 = true ∧
    (demoOdd.partial_rx_buf 0).left = 0 ∧
    demoOdd.rx_queue 0 = [demoBuf12].map some ++ [some demoBuf12] ∧
    [demoBuf12].length = buffersNeeded 0 3 3 ∧
    (readStream oddEnv demoOdd (fun _ => List.replicate 12 0) 3).ret
      = .error .assertion_failed ∧
    (readStream oddEnv demoOdd (fun _ => List.replicate 12 0) 3).ret ≠ .ok 3 ∧
    copiedBytes (readStream oddEnv demoOdd (fun _ => List.replicate 12 0) 3).st.log 0 = 0 ∧
    int_of_size_t (2 ^ 31) = -2 ^ 31 := by
  refine ⟨rfl, rfl, by decide, rfl, rfl, by decide, by decide, by decide, by decide, by decide⟩

theorem readStream_sameSetup (env : Env) (s : State) (buffs : Nat → List Byte) (N : Nat) :
    SameSetup s (readStream env s buffs N).st := by
  have I := foldInv_all env s buffs N 4
  exact ⟨I.rx_ch, I.fmt, I.obs, I.dcc, I.cnt, I.setup, I.strm, I.clk⟩

theorem readStream_conserve (env : Env) (s : State) (buffs : Nat → List Byte) (N ch : Nat)
    (hch : ch < MAX_RX_CHAN_COUNT) (he : enabled s ch = true) (hb : 0 < s.rx_stream_format)
    (hok : s.dc_correction ch = false ∨ DcSizeOk s.rx_stream_format s.outbufsize) :
    copiedBytes (readStream env s buffs N).st.log ch
        + ((readStream env s buffs N).st.partial_rx_buf ch).left
        + s.outbufsize * dequeued s.log ch =
      copiedBytes s.log ch + (s.partial_rx_buf ch).left
        + s.outbufsize * dequeued (readStream env s buffs N).st.log ch ∧
    copiedBytes s.log ch ≤ copiedBytes (readStream env s buffs N).st.log ch ∧
    dequeued s.log ch ≤ dequeued (readStream env s buffs N).st.log ch := by
  have I := foldInv_all env s buffs N 4
  rcases I.done ch hch he with hd | hsk
  swap
  · obtain ⟨_, ⟨u1, _, _, u4, u5⟩, _⟩ := hsk
    rw [readStream_eq]
    show copiedBytes (readAcc env s buffs N 4).st.log ch
          + ((readAcc env s buffs N 4).st.partial_rx_buf ch).left
          + s.outbufsize * dequeued s.log ch =
        copiedBytes s.log ch + (s.partial_rx_buf ch).left
          + s.outbufsize * dequeued (readAcc env s buffs N 4).st.log ch ∧
      copiedBytes s.log ch ≤ copiedBytes (readAcc env s buffs N 4).st.log ch ∧
      dequeued s.log ch ≤ dequeued (readAcc env s buffs N 4).st.log ch
    rw [u1, u4, u5]
    exact ⟨rfl, le_rfl, le_rfl⟩
  obtain ⟨log, d1, d2, d3, _, _, _, d7, d8, _⟩ := hd
  obtain ⟨c1, c2, c3⟩ := chanRun_conserve env s buffs N ch log hb hok
  rw [readStream_eq]
  show copiedBytes (readAcc env s buffs N 4).st.log ch
        + ((readAcc env s buffs N 4).st.partial_rx_buf ch).left
        + s.outbufsize * dequeued s.log ch =
      copiedBytes s.log ch + (s.partial_rx_buf ch).left
        + s.outbufsize * dequeued (readAcc env s buffs N 4).st.log ch ∧
    copiedBytes s.log ch ≤ copiedBytes (readAcc env s buffs N 4).st.log ch ∧
    dequeued s.log ch ≤ dequeued (readAcc env s buffs N 4).st.log ch
  rw [d7, d8, d3, ← d1, ← d2]
  exact ⟨c1, c2, c3⟩

theorem readMany_conserve (env : Env) (ch : Nat) (hch : ch < MAX_RX_CHAN_COUNT) (c0 d0 : Nat) :
    ∀ (calls : List (Nat × (Nat → List Byte))) (s : State),
      enabled s ch = true → 0 < s.rx_stream_format →
      DcSizeOk s.rx_stream_format s.outbufsize →
      copiedBytes s.log ch + (s.partial_rx_buf ch).left + s.outbufsize * d0
        = c0 + s.outbufsize * dequeued s.log ch →
      c0 ≤ copiedBytes s.log ch → d0 ≤ dequeued s.log ch →
      SameSetup s (readMany env s calls) ∧
      copiedBytes (readMany env s calls).log ch
          + ((readMany env s calls).partial_rx_buf ch).left + s.outbufsize * d0
        = c0 + s.outbufsize * dequeued (readMany env s calls).log ch ∧
      c0 ≤ copiedBytes (readMany env s calls).log ch ∧
      d0 ≤ dequeued (readMany env s calls).log ch := by
  intro calls
  induction calls with
  | nil =>
    intro s _ _ _ h1 h2 h3
    exact ⟨⟨rfl, rfl, rfl, rfl, rfl, rfl, rfl, rfl⟩, h1, h2, h3⟩
  | cons call calls ih =>
    intro s he hb hok h1 h2 h3
    obtain ⟨N, buffs⟩ := call
    show SameSetup s (readMany env (readStream env s buffs N).st calls) ∧ _
    have hs := readStream_sameSetup env s buffs N
    obtain ⟨a1, a2, a3⟩ := readStream_conserve env s buffs N ch hch he hb (Or.inr hok)
    have he' : enabled (readStream env s buffs N).st ch = true := by
      rw [hs.enabled_eq]; exact he
    have hobs : (readStream env s buffs N).st.outbufsize = s.outbufsize := hs.2.2.1
    have hfmt : (readStream env s buffs N).st.rx_stream_format = s.rx_stream_format := hs.2.1
    have key := ih (readStream env s buffs N).st he' (by rw [hfmt]; exact hb)
      (by rw [hfmt, hobs]; exact hok)
      (by
        rw [hobs]
        have e1 : s.outbufsize * dequeued s.log ch = s.outbufsize * d0
            + s.outbufsize * (dequeued s.log ch - d0) := by
          rw [← Nat.mul_add]; congr 1; omega
        have e2 : s.outbufsize * dequeued (readStream env s buffs N).st.log ch =
            s.outbufsize * d0 + s.outbufsize * (dequeued s.log ch - d0)
            + s.outbufsize * (dequeued (readStream env s buffs N).st.log ch
              - dequeued s.log ch) := by
          rw [← Nat.mul_add, ← Nat.mul_add]; congr 1; omega
        rw [e2]
        rw [e1, e2] at a1
        rw [e1] at h1
        omega)
      (le_trans h2 a2) (le_trans h3 a3)
    obtain ⟨k1, k2, k3, k4⟩ := key
    rw [hobs] at k2
    refine ⟨?_, k2, k3, k4⟩
    obtain ⟨x1, x2, x3, x4, x5, x6, x7, x8⟩ := hs
    obtain ⟨y1, y2, y3, y4, y5, y6, y7, y8⟩ := k1
    exact ⟨y1.trans x1, y2.trans x2, y3.trans x3, y4.trans x4, y5.trans x5, y6.trans x6,
      y7.trans x7, y8.trans x8⟩

theorem readMany_dequeued_mono (env : Env) (ch : Nat) (hch : ch < MAX_RX_CHAN_COUNT) :
    ∀ (calls : List (Nat × (Nat → List Byte))) (s : State),
      enabled s ch = true → 0 < s.rx_stream_format →
      DcSizeOk s.rx_stream_format s.outbufsize →
      dequeued s.log ch ≤ dequeued (readMany env s calls).log ch := by
  intro calls
  induction calls with
  | nil => intro s _ _ _; exact le_rfl
  | cons call calls ih =>
    intro s he hb hok
    obtain ⟨N, buffs⟩ := call
    show dequeued s.log ch ≤ dequeued (readMany env (readStream env s buffs N).st calls).log ch
    have hs := readStream_sameSetup env s buffs N
    obtain ⟨_, _, a3⟩ := readStream_conserve env s buffs N ch hch he hb (Or.inr hok)
    have he' : enabled (readStream env s buffs N).st ch = true := by
      rw [hs.enabled_eq]; exact he
    exact le_trans a3 (ih _ he' (by rw [hs.2.1]; exact hb)
      (by rw [hs.2.1, hs.2.2.1]; exact hok))

/-- C2 (conservation). After a successful `activateStream` and any sequence of
`readStream` calls (any `numElems`, any outcomes of `rx_dqbuf`), for every
enabled channel the bytes copied into the caller's buffers since activation
plus the bytes left in the carryover equal `outbufsize` times the number of
hardware buffers dequeued for the channel since then, the buffer activation
took included (both counts only grow, so the differences are exact). Only a
positive element width is needed; the activation having returned, the
assertion of the DC templates holds and no later call ends on it. -/
theorem readStream_conservation (env : Env) (s0 s1 : State) (v : Int)
    (calls : List (Nat × (Nat → List Byte))) (ch : Nat)
    (hact : activateStream env s0 = (s1, .ok v))
    (hb : 0 < s0.rx_stream_format)
    (hch : ch < MAX_RX_CHAN_COUNT) (he : enabled s0 ch = true) :
    (copiedBytes (readMany env s1 calls).log ch - copiedBytes s0.log ch)
        + ((readMany env s1 calls).partial_rx_buf ch).left =
      s0.outbufsize * (dequeued (readMany env s1 calls).log ch - dequeued s0.log ch) ∧
    copiedBytes s0.log ch ≤ copiedBytes (readMany env s1 calls).log ch ∧
    dequeued s0.log ch + 1 ≤ dequeued (readMany env s1 calls).log ch ∧
    dequeued s1.log ch = dequeued s0.log ch + 1 := by
  obtain ⟨a1, a2, _⟩ := activateStream_ok env s0 s1 v hact
  have hsz := activateStream_size env s0 s1 v hact ch hch he
  obtain ⟨b, q, _, _, _, _, w4, _, w5, w6⟩ := a2 ch hch he
  have hobs : s1.outbufsize = s0.outbufsize := a1.2.2.1
  have hfmt : s1.rx_stream_format = s0.rx_stream_format := a1.2.1
  have hleft : (s1.partial_rx_buf ch).left = s0.outbufsize := w4
  have hsz1 : DcSizeOk s1.rx_stream_format s1.outbufsize := by rw [hfmt, hobs]; exact hsz
  have key := readMany_conserve env ch hch (copiedBytes s0.log ch) (dequeued s0.log ch) calls s1
    (by rw [a1.enabled_eq]; exact he) (by rw [hfmt]; exact hb) hsz1
    (by rw [w5, w6, hleft, hobs, Nat.mul_add, Nat.mul_one]; omega)
    (by rw [w5]) (by rw [w6]; omega)
  obtain ⟨_, k2, k3, k4⟩ := key
  rw [hobs] at k2
  have hmono : dequeued s0.log ch + 1 ≤ dequeued (readMany env s1 calls).log ch := by
    rw [← w6]
    exact readMany_dequeued_mono env ch hch calls s1 (by rw [a1.enabled_eq]; exact he)
      (by rw [hfmt]; exact hb) hsz1
  refine ⟨?_, k3, hmono, w6⟩
  have e2 : s0.outbufsize * dequeued (readMany env s1 calls).log ch =
      s0.outbufsize * dequeued s0.log ch
      + s0.outbufsize * (dequeued (readMany env s1 calls).log ch - dequeued s0.log ch) := by
    rw [← Nat.mul_add]; congr 1; omega
  rw [e2] at k2
  omega

/-- Conservation on channel 0 of the small CS8 stream, activated and then read
twice (3 and 5 elements, with a timeout in between the buffers). -/
theorem readStream_conservation_witness :
    (copiedBytes (readMany tinyEnv (activateStream tinyEnv demoSmall).1 demoCalls).log 0
          - copiedBytes demoSmall.log 0)
        + ((readMany tinyEnv (activateStream tinyEnv demoSmall).1 demoCalls).partial_rx_buf 0).left =
      demoSmall.outbufsize *
        (dequeued (readMany tinyEnv (activateStream tinyEnv demoSmall).1 demoCalls).log 0
          - dequeued demoSmall.log 0) ∧
    copiedBytes demoSmall.log 0
      ≤ copiedBytes (readMany tinyEnv (activateStream tinyEnv demoSmall).1 demoCalls).log 0 ∧
    dequeued demoSmall.log 0 + 1
      ≤ dequeued (readMany tinyEnv (activateStream tinyEnv demoSmall).1 demoCalls).log 0 ∧
    dequeued (activateStream tinyEnv demoSmall).1.log 0 = dequeued demoSmall.log 0 + 1 :=
  readStream_conservation tinyEnv demoSmall (activateStream tinyEnv demoSmall).1 0 demoCalls 0
    (Prod.ext rfl rfl) (by decide) (by decide) (by decide)

theorem bytesOf_append (a b : List (Option RxBuf)) :
    bytesOf (a ++ b) = bytesOf a ++ bytesOf b := by
  simp [bytesOf, List.filterMap_append]

theorem slotOf_congr (s s1 : State) (h : s1.rx_ch = s.rx_ch) (ch : Nat) :
    slotOf s1 ch = slotOf s ch := by
  unfold slotOf enabled; rw [h]

theorem readMany_content (env : Env) (ch E : Nat) (hch : ch < MAX_RX_CHAN_COUNT) :
    ∀ (calls : List (Nat × (Nat → List Byte))) (s : State),
      enabled s ch = true → 0 < s.rx_stream_format →
      s.outbufsize = E * s.rx_stream_format → s.dc_correction ch = false →
      CarryWF s.rx_stream_format (s.partial_rx_buf ch) →
      (∀ b, some b ∈ s.rx_queue ch → b.buf.length = s.outbufsize) →
      (∀ call, call ∈ calls →
        call.1 * s.rx_stream_format ≤ (call.2 (slotOf s ch)).length) →
      ∃ used,
        s.rx_queue ch = used ++ (readMany env s calls).rx_queue ch ∧
        deliveredMany env ch s calls ++ carryBytes ((readMany env s calls).partial_rx_buf ch) =
          carryBytes (s.partial_rx_buf ch) ++ bytesOf used := by
  intro calls
  induction calls with
  | nil =>
    intro s _ _ _ _ _ _ _
    exact ⟨[], by simp [readMany], by simp [readMany, deliveredMany, bytesOf_nil]⟩
  | cons call calls ih =>
    intro s he hb hobs hdc hwf hlen hcap
    obtain ⟨N, buffs⟩ := call
    have hcap0 : N * s.rx_stream_format ≤ (buffs (slotOf s ch)).length :=
      hcap (N, buffs) (List.mem_cons_self _ _)
    obtain ⟨used1, a1, a2, _, _, _, a6, _⟩ :=
      readStream_content env s buffs N ch E hch he hb hobs hdc hwf hlen hcap0
    have hs := readStream_sameSetup env s buffs N
    obtain ⟨x1, x2, x3, x4, _⟩ := hs
    have he' : enabled (readStream env s buffs N).st ch = true := by
      unfold enabled; rw [x1]; exact he
    obtain ⟨used2, b1, b2⟩ := ih (readStream env s buffs N).st he' (by rw [x2]; exact hb)
      (by rw [x3, x2]; exact hobs) (by rw [x4]; exact hdc) (by rw [x2]; exact a6)
      (by
        intro b hmem
        rw [x3]
        apply hlen
        rw [a1]
        exact List.mem_append_right _ hmem)
      (by
        intro call hmem
        rw [x2, slotOf_congr _ _ x1]
        exact hcap call (List.mem_cons_of_mem _ hmem))
    refine ⟨used1 ++ used2, ?_, ?_⟩
    · show s.rx_queue ch = used1 ++ used2 ++ (readMany env (readStream env s buffs N).st calls).rx_queue ch
      rw [List.append_assoc, ← b1, ← a1]
    · show (deliveredBytes env s buffs N ch ++ deliveredMany env ch (readStream env s buffs N).st calls)
          ++ carryBytes ((readMany env (readStream env s buffs N).st calls).partial_rx_buf ch) = _
      rw [List.append_assoc, b2, ← List.append_assoc, a2, bytesOf_append, List.append_assoc]

/-- C3 (ordered, unmodified delivery). For an enabled channel with DC correction
off, hardware buffers of `outbufsize = E * bytes_per_ele` bytes, a carryover of
whole elements inside its buffer and an output region with room for `numElems`
elements: with `S` the carryover bytes `buf[offset .. offset+left)` followed by
the hardware buffers one `readStream` call dequeues, in the order `rx_dqbuf`
handed them out, and `D` the number of bytes the call copies out, the output
slot of the channel (its rank among the enabled channels) starts with the first
`D` bytes of `S`, the carryover afterwards holds exactly the remaining bytes of
`S`, and the slot is untouched beyond `D`. Hence over any sequence of calls the
bytes delivered, followed by the final carryover, are the initial carryover
followed by the dequeued buffers: nothing is duplicated, dropped or reordered. -/
theorem readStream_ordered_delivery (env : Env) (s : State) (buffs : Nat → List Byte)
    (numElems ch E : Nat)
    (hch : ch < MAX_RX_CHAN_COUNT) (he : enabled s ch = true)
    (hb : 0 < s.rx_stream_format)
    (hobs : s.outbufsize = E * s.rx_stream_format) (hdc : s.dc_correction ch = false)
    (hwf : CarryWF s.rx_stream_format (s.partial_rx_buf ch))
    (hlen : ∀ b, some b ∈ s.rx_queue ch → b.buf.length = s.outbufsize)
    (hcap : numElems * s.rx_stream_format ≤ (buffs (slotOf s ch)).length) :
    (∃ used,
      s.rx_queue ch = used ++ (readStream env s buffs numElems).st.rx_queue ch ∧
      ((readStream env s buffs numElems).buffs (slotOf s ch)).take
          (copiedBytes (readStream env s buffs numElems).st.log ch - copiedBytes s.log ch) =
        (carryBytes (s.partial_rx_buf ch) ++ bytesOf used).take
          (copiedBytes (readStream env s buffs numElems).st.log ch - copiedBytes s.log ch) ∧
      carryBytes ((readStream env s buffs numElems).st.partial_rx_buf ch) =
        (carryBytes (s.partial_rx_buf ch) ++ bytesOf used).drop
          (copiedBytes (readStream env s buffs numElems).st.log ch - copiedBytes s.log ch) ∧
      ((readStream env s buffs numElems).buffs (slotOf s ch)).drop
          (copiedBytes (readStream env s buffs numElems).st.log ch - copiedBytes s.log ch) =
        (buffs (slotOf s ch)).drop
          (copiedBytes (readStream env s buffs numElems).st.log ch - copiedBytes s.log ch) ∧
      copiedBytes (readStream env s buffs numElems).st.log ch - copiedBytes s.log ch
        ≤ (carryBytes (s.partial_rx_buf ch) ++ bytesOf used).length) ∧
    (∀ calls : List (Nat × (Nat → List Byte)),
      (∀ call, call ∈ calls →
        call.1 * s.rx_stream_format ≤ (call.2 (slotOf s ch)).length) →
      ∃ used,
        s.rx_queue ch = used ++ (readMany env s calls).rx_queue ch ∧
        deliveredMany env ch s calls ++ carryBytes ((readMany env s calls).partial_rx_buf ch) =
          carryBytes (s.partial_rx_buf ch) ++ bytesOf used) := by
  constructor
  · obtain ⟨used, a1, a2, a3, _, a5, _, _⟩ :=
      readStream_content env s buffs numElems ch E hch he hb hobs hdc hwf hlen hcap
    rw [a3] at a5
    refine ⟨used, a1, ?_, ?_, a5, ?_⟩
    · rw [← a2, ← a3, List.take_left, a3]
      rfl
    · rw [← a2, ← a3, List.drop_left]
    · rw [← a2, ← a3, List.length_append]; omega
  · intro calls hcaps
    exact readMany_content env ch E hch calls s he hb hobs hdc hwf hlen hcaps

/-- On channel 0 of the small CS8 stream, the two reads deliver, with what is
left in the carryover, exactly the carryover and buffers they consumed. -/
theorem readStream_ordered_delivery_witness :
    ∃ used,
      demoSmall.rx_queue 0 = used ++ (readMany tinyEnv demoSmall demoCalls).rx_queue 0 ∧
      deliveredMany tinyEnv 0 demoSmall demoCalls
          ++ carryBytes ((readMany tinyEnv demoSmall demoCalls).partial_rx_buf 0) =
        carryBytes (demoSmall.partial_rx_buf 0) ++ bytesOf used :=
  (readStream_ordered_delivery tinyEnv demoSmall (fun _ => List.replicate 16 0) 3 0 4
    (by decide) (by decide) (by decide) (by decide) (by decide)
    ⟨⟨0, by decide⟩, by decide⟩
    (by
      intro b hmem
      have hq : demoSmall.rx_queue 0 =
          [some (demoBuf8 10 1), some (demoBuf8 20 2), none, some (demoBuf8 30 3)] := rfl
      rw [hq] at hmem
      simp only [List.mem_cons, Option.some.injEq, List.mem_singleton, List.not_mem_nil,
        or_false, reduceCtorEq, false_or] at hmem
      rcases hmem with h | h | h <;> subst h <;> rfl)
    (by decide)).2 demoCalls
    (by
      intro call hmem
      have hc : demoCalls = [(3, fun _ => List.replicate 16 0), (5, fun _ => List.replicate 16 0)] := rfl
      rw [hc] at hmem
      simp only [List.mem_cons, List.mem_singleton, List.not_mem_nil, or_false] at hmem
      rcases hmem with h | h <;> subst h <;> decide)

/-- C4 (timeout partiality), the code at a failing input: CS16 with 4096-byte
buffers, channels 0 and 1 enabled, 1024 elements requested; `rx_dqbuf` times
out for channel 0 while channel 1 gets a full buffer. `readStream` returns the
full count 1024, the count of the last enabled channel, although channel 0
timed out with nothing copied into its output slot. -/
theorem readStream_timeout_masked :
    (readStream demoEnv demoTimeout (fun _ => List.replicate 4096 0) 1024).ret = .ok 1024 ∧
    copiedBytes
      (readStream demoEnv demoTimeout (fun _ => List.replicate 4096 0) 1024).st.log 0 = 0 ∧
    copiedBytes
      (readStream demoEnv demoTimeout (fun _ => List.replicate 4096 0) 1024).st.log 1 = 4096 ∧
    HwCall.rx_dqbuf 0 false ∈
      (readStream demoEnv demoTimeout (fun _ => List.replicate 4096 0) 1024).st.log := by
  refine ⟨by decide, by decide, by decide, by decide⟩

/-- C6 (setup exclusivity), as the code has it: while a stream is set up,
`setupStream` for the RX direction fails with "multiple streams unsupported"
for every format, channel list, args and hardware answer, and for any other
direction it returns `nullptr` without an error; in both cases the device
state, hardware log included, is unchanged. -/
theorem setupStream_exclusive (env : Env) (s : State) (direction : Int) (format : String)
    (channels : List Nat) (args : List (String × String)) (ret : rfnm_api_failcode)
    (h : s.stream_setup = true) :
    (direction = SOAPY_SDR_RX →
      setupStream env s direction format channels args ret
        = (s, .error .multiple_streams_unsupported)) ∧
    (direction ≠ SOAPY_SDR_RX →
      setupStream env s direction format channels args ret = (s, .ok .nullptr)) ∧
    Err.multiple_streams_unsupported.what = "multiple streams unsupported" ∧
    Err.multiple_streams_unsupported.isValidation = true := by
  refine ⟨?_, ?_, rfl, rfl⟩
  · intro hd
    simp [setupStream, hd, h]
  · intro hd
    simp [setupStream, hd]

/-- The scenario stream is set up, and a second `setupStream` for RX on it
fails with "multiple streams unsupported", leaving the state as it was. -/
theorem setupStream_exclusive_witness :
    demoScenario.stream_setup = true ∧
    setupStream demoEnv demoScenario SOAPY_SDR_RX SOAPY_SDR_CS8 [0] [] .RFNM_API_OK
      = (demoScenario, .error .multiple_streams_unsupported) :=
  ⟨rfl, (setupStream_exclusive demoEnv demoScenario SOAPY_SDR_RX SOAPY_SDR_CS8 [0] []
    .RFNM_API_OK rfl).1 rfl⟩

/-- With a stream set up, `setupStream` for the TX direction raises nothing:
it returns `nullptr`. -/
theorem setupStream_exclusive_counterexample :
    demoScenario.stream_setup = true ∧
    (setupStream demoEnv demoScenario SOAPY_SDR_TX SOAPY_SDR_CS16 [0] [] .RFNM_API_OK).2
      = .ok .nullptr ∧
    (setupStream demoEnv demoScenario SOAPY_SDR_TX SOAPY_SDR_CS16 [0] [] .RFNM_API_OK).2
      ≠ .error .multiple_streams_unsupported := by
  refine ⟨rfl, rfl, ?_⟩
  intro h
  have h2 : (setupStream demoEnv demoScenario SOAPY_SDR_TX SOAPY_SDR_CS16 [0] []
      .RFNM_API_OK).2 = .ok .nullptr := rfl
  rw [h2] at h
  cases h

theorem any_ge_of_mem (channels : List Nat) (n i : Nat) (hi : i ≥ n) (hm : i ∈ channels) :
    channels.any (fun channel => decide (channel ≥ n)) = true := by
  rw [List.any_eq_true]
  exact ⟨i, hm, by simpa using hi⟩

/-- C7 (channel bounds), as the code has it. For the RX direction and every
index `i ≥ getNumChannels(RX)`, each per-channel setter and getter fails with
"nonexistent channel", and so does `setupStream` for a channel list containing
`i` when no stream is set up; the device state, hardware log included, is
unchanged. For any other direction the index is not checked: the setters do
nothing and the getters return their default, without an error. -/
theorem channel_bounds (env : Env) (s : State) (i : Nat)
    (hi : i ≥ getNumChannels s SOAPY_SDR_RX) :
    (∀ name frequency args ret,
      setFrequency s SOAPY_SDR_RX i name frequency args ret = (s, .error .nonexistent_channel)) ∧
    (∀ name, getFrequency s SOAPY_SDR_RX i name = .error .nonexistent_channel) ∧
    (∀ name value ret,
      setGain s SOAPY_SDR_RX i name value ret = (s, .error .nonexistent_channel)) ∧
    (∀ name, getGain s SOAPY_SDR_RX i name = .error .nonexistent_channel) ∧
    (∀ name ret, setAntenna env s SOAPY_SDR_RX i name ret = (s, .error .nonexistent_channel)) ∧
    getAntenna env s SOAPY_SDR_RX i = .error .nonexistent_channel ∧
    (∀ bw ret, setBandwidth s SOAPY_SDR_RX i bw ret = (s, .error .nonexistent_channel)) ∧
    getBandwidth s SOAPY_SDR_RX i = .error .nonexistent_channel ∧
    (∀ rate ret, setSampleRate s SOAPY_SDR_RX i rate ret = (s, .error .nonexistent_channel)) ∧
    getSampleRate s SOAPY_SDR_RX i = .error .nonexistent_channel ∧
    (∀ automatic,
      setDCOffsetMode s SOAPY_SDR_RX i automatic = (s, .error .nonexistent_channel)) ∧
    getDCOffsetMode s SOAPY_SDR_RX i = .error .nonexistent_channel ∧
    (∀ format channels args ret, s.stream_setup = false → i ∈ channels →
      setupStream env s SOAPY_SDR_RX format channels args ret
        = (s, .error .nonexistent_channel)) ∧
    (∀ direction, direction ≠ SOAPY_SDR_RX →
      (∀ name frequency args ret,
        setFrequency s direction i name frequency args ret = (s, .ok ())) ∧
      (∀ name value ret, setGain s direction i name value ret = (s, .ok ())) ∧
      (∀ name ret, setAntenna env s direction i name ret = (s, .ok ())) ∧
      (∀ bw ret, setBandwidth s direction i bw ret = (s, .ok ())) ∧
      (∀ rate ret, setSampleRate s direction i rate ret = (s, .ok ())) ∧
      (∀ automatic, setDCOffsetMode s direction i automatic = (s, .ok ())) ∧
      (∀ name, getFrequency s direction i name = .ok 0) ∧
      (∀ name, getGain s direction i name = .ok 0) ∧
      getAntenna env s direction i = .ok "" ∧
      getBandwidth s direction i = .ok 0 ∧
      getSampleRate s direction i = .ok 0 ∧
      getDCOffsetMode s direction i = .ok false ∧
      (∀ format channels args ret,
        setupStream env s direction format channels args ret = (s, .ok .nullptr))) ∧
    Err.nonexistent_channel.what = "nonexistent channel" ∧
    Err.nonexistent_channel.isValidation = true := by
  have hge : i ≥ s.rx_chan_count := by
    simpa [getNumChannels, SOAPY_SDR_RX, SOAPY_SDR_TX] using hi
  refine ⟨?_, ?_, ?_, ?_, ?_, ?_, ?_, ?_, ?_, ?_, ?_, ?_, ?_, ?_, rfl, rfl⟩
  · intro name frequency args ret; simp [setFrequency, hge]
  · intro name; simp [getFrequency, hge]
  · intro name value ret; simp [setGain, hge]
  · intro name; simp [getGain, hge]
  · intro name ret; simp [setAntenna, hge]
  · simp [getAntenna, hge]
  · intro bw ret; simp [setBandwidth, hge]
  · simp [getBandwidth, hge]
  · intro rate ret; simp [setSampleRate, hge]
  · simp [getSampleRate, hge]
  · intro automatic; simp [setDCOffsetMode, hge]
  · simp [getDCOffsetMode, hge]
  · intro format channels args ret hs hm
    have hany := any_ge_of_mem channels s.rx_chan_count i hge hm
    simp [setupStream, hs, hany]
  · intro direction hd
    refine ⟨?_, ?_, ?_, ?_, ?_, ?_, ?_, ?_, ?_, ?_, ?_, ?_, ?_⟩
    · intro name frequency args ret; simp [setFrequency, hd]
    · intro name value ret; simp [setGain, hd]
    · intro name ret; simp [setAntenna, hd]
    · intro bw ret; simp [setBandwidth, hd]
    · intro rate ret; simp [setSampleRate, hd]
    · intro automatic; simp [setDCOffsetMode, hd]
    · intro name; simp [getFrequency, hd]
    · intro name; simp [getGain, hd]
    · simp [getAntenna, hd]
    · simp [getBandwidth, hd]
    · simp [getSampleRate, hd]
    · simp [getDCOffsetMode, hd]
    · intro format channels args ret; simp [setupStream, hd]

/-- On a two-channel device, index 2 is out of range for RX: `setFrequency`
and `setupStream` fail with "nonexistent channel" and change nothing. -/
theorem channel_bounds_witness :
    2 ≥ getNumChannels (demoInit 2) SOAPY_SDR_RX ∧
    setFrequency (demoInit 2) SOAPY_SDR_RX 2 "RF" 100000000 [] .RFNM_API_OK
      = (demoInit 2, .error .nonexistent_channel) ∧
    setupStream demoEnv (demoInit 2) SOAPY_SDR_RX SOAPY_SDR_CS16 [0, 2] [] .RFNM_API_OK
      = (demoInit 2, .error .nonexistent_channel) :=
  ⟨by decide,
   (channel_bounds demoEnv (demoInit 2) 2 (by decide)).1 "RF" 100000000 [] .RFNM_API_OK,
   (channel_bounds demoEnv (demoInit 2) 2 (by decide)).2.2.2.2.2.2.2.2.2.2.2.2.1
     SOAPY_SDR_CS16 [0, 2] [] .RFNM_API_OK rfl (by decide)⟩

/-- For the TX direction `getNumChannels` is 0, so every index is out of
range, yet `setFrequency` and `getGain` raise no error. -/
theorem channel_bounds_counterexample :
    7 ≥ getNumChannels (demoInit 2) SOAPY_SDR_TX ∧
    (setFrequency (demoInit 2) SOAPY_SDR_TX 7 "RF" 100000000 [] .RFNM_API_OK).2 = .ok () ∧
    getGain (demoInit 2) SOAPY_SDR_TX 7 "RF" = .ok 0 ∧
    (setFrequency (demoInit 2) SOAPY_SDR_TX 7 "RF" 100000000 [] .RFNM_API_OK).2
      ≠ .error .nonexistent_channel := by
  refine ⟨by decide, rfl, rfl, ?_⟩
  intro h
  have h2 : (setFrequency (demoInit 2) SOAPY_SDR_TX 7 "RF" 100000000 [] .RFNM_API_OK).2
      = .ok () := rfl
  rw [h2] at h
  cases h

theorem streamFormatOf_none (format : String) :
    streamFormatOf format = none ↔ (format ≠ "CF32" ∧ format ≠ "CS16" ∧ format ≠ "CS8") := by
  unfold streamFormatOf SOAPY_SDR_CF32 SOAPY_SDR_CS16 SOAPY_SDR_CS8
  by_cases h1 : format = "CF32"
  · simp [h1]
  · by_cases h2 : format = "CS16"
    · simp [h2]
    · by_cases h3 : format = "CS8"
      · simp [h3]
      · simp [h1, h2, h3]

theorem any_ge_false (channels : List Nat) (n : Nat) (h : ∀ c, c ∈ channels → c < n) :
    channels.any (fun channel => decide (channel ≥ n)) = false := by
  rw [List.any_eq_false]
  intro c hc
  have := h c hc
  simp; omega

theorem setRFNM_fst (s : State) (applies : Nat) (ret : rfnm_api_failcode) :
    (setRFNM s applies ret).1 = { s with log := HwCall.set applies :: s.log } := by
  cases ret <;> rfl

theorem setRFNM_snd_ok (s : State) (applies : Nat) :
    (setRFNM s applies .RFNM_API_OK).2 = .ok () := rfl

theorem setRFNM_not_validation (s : State) (applies : Nat) (ret : rfnm_api_failcode) (e : Err)
    (h : (setRFNM s applies ret).2 = .error e) : e.isValidation = false := by
  cases ret <;> simp [setRFNM] at h <;> subst h <;> rfl

/-- What `setupStream` does once the argument checks have passed. -/
theorem setupStream_passed (env : Env) (s : State) (format : String) (channels : List Nat)
    (args : List (String × String)) (ret : rfnm_api_failcode) (f : Nat)
    (hs : s.stream_setup = false) (hin : ∀ c, c ∈ channels → c < s.rx_chan_count)
    (hf : streamFormatOf format = some f)
    (hsame : ¬ (s.rx_stream_format ≠ 0 ∧ f ≠ s.rx_stream_format)) :
    setupStream env s SOAPY_SDR_RX format channels args ret =
      match setRFNM
        { (if decide (s.rx_stream_format = 0) then allocBuffers env (rx_stream env s f)
           else rx_stream env s f) with
          log := HwCall.rx_flush 20 ::
            (if decide (s.rx_stream_format = 0) then allocBuffers env (rx_stream env s f)
             else rx_stream env s f).log
          rx_ch := enableChannels
            (if decide (s.rx_stream_format = 0) then allocBuffers env (rx_stream env s f)
             else rx_stream env s f).rx_ch channels }
        (applyMaskOf channels) ret with
      | (s5, .error e) => (s5, .error e)
      | (s5, .ok _) => ({ s5 with stream_setup := true }, .ok .device) := by
  have hany := any_ge_false channels s.rx_chan_count hin
  unfold setupStream
  simp only [ne_eq, not_true_eq_false, if_false, hs, Bool.false_eq_true, hany, hf]
  rw [if_neg hsame]

/-- C8 (format fixed after first negotiation), as the code has it. For an RX
`setupStream` with no stream set up and all channels in range: a validation
error is raised exactly when the format string is none of CF32, CS16, CS8, or
a format was negotiated before (`rx_stream_format` non-zero) and differs from
the requested one; a validation error leaves the state, hardware log included,
unchanged; and when the format equals the one negotiated before, no buffer is
allocated again, no validation error is raised, and the call returns the
stream provided `lrfnm->set` answers OK (else it fails with that hardware
error). -/
theorem setupStream_format (env : Env) (s : State) (format : String) (channels : List Nat)
    (args : List (String × String)) (ret : rfnm_api_failcode)
    (hs : s.stream_setup = false) (hin : ∀ c, c ∈ channels → c < s.rx_chan_count) :
    ((∃ e, (setupStream env s SOAPY_SDR_RX format channels args ret).2 = .error e ∧
          e.isValidation = true) ↔
      ((format ≠ "CF32" ∧ format ≠ "CS16" ∧ format ≠ "CS8") ∨
        (s.rx_stream_format ≠ 0 ∧ streamFormatOf format ≠ some s.rx_stream_format))) ∧
    (∀ e, (setupStream env s SOAPY_SDR_RX format channels args ret).2 = .error e →
      e.isValidation = true →
      (setupStream env s SOAPY_SDR_RX format channels args ret).1 = s) ∧
    (s.rx_stream_format ≠ 0 → streamFormatOf format = some s.rx_stream_format →
      mallocs (setupStream env s SOAPY_SDR_RX format channels args ret).1.log = mallocs s.log ∧
      (setupStream env s SOAPY_SDR_RX format channels args ret).1.partial_rx_buf
        = s.partial_rx_buf ∧
      (∀ e, (setupStream env s SOAPY_SDR_RX format channels args ret).2 = .error e →
        e.isValidation = false) ∧
      (ret = .RFNM_API_OK →
        (setupStream env s SOAPY_SDR_RX format channels args ret).2 = .ok .device ∧
        (setupStream env s SOAPY_SDR_RX format channels args ret).1.stream_setup = true)) := by
  have hany := any_ge_false channels s.rx_chan_count hin
  cases hf : streamFormatOf format with
  | none =>
    have hr : setupStream env s SOAPY_SDR_RX format channels args ret
        = (s, .error (.invalid_format format)) := by
      simp [setupStream, hs, hany, hf]
    rw [hr]
    refine ⟨?_, fun _ _ _ => rfl, ?_⟩
    · constructor
      · intro _; exact Or.inl ((streamFormatOf_none format).mp hf)
      · intro _; exact ⟨_, rfl, rfl⟩
    · intro _ h; cases h
  | some f =>
    have hvalid : ¬ (format ≠ "CF32" ∧ format ≠ "CS16" ∧ format ≠ "CS8") := by
      intro h
      have := (streamFormatOf_none format).mpr h
      rw [hf] at this; cases this
    by_cases hsame : s.rx_stream_format ≠ 0 ∧ f ≠ s.rx_stream_format
    · have hr : setupStream env s SOAPY_SDR_RX format channels args ret
          = (s, .error .changing_stream_format) := by
        unfold setupStream
        simp only [ne_eq, not_true_eq_false, if_false, hs, Bool.false_eq_true, hany, hf]
        rw [if_pos hsame]
      rw [hr]
      refine ⟨?_, fun _ _ _ => rfl, ?_⟩
      · constructor
        · intro _
          exact Or.inr ⟨hsame.1, fun h => hsame.2 (Option.some.inj h)⟩
        · intro _; exact ⟨_, rfl, rfl⟩
      · intro _ h
        exact absurd (Option.some.inj h) hsame.2
    · have hr := setupStream_passed env s format channels args ret f hs hin hf hsame
      have hnv : ∀ e, (setupStream env s SOAPY_SDR_RX format channels args ret).2 = .error e →
          e.isValidation = false := by
        intro e he
        rw [hr] at he
        cases ret <;> simp [setRFNM] at he <;> subst he <;> rfl
      refine ⟨?_, ?_, ?_⟩
      · constructor
        · rintro ⟨e, he, hv⟩
          rw [hnv e he] at hv; cases hv
        · rintro (h | ⟨h1, h2⟩)
          · exact absurd h hvalid
          · exfalso
            apply hsame
            exact ⟨h1, fun h => h2 (by rw [h])⟩
      · intro e he hv
        rw [hnv e he] at hv; cases hv
      · intro hne hsm
        have hff : f = s.rx_stream_format := Option.some.inj hsm
        have hdec : decide (s.rx_stream_format = 0) = false := by simpa using hne
        rw [hr]
        simp only [hdec, Bool.false_eq_true, if_false]
        refine ⟨?_, ?_, ?_, ?_⟩
        · cases ret <;> simp [setRFNM, rx_stream, mallocs]
        · cases ret <;> simp [setRFNM, rx_stream]
        · intro e he
          cases ret <;> simp [setRFNM] at he <;> subst he <;> rfl
        · intro hret
          subst hret
          simp [setRFNM]

/-- On the device whose CS16 stream was closed: a new CS8 setup is refused with
the state unchanged, and a new CS16 setup returns the stream without a new
allocation. -/
theorem setupStream_format_witness :
    demoReopened.stream_setup = false ∧
    (setupStream demoEnv demoReopened SOAPY_SDR_RX SOAPY_SDR_CS8 [0] [] .RFNM_API_OK).2
      = .error .changing_stream_format ∧
    (setupStream demoEnv demoReopened SOAPY_SDR_RX SOAPY_SDR_CS8 [0] [] .RFNM_API_OK).1
      = demoReopened ∧
    (setupStream demoEnv demoReopened SOAPY_SDR_RX SOAPY_SDR_CS16 [0] [] .RFNM_API_OK).2
      = .ok .device ∧
    mallocs (setupStream demoEnv demoReopened SOAPY_SDR_RX SOAPY_SDR_CS16 [0] []
      .RFNM_API_OK).1.log = mallocs demoReopened.log :=
  ⟨rfl, rfl,
   (setupStream_format demoEnv demoReopened SOAPY_SDR_CS8 [0] [] .RFNM_API_OK rfl
      (by decide)).2.1 _ rfl rfl,
   ((setupStream_format demoEnv demoReopened SOAPY_SDR_CS16 [0] [] .RFNM_API_OK rfl
      (by decide)).2.2 (by decide) (by decide)).2.2.2 rfl |>.1,
   ((setupStream_format demoEnv demoReopened SOAPY_SDR_CS16 [0] [] .RFNM_API_OK rfl
      (by decide)).2.2 (by decide) (by decide)).1⟩

/-- On the device whose CS16 stream was closed, a new CS16 setup (the format
negotiated before, channel in range) does not succeed when `lrfnm->set`
reports a tuning failure: it throws "Tuning failure", after the transfer was
started and the channel switched on. -/
theorem setupStream_format_counterexample :
    demoReopened.stream_setup = false ∧
    demoReopened.rx_stream_format = LIBRFNM_STREAM_FORMAT_CS16 ∧
    streamFormatOf SOAPY_SDR_CS16 = some LIBRFNM_STREAM_FORMAT_CS16 ∧
    (setupStream demoEnv demoReopened SOAPY_SDR_RX SOAPY_SDR_CS16 [0] []
      .RFNM_API_TUNE_FAIL).2 = .error .tuning_failure ∧
    ((setupStream demoEnv demoReopened SOAPY_SDR_RX SOAPY_SDR_CS16 [0] []
      .RFNM_API_TUNE_FAIL).1.rx_ch 0).enable = RFNM_CH_ON ∧
    (demoReopened.rx_ch 0).enable = RFNM_CH_OFF ∧
    (setupStream demoEnv demoReopened SOAPY_SDR_RX SOAPY_SDR_CS16 [0] []
      .RFNM_API_TUNE_FAIL).1.stream_setup = false := by
  refine ⟨rfl, rfl, by decide, rfl, by decide, by decide, rfl⟩

theorem disableChannels_succ (n : Nat) (rx_ch : Nat → RxCh) :
    disableChannels (n + 1) rx_ch =
      if ((disableChannels n rx_ch).1 n).enable ≠ RFNM_CH_OFF then
        (upd (disableChannels n rx_ch).1 n
            { (disableChannels n rx_ch).1 n with enable := RFNM_CH_OFF },
          (disableChannels n rx_ch).2 ||| librfnm_rx_chan_apply n)
      else disableChannels n rx_ch := by
  simp only [disableChannels, List.range_succ, List.foldl_append, List.foldl_cons,
    List.foldl_nil]

theorem disableChannels_spec (rx_ch : Nat → RxCh) :
    ∀ n, (∀ i, i < n → ((disableChannels n rx_ch).1 i).enable = RFNM_CH_OFF) ∧
      (∀ i, n ≤ i → (disableChannels n rx_ch).1 i = rx_ch i) := by
  intro n
  induction n with
  | zero => exact ⟨fun i h => by omega, fun i _ => rfl⟩
  | succ n ih =>
    obtain ⟨i1, i2⟩ := ih
    rw [disableChannels_succ]
    by_cases h : ((disableChannels n rx_ch).1 n).enable ≠ RFNM_CH_OFF
    · rw [if_pos h]
      constructor
      · intro i hi
        by_cases hin : i = n
        · subst hin; simp
        · simp only [upd_other _ _ _ _ hin]; exact i1 i (by omega)
      · intro i hi
        have hin : i ≠ n := by omega
        simp only [upd_other _ _ _ _ hin]; exact i2 i (by omega)
    · rw [if_neg h]
      constructor
      · intro i hi
        by_cases hin : i = n
        · subst hin; simpa using h
        · exact i1 i (by omega)
      · intro i hi; exact i2 i (by omega)

theorem closeStream_fst (s : State) (ret : rfnm_api_failcode) :
    (closeStream s ret).1.rx_ch = (disableChannels s.rx_chan_count s.rx_ch).1 ∧
    (closeStream s ret).1.streaming = false ∧
    (closeStream s ret).1.rx_chan_count = s.rx_chan_count ∧
    (closeStream s ret).1.rx_stream_format = s.rx_stream_format ∧
    (closeStream s ret).1.outbufsize = s.outbufsize ∧
    (closeStream s ret).1.partial_rx_buf = s.partial_rx_buf ∧
    (closeStream s ret).1.dc_offsets = s.dc_offsets ∧
    HwCall.rx_stream_stop ∈ (closeStream s ret).1.log := by
  cases ret <;> simp [closeStream, setRFNM]

theorem closeStream_ok (s : State) :
    (closeStream s .RFNM_API_OK).2 = .ok () ∧
    (closeStream s .RFNM_API_OK).1.stream_setup = false := by
  simp [closeStream, setRFNM]

theorem setupStream_ok_fields (env : Env) (s : State) (format : String) (channels : List Nat)
    (args : List (String × String)) (f : Nat)
    (hs : s.stream_setup = false) (hin : ∀ c, c ∈ channels → c < s.rx_chan_count)
    (hf : streamFormatOf format = some f)
    (hsame : ¬ (s.rx_stream_format ≠ 0 ∧ f ≠ s.rx_stream_format)) :
    (setupStream env s SOAPY_SDR_RX format channels args .RFNM_API_OK).2 = .ok .device ∧
    (setupStream env s SOAPY_SDR_RX format channels args .RFNM_API_OK).1.stream_setup = true ∧
    (setupStream env s SOAPY_SDR_RX format channels args .RFNM_API_OK).1.rx_stream_format = f ∧
    (setupStream env s SOAPY_SDR_RX format channels args .RFNM_API_OK).1.rx_chan_count
      = s.rx_chan_count := by
  rw [setupStream_passed env s format channels args _ f hs hin hf hsame]
  by_cases h0 : s.rx_stream_format = 0 <;>
    simp [setRFNM, h0, rx_stream, allocBuffers]

/-- C9 (stream shutdown), as the code has it. `closeStream` stops the receiver
threads and leaves every channel below the channel count switched off,
whatever `lrfnm->set` answers; when it answers OK, `closeStream` returns
normally with the setup guard cleared, so that after a successful
`setupStream` and `closeStream` a further `setupStream` with the same format
and channels in range raises no validation error and, with the hardware
answering OK, returns the stream. `deactivateStream` returns 0 and leaves the
device state as it is. -/
theorem closeStream_shutdown (env : Env) (s : State) (ret : rfnm_api_failcode) :
    (∀ i, i < s.rx_chan_count → ((closeStream s ret).1.rx_ch i).enable = RFNM_CH_OFF) ∧
    (closeStream s ret).1.streaming = false ∧
    HwCall.rx_stream_stop ∈ (closeStream s ret).1.log ∧
    (ret = .RFNM_API_OK →
      (closeStream s ret).2 = .ok () ∧ (closeStream s ret).1.stream_setup = false) ∧
    (∀ (format : String) (f : Nat) (channels channels2 : List Nat)
        (args args2 : List (String × String)) (ret3 : rfnm_api_failcode),
      s.stream_setup = false → streamFormatOf format = some f →
      (s.rx_stream_format = 0 ∨ s.rx_stream_format = f) →
      (∀ c, c ∈ channels → c < s.rx_chan_count) →
      (∀ c, c ∈ channels2 → c < s.rx_chan_count) →
      (∀ e, (setupStream env
              (closeStream
                (setupStream env s SOAPY_SDR_RX format channels args .RFNM_API_OK).1
                .RFNM_API_OK).1
              SOAPY_SDR_RX format channels2 args2 ret3).2 = .error e →
          e.isValidation = false) ∧
      (setupStream env
          (closeStream
            (setupStream env s SOAPY_SDR_RX format channels args .RFNM_API_OK).1
            .RFNM_API_OK).1
          SOAPY_SDR_RX format channels2 args2 .RFNM_API_OK).2 = .ok .device) ∧
    deactivateStream s = (s, .ok 0) := by
  obtain ⟨c1, c2, _, _, _, _, _, c8⟩ := closeStream_fst s ret
  refine ⟨?_, c2, c8, ?_, ?_, rfl⟩
  · intro i hi
    rw [c1]
    exact (disableChannels_spec s.rx_ch s.rx_chan_count).1 i hi
  · intro h; subst h; exact closeStream_ok s
  · intro format f channels channels2 args args2 ret3 hs hf hfmt hin hin2
    have hsame : ¬ (s.rx_stream_format ≠ 0 ∧ f ≠ s.rx_stream_format) := by
      rintro ⟨h1, h2⟩
      rcases hfmt with h | h
      · exact h1 h
      · exact h2 h.symm
    obtain ⟨_, _, a3, a4⟩ := setupStream_ok_fields env s format channels args f hs hin hf hsame
    generalize (setupStream env s SOAPY_SDR_RX format channels args .RFNM_API_OK).1 = s1
      at a3 a4 ⊢
    obtain ⟨_, _, b3, b4, _⟩ := closeStream_fst s1 .RFNM_API_OK
    obtain ⟨_, b9⟩ := closeStream_ok s1
    generalize (closeStream s1 .RFNM_API_OK).1 = s2 at b3 b4 b9 ⊢
    have hin3 : ∀ c, c ∈ channels2 → c < s2.rx_chan_count := by
      intro c hc; rw [b3, a4]; exact hin2 c hc
    have hsame2 : ¬ (s2.rx_stream_format ≠ 0 ∧ f ≠ s2.rx_stream_format) := by
      rintro ⟨_, h2⟩; exact h2 (by rw [b4, a3])
    constructor
    · intro e he
      rw [setupStream_passed env s2 format channels2 args2 ret3 f b9 hin3 hf hsame2] at he
      cases ret3 <;> simp [setRFNM] at he <;> subst he <;> rfl
    · exact (setupStream_ok_fields env s2 format channels2 args2 f b9 hin3 hf hsame2).1

/-- Closing the scenario stream switches channels 0 and 1 off, stops the
transfer and clears the setup guard. -/
theorem closeStream_shutdown_witness :
    ((closeStream demoScenario .RFNM_API_OK).1.rx_ch 0).enable = RFNM_CH_OFF ∧
    ((closeStream demoScenario .RFNM_API_OK).1.rx_ch 1).enable = RFNM_CH_OFF ∧
    (closeStream demoScenario .RFNM_API_OK).1.streaming = false ∧
    (closeStream demoScenario .RFNM_API_OK).1.stream_setup = false :=
  ⟨(closeStream_shutdown demoEnv demoScenario .RFNM_API_OK).1 0 (by decide),
   (closeStream_shutdown demoEnv demoScenario .RFNM_API_OK).1 1 (by decide),
   (closeStream_shutdown demoEnv demoScenario .RFNM_API_OK).2.1,
   ((closeStream_shutdown demoEnv demoScenario .RFNM_API_OK).2.2.2.1 rfl).2⟩

/-- After `deactivateStream` on the scenario stream, channels 0 and 1 are
still switched on and the transfer is still running. -/
theorem deactivateStream_counterexample :
    0 < demoScenario.rx_chan_count ∧
    ((deactivateStream demoScenario).1.rx_ch 0).enable = RFNM_CH_ON ∧
    ((deactivateStream demoScenario).1.rx_ch 0).enable ≠ RFNM_CH_OFF ∧
    (deactivateStream demoScenario).1.streaming = true := by
  refine ⟨by decide, by decide, by decide, rfl⟩

theorem readLoop_dc_off (env : Env) (ch bpe obs N : Nat) :
    ∀ (q : List (Option RxBuf)) (c : ChanSt),
      (readLoop env ch bpe obs false N q c).dc = c.dc := by
  intro q
  induction q with
  | nil =>
    intro c
    by_cases hlt : c.read_elems < N
    · rw [readLoop_nil _ _ _ _ _ _ _ hlt]
    · rw [readLoop_done _ _ _ _ _ _ _ _ hlt]
  | cons r q ih =>
    intro c
    by_cases hlt : c.read_elems < N
    · cases r with
      | none => rw [readLoop_none _ _ _ _ _ _ _ _ hlt]
      | some b =>
        rw [readLoop_some_off _ _ _ _ _ _ _ _ hlt, ih, readBuf_dc_off]
    · rw [readLoop_done _ _ _ _ _ _ _ _ hlt]

theorem readCarry_dc (ch bpe N : Nat) (c : ChanSt) : (readCarry ch bpe N c).dc = c.dc := by
  unfold readCarry; split <;> rfl

theorem chanRun_dc_off (env : Env) (s : State) (buffs : Nat → List Byte) (N ch : Nat)
    (log : List HwCall) (hdc : s.dc_correction ch = false) :
    (chanRun env s buffs N ch log).dc = s.dc_offsets ch := by
  unfold chanRun readChannel
  rw [hdc]
  dsimp only
  rw [readLoop_dc_off, readCarry_dc]

theorem readStream_dc_off (env : Env) (s : State) (buffs : Nat → List Byte) (N ch : Nat)
    (hdc : s.dc_correction ch = false) :
    (readStream env s buffs N).st.dc_offsets ch = s.dc_offsets ch := by
  have I := foldInv_all env s buffs N 4
  rw [readStream_eq]
  show (readAcc env s buffs N 4).st.dc_offsets ch = s.dc_offsets ch
  by_cases h : ch < 4 ∧ enabled s ch = true
  · rcases I.done ch h.1 h.2 with hd | hsk
    · obtain ⟨log, _, _, _, d4, _⟩ := hd
      rw [d4, chanRun_dc_off env s buffs N ch log hdc]
    · exact hsk.2.1.2.1
  · have h' : 4 ≤ ch ∨ enabled s ch = false := by
      by_cases h4 : ch < 4
      · right
        have : ¬ enabled s ch = true := fun he => h ⟨h4, he⟩
        simpa using this
      · left; omega
    exact (I.unch ch h').2.1

/-- C10 (disabled correction), as the code has it. For a channel whose
DC-correction flag is off, `readStream` leaves the channel's DC offset state
as it was and its DC block hands every dequeued buffer on byte for byte;
`activateStream` does not subtract either, the carryover holding the bytes of
the first buffer as dequeued, but it does run the initial estimation with
coefficient 1 and stores the result in the channel's DC offset state. -/
theorem dc_correction_off (env : Env) (s : State) (ch : Nat)
    (hdc : s.dc_correction ch = false) :
    (∀ buffs numElems,
      (readStream env s buffs numElems).st.dc_offsets ch = s.dc_offsets ch) ∧
    (∀ lrxbuf dc,
      dcBlock env s.rx_stream_format s.outbufsize (s.dc_correction ch) lrxbuf dc
        = some (dc, lrxbuf.buf)) ∧
    (∀ s1 v, activateStream env s = (s1, .ok v) → ch < MAX_RX_CHAN_COUNT →
      enabled s ch = true →
      ∃ b q, s.rx_queue ch = some b :: q ∧
        (s1.partial_rx_buf ch).buf = memcpy (s.partial_rx_buf ch).buf 0 b.buf s.outbufsize ∧
        measSwitch env s.rx_stream_format s.outbufsize
            (memcpy (s.partial_rx_buf ch).buf 0 b.buf s.outbufsize) (s.dc_offsets ch) 1
          = some (s1.dc_offsets ch)) := by
  refine ⟨fun buffs N => readStream_dc_off env s buffs N ch hdc, ?_, ?_⟩
  · intro lrxbuf dc
    rw [hdc, dcBlock_off]
  · intro s1 v hact hch he
    obtain ⟨_, a2, _⟩ := activateStream_ok env s s1 v hact
    obtain ⟨b, q, w1, _, w3, w4, _⟩ := a2 ch hch he
    refine ⟨b, q, w1, ?_, w3⟩
    rw [hdc] at w4
    simpa using w4.symm

/-- On channel 0 of the small CS8 stream (correction off), a read leaves the
DC offsets as they were. -/
theorem dc_correction_off_witness :
    demoSmall.dc_correction 0 = false ∧
    (readStream tinyEnv demoSmall (fun _ => List.replicate 16 0) 3).st.dc_offsets 0
      = demoSmall.dc_offsets 0 :=
  ⟨rfl, (dc_correction_off tinyEnv demoSmall 0 rfl).1 (fun _ => List.replicate 16 0) 3⟩

/-- On channel 0 of the small CS8 stream, whose correction flag is off,
`activateStream` replaces the all-zero DC offsets by the lane values 10..17 of
the first buffer. -/
theorem dc_correction_off_counterexample :
    demoSmall.dc_correction 0 = false ∧
    (demoSmall.dc_offsets 0).i8 = [0, 0, 0, 0, 0, 0, 0, 0] ∧
    ((activateStream tinyEnv demoSmall).1.dc_offsets 0).i8 = [10, 11, 12, 13, 14, 15, 16, 17] ∧
    (activateStream tinyEnv demoSmall).1.dc_offsets 0 ≠ demoSmall.dc_offsets 0 := by
  refine ⟨rfl, by decide, by decide!, by decide!⟩

/-! ### The carryover bound over reachable states -/

/-- A `readStream` call that does not end on a failed assertion. -/
theorem readStream_returned (env : Env) (s : State) (buffs : Nat → List Byte) (N : Nat)
    (h : (readStream env s buffs N).ret ≠ .error .assertion_failed) :
    (readAcc env s buffs N 4).aborted = false := by
  rw [readStream_eq] at h
  by_contra hcon
  have hcon' : (readAcc env s buffs N 4).aborted = true := by simpa using hcon
  apply h
  show (if (readAcc env s buffs N 4).aborted then Except.error Err.assertion_failed
    else Except.ok (int_of_size_t (readAcc env s buffs N 4).read_elems)) = _
  rw [hcon']; rfl

theorem readStream_left (env : Env) (s : State) (buffs : Nat → List Byte) (N ch : Nat) :
    ((readStream env s buffs N).st.partial_rx_buf ch = s.partial_rx_buf ch ∧
      (¬ (ch < MAX_RX_CHAN_COUNT ∧ enabled s ch = true) ∨
        (readStream env s buffs N).ret = .error .assertion_failed)) ∨
    (ch < MAX_RX_CHAN_COUNT ∧ enabled s ch = true ∧
      ∃ log, (readStream env s buffs N).st.partial_rx_buf ch
        = (chanRun env s buffs N ch log).pbuf) := by
  have I := foldInv_all env s buffs N 4
  by_cases h : ch < 4 ∧ enabled s ch = true
  · rcases I.done ch h.1 h.2 with hd | hsk
    · obtain ⟨log, _, _, d3, _⟩ := hd
      exact Or.inr ⟨h.1, h.2, log, d3⟩
    · refine Or.inl ⟨hsk.2.1.1, Or.inr ?_⟩
      rw [readStream_eq]
      show (if (readAcc env s buffs N 4).aborted then Except.error Err.assertion_failed
        else Except.ok (int_of_size_t (readAcc env s buffs N 4).read_elems)) = _
      rw [hsk.1]; rfl
  · have h' : 4 ≤ ch ∨ enabled s ch = false := by
      by_cases h4 : ch < 4
      · right
        have : ¬ enabled s ch = true := fun he => h ⟨h4, he⟩
        simpa using this
      · left; omega
    exact Or.inl ⟨(I.unch ch h').1, Or.inl h⟩

theorem activateChannel_any (env : Env) (s : State) (c : Nat) :
    (activateChannel env s c).1.rx_stream_format = s.rx_stream_format ∧
    (activateChannel env s c).1.outbufsize = s.outbufsize ∧
    (activateChannel env s c).1.rx_ch = s.rx_ch ∧
    ∀ ch, ((activateChannel env s c).1.partial_rx_buf ch).left = (s.partial_rx_buf ch).left ∨
      ((activateChannel env s c).1.partial_rx_buf ch).left = s.outbufsize := by
  unfold activateChannel
  split
  · exact ⟨rfl, rfl, rfl, fun _ => Or.inl rfl⟩
  · exact ⟨rfl, rfl, rfl, fun _ => Or.inl rfl⟩
  · dsimp only
    split
    · refine ⟨rfl, rfl, rfl, fun ch => ?_⟩
      by_cases h : ch = c
      · subst h; right; simp
      · left; simp [upd_other _ _ _ _ h]
    · split
      · split
        · refine ⟨rfl, rfl, rfl, fun ch => ?_⟩
          by_cases h : ch = c
          · subst h; right; simp
          · left; simp [upd_other _ _ _ _ h]
        · refine ⟨rfl, rfl, rfl, fun ch => ?_⟩
          by_cases h : ch = c
          · subst h; right; simp
          · left; simp [upd_other _ _ _ _ h]
      · refine ⟨rfl, rfl, rfl, fun ch => ?_⟩
        by_cases h : ch = c
        · subst h; right; simp
        · left; simp [upd_other _ _ _ _ h]

theorem activateLoop_any (env : Env) :
    ∀ (chs : List Nat) (s : State),
      (activateLoop env chs s).1.rx_stream_format = s.rx_stream_format ∧
      (activateLoop env chs s).1.outbufsize = s.outbufsize ∧
      (activateLoop env chs s).1.rx_ch = s.rx_ch ∧
      (∀ ch, ((activateLoop env chs s).1.partial_rx_buf ch).left = (s.partial_rx_buf ch).left ∨
        ((activateLoop env chs s).1.partial_rx_buf ch).left = s.outbufsize) ∧
      ((∀ ch, (s.rx_ch ch).enable ≠ RFNM_CH_ON) →
        (activateLoop env chs s).1.partial_rx_buf = s.partial_rx_buf) := by
  intro chs
  induction chs with
  | nil => intro s; exact ⟨rfl, rfl, rfl, fun _ => Or.inl rfl, fun _ => rfl⟩
  | cons c chs ih =>
    intro s
    unfold activateLoop
    by_cases hen : (s.rx_ch c).enable ≠ RFNM_CH_ON
    · rw [if_pos hen]; exact ih s
    · rw [if_neg hen]
      obtain ⟨a1, a2, a3, a4⟩ := activateChannel_any env s c
      generalize hac : activateChannel env s c = r at a1 a2 a3 a4
      obtain ⟨s2, v⟩ := r
      have hoff : (∀ ch, (s.rx_ch ch).enable ≠ RFNM_CH_ON) → False := fun h => hen (h c)
      cases v with
      | error e => exact ⟨a1, a2, a3, a4, fun h => (hoff h).elim⟩
      | ok u =>
        obtain ⟨i1, i2, i3, i4, _⟩ := ih s2
        refine ⟨i1.trans a1, i2.trans a2, i3.trans a3, fun ch => ?_, fun h => (hoff h).elim⟩
        rcases i4 ch with h | h
        · rcases a4 ch with h' | h'
          · left; exact h.trans h'
          · right; exact h.trans h'
        · right; rw [h]; exact a2

theorem activateStream_any (env : Env) (s : State) :
    (activateStream env s).1.rx_stream_format = s.rx_stream_format ∧
    (activateStream env s).1.outbufsize = s.outbufsize ∧
    (activateStream env s).1.rx_ch = s.rx_ch ∧
    (∀ ch, ((activateStream env s).1.partial_rx_buf ch).left = (s.partial_rx_buf ch).left ∨
      ((activateStream env s).1.partial_rx_buf ch).left = s.outbufsize) ∧
    ((∀ ch, (s.rx_ch ch).enable ≠ RFNM_CH_ON) →
      (activateStream env s).1.partial_rx_buf = s.partial_rx_buf) := by
  have h := activateLoop_any env (List.range MAX_RX_CHAN_COUNT) s
  unfold activateStream
  generalize activateLoop env (List.range MAX_RX_CHAN_COUNT) s = r at h
  obtain ⟨s2, v⟩ := r
  cases v <;> exact h

theorem readCarry_bounded (ch bpe N obs : Nat) (c : ChanSt) (h : CarryBounded obs c.pbuf) :
    CarryBounded obs (readCarry ch bpe N c).pbuf ∧
    (readCarry ch bpe N c).pbuf.offset ≤ obs ∧
    (readCarry ch bpe N c).pbuf.offset + (readCarry ch bpe N c).pbuf.left
      = c.pbuf.offset + c.pbuf.left ∧
    (readCarry ch bpe N c).pbuf.offset
      = c.pbuf.offset + (c.pbuf.left - (readCarry ch bpe N c).pbuf.left) := by
  obtain ⟨h1, h2⟩ := h
  unfold readCarry CarryBounded
  by_cases hl : c.pbuf.left ≠ 0
  · rw [if_pos hl]
    by_cases hgt : N * bpe > c.pbuf.left
    · rw [if_pos hgt]
      dsimp only
      omega
    · rw [if_neg hgt]
      dsimp only
      omega
  · rw [if_neg hl]
    omega

theorem readBuf_bounded (ch bpe obs N : Nat) (dc : DcOffsets) (hw : List Byte)
    (q : List (Option RxBuf)) (c : ChanSt) (h : CarryBounded obs c.pbuf) :
    CarryBounded obs (readBuf ch bpe obs N dc hw q c).pbuf := by
  obtain ⟨h1, h2⟩ := h
  unfold readBuf CarryBounded
  dsimp only
  by_cases hov : c.read_elems + obs / bpe > N
  · simp only [hov, if_true]
    split
    · dsimp only
      omega
    · exact ⟨h1, h2⟩
  · simp only [hov, if_false]
    exact ⟨h1, h2⟩

theorem readLoop_bounded (env : Env) (ch bpe obs : Nat) (dcc : Bool) (N : Nat) :
    ∀ (q : List (Option RxBuf)) (c : ChanSt), CarryBounded obs c.pbuf →
      CarryBounded obs (readLoop env ch bpe obs dcc N q c).pbuf := by
  intro q
  induction q with
  | nil =>
    intro c h
    by_cases hlt : c.read_elems < N
    · rw [readLoop_nil _ _ _ _ _ _ _ hlt]; exact h
    · rw [readLoop_done _ _ _ _ _ _ _ _ hlt]; exact h
  | cons r q ih =>
    intro c h
    by_cases hlt : c.read_elems < N
    · cases r with
      | none => rw [readLoop_none _ _ _ _ _ _ _ _ hlt]; exact h
      | some b =>
        cases hd : dcBlock env bpe obs dcc b c.dc with
        | none => rw [readLoop_abort _ _ _ _ _ _ _ _ _ hlt hd]; exact h
        | some d =>
          rw [readLoop_some _ _ _ _ _ _ _ _ _ hlt d hd]
          exact ih _ (readBuf_bounded ch bpe obs N d.1 d.2 q c h)
    · rw [readLoop_done _ _ _ _ _ _ _ _ hlt]; exact h

theorem chanRun_bounded (env : Env) (s : State) (buffs : Nat → List Byte) (N ch : Nat)
    (log : List HwCall) (h : CarryBounded s.outbufsize (s.partial_rx_buf ch)) :
    CarryBounded s.outbufsize (chanRun env s buffs N ch log).pbuf := by
  unfold chanRun readChannel
  dsimp only
  apply readLoop_bounded
  exact (readCarry_bounded _ _ _ _ _ h).1

theorem readStream_bounded (env : Env) (s : State) (buffs : Nat → List Byte) (N ch : Nat)
    (h : CarryBounded s.outbufsize (s.partial_rx_buf ch)) :
    CarryBounded (readStream env s buffs N).st.outbufsize
      ((readStream env s buffs N).st.partial_rx_buf ch) := by
  obtain ⟨_, _, x3, _⟩ := readStream_sameSetup env s buffs N
  rw [x3]
  rcases readStream_left env s buffs N ch with h' | h'
  · rw [h'.1]; exact h
  · obtain ⟨_, _, log, hl⟩ := h'
    rw [hl]; exact chanRun_bounded env s buffs N ch log h

theorem activateChannel_bounded (env : Env) (s : State) (c ch : Nat)
    (h : CarryBounded s.outbufsize (s.partial_rx_buf ch)) :
    CarryBounded (activateChannel env s c).1.outbufsize
      ((activateChannel env s c).1.partial_rx_buf ch) := by
  have hl := (activateChannel_any env s c).2.2.2 ch
  have ho := (activateChannel_any env s c).2.1
  rw [ho]
  unfold activateChannel at hl ⊢
  split
  · exact h
  · exact h
  · dsimp only
    by_cases hc : ch = c
    · subst hc
      split
      · simp only [upd_same]; exact ⟨le_rfl, by simp⟩
      · split
        · split
          · simp only [upd_same]; exact ⟨le_rfl, by simp⟩
          · simp only [upd_same]; exact ⟨le_rfl, by simp⟩
        · simp only [upd_same]; exact ⟨le_rfl, by simp⟩
    · split
      · simp only [upd_other _ _ _ _ hc]; exact h
      · split
        · split
          · simp only [upd_other _ _ _ _ hc]; exact h
          · simp only [upd_other _ _ _ _ hc]; exact h
        · simp only [upd_other _ _ _ _ hc]; exact h

theorem activateLoop_bounded (env : Env) (ch : Nat) :
    ∀ (chs : List Nat) (s : State), CarryBounded s.outbufsize (s.partial_rx_buf ch) →
      CarryBounded (activateLoop env chs s).1.outbufsize
        ((activateLoop env chs s).1.partial_rx_buf ch) := by
  intro chs
  induction chs with
  | nil => intro s h; exact h
  | cons c chs ih =>
    intro s h
    unfold activateLoop
    by_cases hen : (s.rx_ch c).enable ≠ RFNM_CH_ON
    · rw [if_pos hen]; exact ih s h
    · rw [if_neg hen]
      have ha := activateChannel_bounded env s c ch h
      generalize activateChannel env s c = r at ha
      obtain ⟨s2, v⟩ := r
      cases v with
      | error e => exact ha
      | ok u => exact ih s2 ha

theorem activateStream_bounded (env : Env) (s : State) (ch : Nat)
    (h : CarryBounded s.outbufsize (s.partial_rx_buf ch)) :
    CarryBounded (activateStream env s).1.outbufsize
      ((activateStream env s).1.partial_rx_buf ch) := by
  have ha := activateLoop_bounded env ch (List.range MAX_RX_CHAN_COUNT) s h
  unfold activateStream
  generalize activateLoop env (List.range MAX_RX_CHAN_COUNT) s = r at ha
  obtain ⟨s2, v⟩ := r
  cases v <;> exact ha

/-- C13 (carryover well-formedness). If every channel's carryover satisfies
`left ≤ outbufsize` and `offset + left ≤ outbufsize`, then so does every
channel's carryover after `activateStream` (whether it returns, throws or ends
on a failed assertion) and after any `readStream` call (any `numElems`, any
outcomes of `rx_dqbuf`, whether it returns or ends on a failed assertion), with
`outbufsize` unchanged. Every copy stays within the `outbufsize` bytes of the
carryover buffer: the copy out of it (the carryover block) reads from the old
`offset` up to the new one, which is at most `outbufsize`, and each round of
the loop that writes into it leaves a carryover that lies within the buffer.
The multiple-of-element-width hypothesis is not needed. -/
theorem carryover_wellformed (env : Env) (s : State)
    (h : ∀ ch, CarryBounded s.outbufsize (s.partial_rx_buf ch)) :
    (∀ ch, CarryBounded (activateStream env s).1.outbufsize
      ((activateStream env s).1.partial_rx_buf ch)) ∧
    (activateStream env s).1.outbufsize = s.outbufsize ∧
    (∀ buffs numElems ch, CarryBounded (readStream env s buffs numElems).st.outbufsize
      ((readStream env s buffs numElems).st.partial_rx_buf ch)) ∧
    (∀ buffs numElems, (readStream env s buffs numElems).st.outbufsize = s.outbufsize) ∧
    (∀ ch numElems (c : ChanSt), c.pbuf = s.partial_rx_buf ch →
      (readCarry ch s.rx_stream_format numElems c).pbuf.offset ≤ s.outbufsize ∧
      (readCarry ch s.rx_stream_format numElems c).pbuf.offset
        = c.pbuf.offset
          + (c.pbuf.left - (readCarry ch s.rx_stream_format numElems c).pbuf.left) ∧
      CarryBounded s.outbufsize (readCarry ch s.rx_stream_format numElems c).pbuf) ∧
    (∀ ch numElems dc hwbuf queue (c : ChanSt), CarryBounded s.outbufsize c.pbuf →
      CarryBounded s.outbufsize
        (readBuf ch s.rx_stream_format s.outbufsize numElems dc hwbuf queue c).pbuf) := by
  refine ⟨fun ch => activateStream_bounded env s ch (h ch), (activateStream_any env s).2.1,
    fun buffs N ch => readStream_bounded env s buffs N ch (h ch),
    fun buffs N => (readStream_sameSetup env s buffs N).2.2.1, ?_, ?_⟩
  · intro ch N c hc
    have hb : CarryBounded s.outbufsize c.pbuf := by rw [hc]; exact h ch
    obtain ⟨a1, a2, _, a4⟩ := readCarry_bounded ch s.rx_stream_format N s.outbufsize c hb
    exact ⟨a2, a4, a1⟩
  · intro ch N dc hwbuf queue c hc
    exact readBuf_bounded ch s.rx_stream_format s.outbufsize N dc hwbuf queue c hc

theorem demoScenario_bounded :
    ∀ ch, CarryBounded demoScenario.outbufsize (demoScenario.partial_rx_buf ch) := by
  intro ch
  show CarryBounded 4096
    (if ch < 2 then ⟨List.replicate 4096 0, 0, 0⟩ else ⟨[], 0, 0⟩)
  split <;> exact ⟨by decide, by decide⟩

/-- On the scenario stream (empty carryovers within 4096-byte buffers), the
carryover of channel 0 stays within its buffer after `activateStream` and
after a read of 1500 elements. -/
theorem carryover_wellformed_witness :
    CarryBounded (activateStream demoEnv demoScenario).1.outbufsize
      ((activateStream demoEnv demoScenario).1.partial_rx_buf 0) ∧
    CarryBounded (readStream demoEnv demoScenario (fun _ => []) 1500).st.outbufsize
      ((readStream demoEnv demoScenario (fun _ => []) 1500).st.partial_rx_buf 0) :=
  ⟨(carryover_wellformed demoEnv demoScenario demoScenario_bounded).1 0,
   (carryover_wellformed demoEnv demoScenario demoScenario_bounded).2.2.1 (fun _ => []) 1500 0⟩

/-! ### Cadence of the DC offset update -/

theorem dcBlock_skip (env : Env) (format obs : Nat) (dcc : Bool) (b : RxBuf) (dc : DcOffsets)
    (h : b.usb_cc &&& 0xF ≠ 0) :
    dcBlock env format obs dcc b dc =
      (if dcc then applySwitch env format obs b.buf dc else some b.buf).map
        (fun hwbuf => (dc, hwbuf)) := by
  unfold dcBlock
  cases dcc
  · simp
  · simp only [if_true, h, if_false]
    cases applySwitch env format obs b.buf dc <;> rfl

theorem dcBlock_update (env : Env) (format obs : Nat) (b : RxBuf) (dc : DcOffsets)
    (h : b.usb_cc &&& 0xF = 0) :
    (dcBlock env format obs true b dc).map Prod.fst =
      measSwitch env format obs b.buf dc (fround (1 / 10)) := by
  unfold dcBlock
  simp only [if_true, h]
  cases hm : measSwitch env format obs b.buf dc (fround (1 / 10)) with
  | none => rfl
  | some d =>
    obtain ⟨hw, hhw⟩ := applySwitch_some env format obs b.buf d
      (measSwitch_size env format obs b.buf dc d _ hm)
    simp only [hhw]
    rfl

/-- Whether the DC block ends on a failed assertion does not depend on the
buffer or on the offsets. -/
theorem dcBlock_none_indep (env : Env) (format obs : Nat) (dcc : Bool) (b b1 : RxBuf)
    (dc dc1 : DcOffsets) (h : dcBlock env format obs dcc b dc = none) :
    dcBlock env format obs dcc b1 dc1 = none := by
  cases dcc with
  | false => rw [dcBlock_off] at h; exact absurd h (by simp)
  | true =>
    by_cases hok : DcSizeOk format obs
    · obtain ⟨d, hd⟩ := dcBlock_some env format obs true b dc (Or.inr hok)
      rw [hd] at h; exact absurd h (by simp)
    · exact dcBlock_none env format obs b1 dc1 hok

theorem dcAfter_cons_none (env : Env) (format obs : Nat) (dcc : Bool) (b : RxBuf)
    (l : List RxBuf) (dc : DcOffsets) (h : dcBlock env format obs dcc b dc = none) :
    dcAfter env format obs dcc (b :: l) dc = dc := by
  simp [dcAfter, h]

theorem dcAfter_cons_some (env : Env) (format obs : Nat) (dcc : Bool) (b : RxBuf)
    (l : List RxBuf) (dc : DcOffsets) (d : DcOffsets × List Byte)
    (h : dcBlock env format obs dcc b dc = some d) :
    dcAfter env format obs dcc (b :: l) dc = dcAfter env format obs dcc l d.1 := by
  simp [dcAfter, h]

theorem dcAfter_abort (env : Env) (format obs : Nat) (dcc : Bool) (b : RxBuf) (dc0 : DcOffsets)
    (h : dcBlock env format obs dcc b dc0 = none) :
    ∀ (l : List RxBuf) (dc : DcOffsets), dcAfter env format obs dcc l dc = dc := by
  intro l dc
  cases l with
  | nil => rfl
  | cons x l =>
    exact dcAfter_cons_none env format obs dcc x l dc
      (dcBlock_none_indep env format obs dcc b x dc0 dc h)

theorem dcAfter_append (env : Env) (format obs : Nat) (dcc : Bool) :
    ∀ (a b : List RxBuf) (dc : DcOffsets),
      dcAfter env format obs dcc (a ++ b) dc
        = dcAfter env format obs dcc b (dcAfter env format obs dcc a dc) := by
  intro a
  induction a with
  | nil => intro b dc; rfl
  | cons x a ih =>
    intro b dc
    rw [List.cons_append]
    cases hd : dcBlock env format obs dcc x dc with
    | none =>
      rw [dcAfter_cons_none _ _ _ _ _ _ _ hd, dcAfter_cons_none _ _ _ _ _ _ _ hd,
        dcAfter_abort env format obs dcc x dc hd]
    | some d =>
      rw [dcAfter_cons_some _ _ _ _ _ _ _ d hd, dcAfter_cons_some _ _ _ _ _ _ _ d hd]
      exact ih b _

theorem dcAfter_take_succ (env : Env) (format obs : Nat) (dcc : Bool) (bufs : List RxBuf)
    (dc : DcOffsets) (k : Nat) (b : RxBuf) (h : bufs[k]? = some b) :
    dcAfter env format obs dcc (bufs.take (k + 1)) dc =
      dcAfter env format obs dcc [b] (dcAfter env format obs dcc (bufs.take k) dc) := by
  rw [List.take_succ, h, dcAfter_append]
  rfl

theorem readLoop_dc (env : Env) (ch format obs : Nat) (dcc : Bool) (N : Nat) :
    ∀ (q : List (Option RxBuf)) (c : ChanSt),
      ∃ used, q = used ++ (readLoop env ch format obs dcc N q c).queue ∧
        (readLoop env ch format obs dcc N q c).dc
          = dcAfter env format obs dcc (used.filterMap id) c.dc := by
  intro q
  induction q with
  | nil =>
    intro c
    refine ⟨[], ?_⟩
    by_cases hlt : c.read_elems < N
    · rw [readLoop_nil _ _ _ _ _ _ _ hlt]; simp [dcAfter]
    · rw [readLoop_done _ _ _ _ _ _ _ _ hlt]; simp [dcAfter]
  | cons r q ih =>
    intro c
    by_cases hlt : c.read_elems < N
    · cases r with
      | none =>
        refine ⟨[none], ?_⟩
        rw [readLoop_none _ _ _ _ _ _ _ _ hlt]; simp [dcAfter]
      | some b =>
        cases hd : dcBlock env format obs dcc b c.dc with
        | none =>
          refine ⟨[some b], ?_⟩
          rw [readLoop_abort _ _ _ _ _ _ _ _ _ hlt hd]
          refine ⟨by simp, ?_⟩
          show c.dc = dcAfter env format obs dcc ([some b].filterMap id) c.dc
          have : ([some b] : List (Option RxBuf)).filterMap id = [b] := by simp
          rw [this, dcAfter_cons_none _ _ _ _ _ _ _ hd]
        | some d =>
          rw [readLoop_some _ _ _ _ _ _ _ _ _ hlt d hd]
          obtain ⟨used, i1, i2⟩ := ih (readBuf ch format obs N d.1 d.2 q c)
          refine ⟨some b :: used, ?_, ?_⟩
          · rw [List.cons_append, ← i1]
          · rw [i2]
            have : (some b :: used).filterMap id = b :: used.filterMap id := by simp
            rw [this, dcAfter_cons_some _ _ _ _ _ _ _ d hd]
            rfl
    · refine ⟨[], ?_⟩
      rw [readLoop_done _ _ _ _ _ _ _ _ hlt]; simp [dcAfter]

theorem chanRun_dc (env : Env) (s : State) (buffs : Nat → List Byte) (N ch : Nat)
    (log : List HwCall) :
    ∃ used, s.rx_queue ch = used ++ (chanRun env s buffs N ch log).queue ∧
      (chanRun env s buffs N ch log).dc
        = dcAfter env s.rx_stream_format s.outbufsize (s.dc_correction ch)
            (used.filterMap id) (s.dc_offsets ch) := by
  unfold chanRun readChannel
  dsimp only
  generalize hc0 : ({ read_elems := 0, out := buffs (slotOf s ch), pbuf := s.partial_rx_buf ch, dc := s.dc_offsets ch, queue := s.rx_queue ch, log := log, aborted := false } : ChanSt) = c0
  have e4 : c0.dc = s.dc_offsets ch := by rw [← hc0]
  obtain ⟨used, i1, i2⟩ := readLoop_dc env ch s.rx_stream_format s.outbufsize
    (s.dc_correction ch) N (s.rx_queue ch) (readCarry ch s.rx_stream_format N c0)
  refine ⟨used, i1, ?_⟩
  rw [i2, readCarry_dc, e4]

theorem readStream_dc (env : Env) (s : State) (buffs : Nat → List Byte) (N ch : Nat)
    (hch : ch < MAX_RX_CHAN_COUNT) (he : enabled s ch = true) :
    ∃ used, s.rx_queue ch = used ++ (readStream env s buffs N).st.rx_queue ch ∧
      (readStream env s buffs N).st.dc_offsets ch
        = dcAfter env s.rx_stream_format s.outbufsize (s.dc_correction ch)
            (used.filterMap id) (s.dc_offsets ch) := by
  have I := foldInv_all env s buffs N 4
  rcases I.done ch hch he with hdn | hsk
  · obtain ⟨log, _, _, _, d4, d5, _⟩ := hdn
    obtain ⟨used, c1, c2⟩ := chanRun_dc env s buffs N ch log
    have hq : (readStream env s buffs N).st.rx_queue ch
        = (chanRun env s buffs N ch log).queue := d5
    have hd : (readStream env s buffs N).st.dc_offsets ch
        = (chanRun env s buffs N ch log).dc := d4
    exact ⟨used, by rw [hq]; exact c1, by rw [hd]; exact c2⟩
  · obtain ⟨_, ⟨_, u2, u3, _, _⟩, _⟩ := hsk
    have hq : (readStream env s buffs N).st.rx_queue ch = s.rx_queue ch := u3
    have hd : (readStream env s buffs N).st.dc_offsets ch = s.dc_offsets ch := u2
    exact ⟨[], by rw [hq]; rfl, by rw [hd]; rfl⟩

theorem dcAfter_skip_all (env : Env) (format obs : Nat) (dcc : Bool) :
    ∀ (l : List RxBuf) (dc : DcOffsets), (∀ b ∈ l, b.usb_cc &&& 0xF ≠ 0) →
      dcAfter env format obs dcc l dc = dc := by
  intro l
  induction l with
  | nil => intro dc _; rfl
  | cons x l ih =>
    intro dc h
    have hs := dcBlock_skip env format obs dcc x dc (h x (List.mem_cons_self x l))
    cases hd : dcBlock env format obs dcc x dc with
    | none => exact dcAfter_cons_none _ _ _ _ _ _ _ hd
    | some d =>
      rw [dcAfter_cons_some _ _ _ _ _ _ _ d hd]
      have hd1 : d.1 = dc := by
        rw [hd] at hs
        cases ha : (if dcc then applySwitch env format obs x.buf dc else some x.buf) with
        | none => rw [ha] at hs; simp at hs
        | some hw => rw [ha] at hs; simp at hs; rw [hs]
      rw [hd1]
      exact ih dc (fun b hb => h b (List.mem_cons_of_mem x hb))

theorem dcAfter_single_skip (env : Env) (format obs : Nat) (dcc : Bool) (b : RxBuf)
    (dc : DcOffsets) (h : b.usb_cc &&& 0xF ≠ 0) : dcAfter env format obs dcc [b] dc = dc :=
  dcAfter_skip_all env format obs dcc [b] dc (by
    intro x hx
    rw [List.mem_singleton] at hx
    rw [hx]; exact h)

theorem dcAfter_single_update (env : Env) (format obs : Nat) (b : RxBuf) (dc : DcOffsets)
    (h : b.usb_cc &&& 0xF = 0) :
    dcAfter env format obs true [b] dc =
      (measSwitch env format obs b.buf dc (fround (1 / 10))).getD dc := by
  have hu := dcBlock_update env format obs b dc h
  cases hd : dcBlock env format obs true b dc with
  | none =>
    rw [dcAfter_cons_none _ _ _ _ _ _ _ hd]
    rw [hd] at hu
    rw [← hu]; rfl
  | some d =>
    rw [dcAfter_cons_some _ _ _ _ _ _ _ d hd]
    rw [hd] at hu
    rw [← hu]; rfl

theorem low_bits_zero (k : Nat) (hk : k < 32) : k &&& 0xF = 0 ↔ (k = 0 ∨ k = 16) := by
  interval_cases k <;> decide

/-- The thirty-two buffers used to illustrate the cadence: the buffer at position
`k` carries the sequence counter `k`. -/
theorem cadenceBufs_counters :
    ∀ (k : Nat) (b : RxBuf),
      ((List.range 32).map (fun k => demoBuf8 k k))[k]? = some b → b.usb_cc = k := by
  intro k b h
  rw [List.getElem?_map] at h
  by_cases hk : k < 32
  · rw [List.getElem?_range hk] at h
    simp only [Option.map_some', Option.some.injEq] at h
    rw [← h]; rfl
  · rw [List.getElem?_eq_none (by simpa using hk)] at h
    simp at h

/-- C11 (periodic update cadence). In every `readStream` call the DC offsets of
an enabled channel after the call are those obtained by running the DC block
over the buffers the call dequeued, in order (`dcAfter`); a buffer whose
sequence counter has `usb_cc &&& 0xF ≠ 0` leaves the offsets as they were, and
its bytes only have the existing offsets subtracted (when DC correction is on)
or are left alone (when it is off); a call that dequeues only such buffers
leaves the offsets unchanged. Hence over 32 consecutive buffers with counters
0..31 the offsets after buffer `k` equal those before it for every `k` other
than 0 and 16, and at 0 and 16, with DC correction on, the new offsets are
those of the measurement with filter coefficient `0.1f` (they stay as they
are when the assertion of the measurement fails and the process stops). -/
theorem dc_update_cadence (env : Env) (s : State) (dcc : Bool) (bufs : List RxBuf)
    (hlen : bufs.length = 32)
    (hcc : ∀ (k : Nat) (b : RxBuf), bufs[k]? = some b → b.usb_cc = k) :
    (∀ (lrxbuf : RxBuf) (dc : DcOffsets), lrxbuf.usb_cc &&& 0xF ≠ 0 →
      dcBlock env s.rx_stream_format s.outbufsize dcc lrxbuf dc =
        (if dcc then applySwitch env s.rx_stream_format s.outbufsize lrxbuf.buf dc
          else some lrxbuf.buf).map (fun hwbuf => (dc, hwbuf))) ∧
    (∀ (lrxbuf : RxBuf) (dc : DcOffsets), lrxbuf.usb_cc &&& 0xF = 0 →
      (dcBlock env s.rx_stream_format s.outbufsize true lrxbuf dc).map Prod.fst =
        measSwitch env s.rx_stream_format s.outbufsize lrxbuf.buf dc (fround (1 / 10))) ∧
    (∀ buffs numElems ch, ch < MAX_RX_CHAN_COUNT → enabled s ch = true →
      ∃ used, s.rx_queue ch = used ++ (readStream env s buffs numElems).st.rx_queue ch ∧
        (readStream env s buffs numElems).st.dc_offsets ch
          = dcAfter env s.rx_stream_format s.outbufsize (s.dc_correction ch)
              (used.filterMap id) (s.dc_offsets ch)) ∧
    (∀ buffs numElems ch, ch < MAX_RX_CHAN_COUNT → enabled s ch = true →
      (∀ b, some b ∈ s.rx_queue ch → b.usb_cc &&& 0xF ≠ 0) →
      (readStream env s buffs numElems).st.dc_offsets ch = s.dc_offsets ch) ∧
    (∀ (dc : DcOffsets) (k : Nat), k < 32 → k ≠ 0 → k ≠ 16 →
      dcAfter env s.rx_stream_format s.outbufsize dcc (bufs.take (k + 1)) dc
        = dcAfter env s.rx_stream_format s.outbufsize dcc (bufs.take k) dc) ∧
    (∀ (dc : DcOffsets) (k : Nat) (b : RxBuf), (k = 0 ∨ k = 16) → bufs[k]? = some b →
      dcAfter env s.rx_stream_format s.outbufsize true (bufs.take (k + 1)) dc
        = (measSwitch env s.rx_stream_format s.outbufsize b.buf
            (dcAfter env s.rx_stream_format s.outbufsize true (bufs.take k) dc)
            (fround (1 / 10))).getD
          (dcAfter env s.rx_stream_format s.outbufsize true (bufs.take k) dc)) := by
  refine ⟨?_, ?_, ?_, ?_, ?_, ?_⟩
  · intro b dc h
    exact dcBlock_skip env _ _ dcc b dc h
  · intro b dc h
    exact dcBlock_update env _ _ b dc h
  · intro buffs N ch hch he
    exact readStream_dc env s buffs N ch hch he
  · intro buffs N ch hch he hq
    obtain ⟨used, h1, h2⟩ := readStream_dc env s buffs N ch hch he
    rw [h2]
    apply dcAfter_skip_all
    intro b hb
    apply hq b
    rw [h1]
    apply List.mem_append_left
    rw [List.mem_filterMap] at hb
    obtain ⟨a, ha, hab⟩ := hb
    simp only [id_eq] at hab
    rw [← hab]; exact ha
  · intro dc k hk h0 h16
    have hkl : k < bufs.length := by rw [hlen]; exact hk
    have hget : bufs[k]? = some bufs[k] := List.getElem?_eq_getElem hkl
    rw [dcAfter_take_succ env _ _ dcc bufs dc k _ hget]
    have hc : bufs[k].usb_cc = k := hcc k _ hget
    have hnz : bufs[k].usb_cc &&& 0xF ≠ 0 := by
      rw [hc]
      intro hz
      rcases (low_bits_zero k hk).1 hz with h | h
      · exact h0 h
      · exact h16 h
    exact dcAfter_single_skip env _ _ dcc _ _ hnz
  · intro dc k b hk hget
    rw [dcAfter_take_succ env _ _ true bufs dc k b hget]
    have hc : b.usb_cc = k := hcc k b hget
    have hz : b.usb_cc &&& 0xF = 0 := by
      rw [hc]
      rcases hk with h | h <;> rw [h] <;> decide
    exact dcAfter_single_update env _ _ b _ hz

/-- On the small CS8 stream, with thirty-two 8-byte buffers numbered 0..31, the
offsets after the sixth buffer (counter 5) are those after the fifth. -/
theorem dc_update_cadence_witness :
    ((List.range 32).map (fun k => demoBuf8 k k)).length = 32 ∧
    dcAfter tinyEnv demoSmall.rx_stream_format demoSmall.outbufsize true
        (((List.range 32).map (fun k => demoBuf8 k k)).take (5 + 1)) (demoSmall.dc_offsets 0)
      = dcAfter tinyEnv demoSmall.rx_stream_format demoSmall.outbufsize true
        (((List.range 32).map (fun k => demoBuf8 k k)).take 5) (demoSmall.dc_offsets 0) :=
  ⟨by decide,
   (dc_update_cadence tinyEnv demoSmall true ((List.range 32).map (fun k => demoBuf8 k k))
      (by decide) cadenceBufs_counters).2.2.2.2.1 (demoSmall.dc_offsets 0) 5
      (by decide) (by decide) (by decide)⟩

/-! ### Rounding to binary32: values it leaves as they are -/

theorem log2Aux_spec : ∀ fuel n, 0 < n → n ≤ fuel →
    2 ^ log2Aux fuel n ≤ n ∧ n < 2 ^ (log2Aux fuel n + 1) := by
  intro fuel
  induction fuel with
  | zero => intro n h1 h2; omega
  | succ fuel ih =>
    intro n h1 h2
    unfold log2Aux
    by_cases h : 2 ≤ n
    · rw [if_pos h]
      obtain ⟨a, b⟩ := ih (n / 2) (by omega) (by omega)
      rw [pow_succ, pow_succ]
      constructor
      · have := Nat.div_mul_le_self n 2
        omega
      · have := Nat.lt_div_mul_add (a := n) (b := 2) (by decide)
        omega
    · rw [if_neg h]
      simp
      omega

theorem abs_eq_natAbs_div (q : ℚ) : |q| = (q.num.natAbs : ℚ) / (q.den : ℚ) := by
  conv_lhs => rw [← Rat.num_div_den q]
  rw [abs_div, Nat.abs_cast]
  congr 1
  rw [Nat.cast_natAbs, Int.cast_abs]

theorem binade_le (q : ℚ) (hq : q ≠ 0) : (2 : ℚ) ^ binade q ≤ |q| := by
  unfold binade
  dsimp only
  split
  · assumption
  · have ha : 0 < q.num.natAbs := Int.natAbs_pos.mpr (Rat.num_ne_zero.mpr hq)
    have hb : 0 < q.den := q.den_pos
    obtain ⟨a1, _⟩ := log2Aux_spec q.num.natAbs q.num.natAbs ha le_rfl
    obtain ⟨_, b2⟩ := log2Aux_spec q.den q.den hb le_rfl
    rw [abs_eq_natAbs_div]
    have e : (2 : ℚ) ^ ((log2Aux q.num.natAbs q.num.natAbs : Int) - (log2Aux q.den q.den : Int) - 1)
        = (2 : ℚ) ^ (log2Aux q.num.natAbs q.num.natAbs) / (2 : ℚ) ^ (log2Aux q.den q.den + 1) := by
      rw [sub_sub, zpow_sub₀ (by norm_num : (2 : ℚ) ≠ 0)]
      congr 1
      · exact zpow_natCast _ _
      · rw [← zpow_natCast]; congr 1
    rw [e]
    apply div_le_div₀
    · positivity
    · exact_mod_cast a1
    · exact_mod_cast hb
    · exact_mod_cast le_of_lt b2

theorem roundEven_intCast (z : ℤ) : roundEven (z : ℚ) = z := by
  unfold roundEven
  simp

theorem fround_exact (k t : ℤ) (hk : |k| < 2 ^ 24) (ht : -149 ≤ t) :
    fround ((k : ℚ) * (2 : ℚ) ^ t) = (k : ℚ) * (2 : ℚ) ^ t := by
  by_cases hk0 : k = 0
  · subst hk0; simp [fround]
  have h2 : (0 : ℚ) < (2 : ℚ) ^ t := by positivity
  have hq : (k : ℚ) * (2 : ℚ) ^ t ≠ 0 := mul_ne_zero (by exact_mod_cast hk0) (ne_of_gt h2)
  have hb := binade_le _ hq
  have hlt : |(k : ℚ) * (2 : ℚ) ^ t| < (2 : ℚ) ^ (t + 24) := by
    rw [abs_mul, abs_of_pos h2, zpow_add₀ (by norm_num : (2 : ℚ) ≠ 0), mul_comm]
    apply mul_lt_mul_of_pos_left _ h2
    have : |(k : ℚ)| = ((|k| : ℤ) : ℚ) := by simp
    rw [this]
    exact_mod_cast hk
  have hbin : binade ((k : ℚ) * (2 : ℚ) ^ t) < t + 24 := by
    have := lt_of_le_of_lt hb hlt
    exact (zpow_lt_zpow_iff_right₀ (by norm_num : (1 : ℚ) < 2)).1 this
  have hu : ulpExp ((k : ℚ) * (2 : ℚ) ^ t) ≤ t := by
    unfold ulpExp
    omega
  obtain ⟨n, hn⟩ : ∃ n : ℕ, t - ulpExp ((k : ℚ) * (2 : ℚ) ^ t) = n :=
    ⟨(t - ulpExp ((k : ℚ) * (2 : ℚ) ^ t)).toNat, by omega⟩
  have hdiv : (k : ℚ) * (2 : ℚ) ^ t / (2 : ℚ) ^ ulpExp ((k : ℚ) * (2 : ℚ) ^ t)
      = ((k * 2 ^ n : ℤ) : ℚ) := by
    rw [mul_div_assoc, ← zpow_sub₀ (by norm_num : (2 : ℚ) ≠ 0), hn]
    push_cast
    rw [zpow_natCast]
  unfold fround
  rw [if_neg hq, hdiv, roundEven_intCast]
  push_cast
  rw [mul_assoc, ← zpow_natCast, ← hn, ← zpow_add₀ (by norm_num : (2 : ℚ) ≠ 0)]
  congr 2
  ring

theorem fround_intCast (z : ℤ) (h : |z| ≤ 2 ^ 24) : fround (z : ℚ) = z := by
  rcases lt_or_eq_of_le h with h1 | h1
  · have := fround_exact z 0 h1 (by norm_num)
    simpa using this
  · rcases abs_eq (by norm_num : (0 : ℤ) ≤ 2 ^ 24) |>.1 h1 with h2 | h2
    · have := fround_exact 1 24 (by norm_num) (by norm_num)
      rw [h2]
      norm_num at this ⊢
      exact this
    · have := fround_exact (-1) 24 (by norm_num) (by norm_num)
      rw [h2]
      norm_num at this ⊢
      exact this

theorem fround_two_zpow (t : ℤ) (ht : -149 ≤ t) : fround ((2 : ℚ) ^ t) = (2 : ℚ) ^ t := by
  have := fround_exact 1 t (by norm_num) ht
  simpa using this

theorem fround_zero : fround 0 = 0 := by simp [fround]

/-- Adding up `m` times the integer `z` in `float` is exact as long as
`m * |z|` is at most `2 ^ 24`. -/
theorem foldl_fadd_const (g : Nat → ℚ) (z : ℤ) (m : Nat) (hg : ∀ i, i < m → g i = z)
    (hz : (m : ℤ) * |z| ≤ 2 ^ 24) :
    ∀ k, k ≤ m → (List.range k).foldl (fun a i => fadd a (g i)) 0 = ((k : ℤ) * z : ℤ) := by
  intro k
  induction k with
  | zero => intro _; simp
  | succ k ih =>
    intro hk
    rw [List.range_succ, List.foldl_append, ih (by omega)]
    simp only [List.foldl_cons, List.foldl_nil]
    rw [hg k (by omega)]
    unfold fadd
    have e : (((k : ℤ) * z : ℤ) : ℚ) + (z : ℚ) = ((((k + 1 : ℕ) : ℤ) * z : ℤ) : ℚ) := by
      push_cast; ring
    rw [e]
    apply fround_intCast
    rw [abs_mul, abs_of_nonneg (by positivity : (0 : ℤ) ≤ ((k + 1 : ℕ) : ℤ))]
    calc ((k + 1 : ℕ) : ℤ) * |z| ≤ (m : ℤ) * |z| :=
          mul_le_mul_of_nonneg_right (by exact_mod_cast hk) (abs_nonneg z)
      _ ≤ 2 ^ 24 := hz

/-! ### Initial calibration on a constant-lane buffer -/

theorem strides_mul (m : Nat) : strides (8 * m) = m := by
  unfold strides; omega

theorem chunk_at (sz : Nat) (rest : List Byte) :
    ∀ (l : List (List Byte)) (k : Nat) (h : k < l.length), (∀ x ∈ l, x.length = sz) →
      ((l.flatten ++ rest).drop (k * sz)).take sz = l[k] := by
  intro l
  induction l with
  | nil => intro k h; simp at h
  | cons x l ih =>
    intro k h hx
    have hxl : x.length = sz := hx x (List.mem_cons_self x l)
    cases k with
    | zero =>
      simp only [Nat.zero_mul, List.drop_zero, List.flatten_cons, List.append_assoc,
        List.getElem_cons_zero]
      exact List.take_left' hxl
    | succ k =>
      have e : (k + 1) * sz = x.length + k * sz := by rw [hxl]; ring
      rw [e, List.flatten_cons, List.append_assoc, List.drop_append]
      simp only [List.getElem_cons_succ]
      exact ih k (by simpa using h) (fun y hy => hx y (List.mem_cons_of_mem x hy))

/-- After `applyQuadDcOffset`, element `k` of the region holds what assigning
`buf[k] - offsets[k % 8]` to a `T` gives. -/
theorem elemAt_applyQuadDcOffset (T : SampleTy) (hs : ∀ v, (T.store v).length = T.size)
    (buf buf1 : List Byte) (n : Nat) (offsets : List ℚ)
    (h : applyQuadDcOffset T buf n offsets = some buf1) (k : Nat) (hk : k < 8 * strides n) :
    elemAt T buf1 k = assignTo T (elemAt T buf k - offsets.getD (k % 8) 0) := by
  unfold applyQuadDcOffset at h
  split at h
  swap
  · simp at h
  simp only [Option.some.injEq] at h
  rw [← h, List.flatMap_def]
  unfold elemAt assignTo
  have hlen : k < ((List.range (8 * strides n)).map fun k =>
      T.store (T.load ((buf.drop (k * T.size)).take T.size) - offsets.getD (k % 8) 0)).length := by
    simpa using hk
  have hc := chunk_at T.size (buf.drop (8 * strides n * T.size)) _ k hlen (by
    intro x hx
    rw [List.mem_map] at hx
    obtain ⟨a, _, ha⟩ := hx
    rw [← ha]; exact hs _)
  unfold elemAt at hc
  rw [hc, List.getElem_map, List.getElem_range]

theorem int8_t_store_length (v : ℚ) : (int8_t.store v).length = int8_t.size := rfl

theorem int16_t_store_length (v : ℚ) : (int16_t.store v).length = int16_t.size := rfl

theorem int8_t_zero : assignTo int8_t 0 = 0 := by decide!

theorem int16_t_zero : assignTo int16_t 0 = 0 := by decide!

theorem getD_range_map (c : Nat → ℚ) (j : Nat) (hj : j < 8) :
    ((List.range 8).map c).getD j 0 = c j := by
  rw [List.getD_eq_getElem?_getD, List.getElem?_map, List.getElem?_range hj]
  rfl

theorem natCast_pow_two (e : Nat) : ((8 * 2 ^ e : Nat) : ℚ) = (2 : ℚ) ^ ((e : ℤ) + 3) := by
  rw [zpow_add₀ (by norm_num : (2 : ℚ) ≠ 0), zpow_natCast]
  push_cast
  norm_num
  ring

/-- The blend of `measQuadDcOffset` with coefficient 1 on a lane whose `2 ^ e`
samples all are the integer `z`, with `2 ^ e * |z| ≤ 2 ^ 24`: exactly `z`. -/
theorem blend_exact (e : Nat) (z : ℤ) (off : ℚ) (hz : (2 : ℤ) ^ e * |z| ≤ 2 ^ 24) :
    fadd (fmul (fmul (((2 ^ e : ℕ) : ℤ) * z : ℤ) (fdiv 8 (fround ((8 * 2 ^ e : Nat) : ℚ)))) 1)
      (fmul off (fsub 1 1)) = z := by
  have habs : |z| ≤ 2 ^ 24 := by
    have h1 : (1 : ℤ) ≤ 2 ^ e := one_le_pow₀ (by norm_num)
    calc |z| = 1 * |z| := (one_mul _).symm
      _ ≤ 2 ^ e * |z| := mul_le_mul_of_nonneg_right h1 (abs_nonneg z)
      _ ≤ 2 ^ 24 := hz
  have hs : fsub 1 1 = 0 := by unfold fsub; rw [sub_self, fround_zero]
  have hm0 : fmul off 0 = 0 := by unfold fmul; rw [mul_zero, fround_zero]
  have hz1 : fmul (z : ℚ) 1 = z := by unfold fmul; rw [mul_one]; exact fround_intCast z habs
  have ha0 : fadd (z : ℚ) 0 = z := by unfold fadd; rw [add_zero]; exact fround_intCast z habs
  by_cases hz0 : z = 0
  · subst hz0
    have : fmul (((((2 ^ e : ℕ) : ℤ) * 0 : ℤ)) : ℚ) (fdiv 8 (fround ((8 * 2 ^ e : Nat) : ℚ)))
        = ((0 : ℤ) : ℚ) := by
      unfold fmul
      simp [fround_zero]
    rw [this, hs, hm0, hz1, ha0]
  · have hz1' : (1 : ℤ) ≤ |z| := Int.one_le_abs hz0
    have he : e ≤ 24 := by
      by_contra hcon
      have h25 : (2 : ℤ) ^ 25 ≤ 2 ^ e := pow_le_pow_right₀ (by norm_num) (by omega)
      have : (2 : ℤ) ^ e * 1 ≤ 2 ^ e * |z| :=
        mul_le_mul_of_nonneg_left hz1' (by positivity)
      omega
    have hn : fround ((8 * 2 ^ e : Nat) : ℚ) = (2 : ℚ) ^ ((e : ℤ) + 3) := by
      rw [natCast_pow_two]
      exact fround_two_zpow _ (by omega)
    have hf : fdiv 8 (fround ((8 * 2 ^ e : Nat) : ℚ)) = (2 : ℚ) ^ (-(e : ℤ)) := by
      unfold fdiv
      rw [hn]
      have : (8 : ℚ) / (2 : ℚ) ^ ((e : ℤ) + 3) = (2 : ℚ) ^ (-(e : ℤ)) := by
        rw [zpow_add₀ (by norm_num : (2 : ℚ) ≠ 0), zpow_neg]
        field_simp
        ring
      rw [this]
      exact fround_two_zpow _ (by omega)
    have hmul : fmul (((((2 ^ e : ℕ) : ℤ) * z : ℤ)) : ℚ)
        (fdiv 8 (fround ((8 * 2 ^ e : Nat) : ℚ))) = z := by
      unfold fmul
      rw [hf]
      have : (((((2 ^ e : ℕ) : ℤ) * z : ℤ)) : ℚ) * (2 : ℚ) ^ (-(e : ℤ)) = z := by
        rw [zpow_neg, zpow_natCast]
        push_cast
        field_simp
      rw [this]
      exact fround_intCast z habs
    rw [hmul, hs, hm0, hz1, ha0]

theorem measQuadDcOffset_const (T : SampleTy) (buf : List Byte) (e : Nat)
    (offsets : List ℚ) (zs : Nat → ℤ)
    (hc : ∀ k, k < 8 * 2 ^ e → elemAt T buf k = zs (k % 8))
    (hr : ∀ j, j < 8 → assignTo T (zs j) = zs j)
    (hz : ∀ j, j < 8 → (2 : ℤ) ^ e * |zs j| ≤ 2 ^ 24) :
    measQuadDcOffset T buf (8 * 2 ^ e) offsets 1
      = some ((List.range 8).map fun j => (zs j : ℚ)) := by
  unfold measQuadDcOffset
  have h8 : (8 * 2 ^ e) &&& 0x7 = 0 := by rw [and_seven]; omega
  rw [if_pos h8]
  dsimp only
  congr 1
  apply List.map_congr_left
  intro j hj
  have hj8 : j < 8 := List.mem_range.1 hj
  have hzj : ((2 ^ e : ℕ) : ℤ) * |zs j| ≤ 2 ^ 24 := by
    have := hz j hj8
    push_cast
    exact this
  rw [strides_mul, foldl_fadd_const (fun i => elemAt T buf (8 * i + j)) (zs j) (2 ^ e) (by
    intro i hi
    have h := hc (8 * i + j) (by omega)
    have e1 : (8 * i + j) % 8 = j := by omega
    rw [e1] at h; exact h) hzj (2 ^ e) le_rfl]
  rw [blend_exact e (zs j) _ (hz j hj8)]
  exact hr j hj8

theorem applyQuadDcOffset_const (T : SampleTy) (hs : ∀ v, (T.store v).length = T.size)
    (h0 : assignTo T 0 = 0) (buf buf1 : List Byte) (m : Nat) (c : Nat → ℚ)
    (hc : ∀ k, k < 8 * m → elemAt T buf k = c (k % 8))
    (h : applyQuadDcOffset T buf (8 * m) ((List.range 8).map c) = some buf1)
    (k : Nat) (hk : k < 8 * m) : elemAt T buf1 k = 0 := by
  rw [elemAt_applyQuadDcOffset T hs buf buf1 (8 * m) _ h k (by rw [strides_mul]; exact hk),
    getD_range_map c (k % 8) (Nat.mod_lt k (by decide)), hc k hk, sub_self, h0]

/-- C12 (initial calibration), as amended: with the `float` arithmetic of the
code (binary32, every operation rounded). For the integer sample types, every
`n = 8 * 2 ^ e`, every prior `offsets` and every buffer whose element at each
lane `j` (index mod 8) is a constant integer `zs j` representable in the
sample type, with `(n / 8) * |zs j| ≤ 2 ^ 24`: `measQuadDcOffset` with
`filter_coeff = 1` sets `offsets[j] = zs j` whatever `offsets` held before,
the following `applyQuadDcOffset` runs and turns every one of the `n` elements
into 0, and a fresh measurement of the corrected buffer finds 0 in every lane. -/
theorem calibration_locks_on (T : SampleTy) (hT : T = int8_t ∨ T = int16_t)
    (n e : Nat) (hn : n = 8 * 2 ^ e) (offsets : List ℚ) (buf : List Byte) (zs : Nat → ℤ)
    (hc : ∀ k, k < n → elemAt T buf k = zs (k % 8))
    (hr : ∀ j, j < 8 → assignTo T (zs j) = zs j)
    (hz : ∀ j, j < 8 → (2 : ℤ) ^ e * |zs j| ≤ 2 ^ 24) :
    measQuadDcOffset T buf n offsets 1 = some ((List.range 8).map fun j => (zs j : ℚ)) ∧
    ∃ buf1,
      applyQuadDcOffset T buf n ((List.range 8).map fun j => (zs j : ℚ)) = some buf1 ∧
      (∀ k, k < n → elemAt T buf1 k = 0) ∧
      (∀ offsets2,
        measQuadDcOffset T buf1 n offsets2 1 = some ((List.range 8).map fun _ => (0 : ℚ))) := by
  have hlaw : (∀ v, (T.store v).length = T.size) ∧ assignTo T 0 = 0 := by
    rcases hT with h | h
    · subst h; exact ⟨int8_t_store_length, int8_t_zero⟩
    · subst h; exact ⟨int16_t_store_length, int16_t_zero⟩
  obtain ⟨hs, h0⟩ := hlaw
  subst hn
  have e1 := measQuadDcOffset_const T buf e offsets zs hc hr hz
  have hsome : (applyQuadDcOffset T buf (8 * 2 ^ e)
      ((List.range 8).map fun j => (zs j : ℚ))).isSome = true := by
    rw [applyQuadDcOffset_isSome]
    have h8 : (8 * 2 ^ e) &&& 0x7 = 0 := by rw [and_seven]; omega
    simp [h8]
  obtain ⟨buf1, hb1⟩ := Option.isSome_iff_exists.1 hsome
  have e3 : ∀ k, k < 8 * 2 ^ e → elemAt T buf1 k = 0 := fun k hk =>
    applyQuadDcOffset_const T hs h0 buf buf1 (2 ^ e) (fun j => (zs j : ℚ)) hc hb1 k hk
  refine ⟨e1, buf1, hb1, e3, ?_⟩
  intro offsets2
  have := measQuadDcOffset_const T buf1 e offsets2 (fun _ => 0)
    (fun k hk => by rw [e3 k hk]; simp) (fun _ _ => by simpa using h0)
    (fun _ _ => by simp)
  simpa using this

/-- Sixteen `int8_t` samples, 10, 11, ..., 17 twice (two per lane): the
measurement sets the offsets to these values, starting from offsets that were
all 99. -/
theorem calibration_locks_on_witness :
    measQuadDcOffset int8_t [10, 11, 12, 13, 14, 15, 16, 17, 10, 11, 12, 13, 14, 15, 16, 17]
        16 (List.replicate 8 99) 1
      = some ((List.range 8).map (fun j => (((10 + j : ℕ) : ℤ) : ℚ))) :=
  (calibration_locks_on int8_t (Or.inl rfl) 16 1 (by decide)
    (List.replicate 8 99) [10, 11, 12, 13, 14, 15, 16, 17, 10, 11, 12, 13, 14, 15, 16, 17]
    (fun j => ((10 + j : ℕ) : ℤ))
    (by intro k hk; interval_cases k <;> decide!)
    (by intro j hj; interval_cases j <;> decide!)
    (by intro j hj; interval_cases j <;> decide)).1

/-- The claim as first stated fails for the code: 328 `int8_t` samples, all 1
(41 per lane, each representable), prior offsets 0. The lane sums are 41, but
`8.0f / 328` rounds below 8/328 and `41 * (8.0f / 328)` is the float just below
1, which the assignment to `int8_t` truncates to 0: the offsets stay 0 and the
subtraction leaves every sample at 1. -/
theorem calibration_locks_on_counterexample :
    328 % 8 = 0 ∧
    (∀ k, k < 328 → elemAt int8_t (List.replicate 328 1) k = 1) ∧
    assignTo int8_t 1 = 1 ∧
    fmul 41 (fdiv 8 (fround 328)) = 16777215 / 16777216 ∧
    measQuadDcOffset int8_t (List.replicate 328 1) 328 (List.replicate 8 0) 1
      = some (List.replicate 8 0) ∧
    applyQuadDcOffset int8_t (List.replicate 328 1) 328 (List.replicate 8 0)
      = some (List.replicate 328 1) := by
  refine ⟨by decide, ?_, by decide!, by decide!, by decide!, by decide!⟩
  intro k hk
  unfold elemAt
  have : ((List.replicate 328 (1 : Byte)).drop (k * int8_t.size)).take int8_t.size = [1] := by
    show ((List.replicate 328 (1 : Byte)).drop (k * 1)).take 1 = [1]
    rw [Nat.mul_one, List.drop_replicate, List.take_replicate]
    have : min 1 (328 - k) = 1 := by omega
    rw [this]; rfl
  rw [this]
  decide!

end SoapyRFNM
